import Mathlib

/-! dajunmuduo: Buffer, EventLoopThreadPool, TcpServer and TcpConnection

A shallow embedding of the byte buffer (`Buffer.h`), the round-robin loop pool
(`EventLoopThreadPool.cc`), the server facade (`TcpServer.cc`, `Acceptor.cc`) and the
send path of a connection (`TcpConnection.cc`), followed by the theorems that settle
the claims made about them.

Conventions of the embedding.
* `size_t` is a 64-bit unsigned integer: a value is a natural number below `SIZE_MOD`
  and `+`, `-` on `size_t` are `uadd`, `usub`, which wrap around.
* `std::vector<char>` is a list of bytes; its `size()` is the length of the list.
* A raw write through a pointer never changes the size of the vector: `copyInto` keeps
  the length of the destination, bytes that would land past the end are not stored.
* `buffer_.resize` throws `std::length_error` beyond `max_size()`: `resizeOrThrow` and the
  `OrThrow` form of the methods that reach it have no result then; `resize` and the plain
  methods give the effect of the call when it returns.
-/

namespace Muduo

/-! ## size_t arithmetic -/

/-- Number of values of the 64-bit type `size_t`. -/
def SIZE_MOD : Nat := 18446744073709551616

/-- Addition of two `size_t` values. -/
def uadd (a b : Nat) : Nat := (a + b) % SIZE_MOD

/-- Subtraction of two `size_t` values (each below `SIZE_MOD`). -/
def usub (a b : Nat) : Nat := (a + SIZE_MOD - b) % SIZE_MOD

/-! ## Buffer.h -/

/-- One `char` of storage. -/
abbrev Byte := UInt8

/-- Effect of `std::vector<char>::resize(n)` when the call returns: truncate, or pad with
value-initialised bytes. -/
def resize (v : List Byte) (n : Nat) : List Byte :=
  v.take n ++ List.replicate (n - v.length) 0

/-- Value of `std::vector<char>::max_size()` on a 64-bit platform: the largest `ptrdiff_t`,
`2^63 - 1`. -/
def MAX_SIZE : Nat := 9223372036854775807

/-- The call `std::vector<char>::resize(n)`: growing to more than `max_size()` elements
throws `std::length_error` and leaves the vector as it is (no result); otherwise the call
returns and its effect is `resize`. The allocation itself is taken to succeed. -/
def resizeOrThrow (v : List Byte) (n : Nat) : Option (List Byte) :=
  if v.length < n ∧ MAX_SIZE < n then none else some (resize v n)

/-- Effect of `std::copy(src, src + len, begin() + pos)` on the storage `dst`. -/
def copyInto (dst : List Byte) (pos : Nat) (src : List Byte) : List Byte :=
  (dst.take pos ++ src ++ dst.drop (pos + src.length)).take dst.length

/-- The class `Buffer`: the storage and the two indices. -/
structure Buffer where
  buffer_ : List Byte
  readerIndex_ : Nat
  writerIndex_ : Nat
deriving DecidableEq, Repr

namespace Buffer

/-- Constant `kCheapPrepend`. -/
def kCheapPrepend : Nat := 8

/-- Constant `kInitiaSize`. -/
def kInitiaSize : Nat := 1024

/-- Constructor `Buffer(size_t initialSize)`. -/
def init (initialSize : Nat) : Buffer :=
  { buffer_ := List.replicate (uadd kCheapPrepend initialSize) 0
    readerIndex_ := kCheapPrepend
    writerIndex_ := kCheapPrepend }

/-- Method `readableBytes`. -/
def readableBytes (b : Buffer) : Nat := usub b.writerIndex_ b.readerIndex_

/-- Method `writableBytes`. -/
def writableBytes (b : Buffer) : Nat := usub b.buffer_.length b.writerIndex_

/-- Method `prependableBytes`. -/
def prependableBytes (b : Buffer) : Nat := b.readerIndex_

/-- Method `peek`: the storage from `readerIndex_` on. -/
def peek (b : Buffer) : List Byte := b.buffer_.drop b.readerIndex_

/-- The bytes in `[readerIndex_, writerIndex_)`: the first `readableBytes` bytes at `peek`. -/
def readable (b : Buffer) : List Byte := b.peek.take b.readableBytes

/-- Method `retrieveAll`. -/
def retrieveAll (b : Buffer) : Buffer :=
  { b with readerIndex_ := kCheapPrepend, writerIndex_ := kCheapPrepend }

/-- Method `retrieve`. -/
def retrieve (b : Buffer) (len : Nat) : Buffer :=
  if len < b.readableBytes then
    { b with readerIndex_ := uadd b.readerIndex_ len }
  else
    b.retrieveAll

/-- Method `retrieveAsString`: the string built from `peek`, and the buffer afterwards. -/
def retrieveAsString (b : Buffer) (len : Nat) : List Byte × Buffer :=
  (b.peek.take len, b.retrieve len)

/-- Method `retrieveAllAsString`. -/
def retrieveAllAsString (b : Buffer) : List Byte × Buffer :=
  b.retrieveAsString b.readableBytes

/-- Method `makeSpace`. -/
def makeSpace (b : Buffer) (len : Nat) : Buffer :=
  if uadd b.writableBytes b.prependableBytes < uadd len kCheapPrepend then
    { b with buffer_ := resize b.buffer_ (uadd b.writerIndex_ len) }
  else
    let readable := b.readableBytes
    { buffer_ := copyInto b.buffer_ kCheapPrepend
        ((b.buffer_.drop b.readerIndex_).take (b.writerIndex_ - b.readerIndex_))
      readerIndex_ := kCheapPrepend
      writerIndex_ := uadd kCheapPrepend readable }

/-- Method `ensureWriteableBytes`. -/
def ensureWriteableBytes (b : Buffer) (len : Nat) : Buffer :=
  if b.writableBytes < len then b.makeSpace len else b

/-- Method `append(data, len)`, the bytes `[data, data + len)` given as the list `data`. -/
def append (b : Buffer) (data : List Byte) : Buffer :=
  let b1 := b.ensureWriteableBytes data.length
  { b1 with
    buffer_ := copyInto b1.buffer_ b1.writerIndex_ data
    writerIndex_ := uadd b1.writerIndex_ data.length }

/-- Method `makeSpace` as a call: it has no result when `buffer_.resize` throws. -/
def makeSpaceOrThrow (b : Buffer) (len : Nat) : Option Buffer :=
  if uadd b.writableBytes b.prependableBytes < uadd len kCheapPrepend then
    match resizeOrThrow b.buffer_ (uadd b.writerIndex_ len) with
    | some v => some { b with buffer_ := v }
    | none => none
  else
    let readable := b.readableBytes
    some
      { buffer_ := copyInto b.buffer_ kCheapPrepend
          ((b.buffer_.drop b.readerIndex_).take (b.writerIndex_ - b.readerIndex_))
        readerIndex_ := kCheapPrepend
        writerIndex_ := uadd kCheapPrepend readable }

/-- Method `ensureWriteableBytes` as a call: it has no result when `makeSpace` throws. -/
def ensureWriteableBytesOrThrow (b : Buffer) (len : Nat) : Option Buffer :=
  if b.writableBytes < len then b.makeSpaceOrThrow len else some b

/-- Method `append(data, len)` as a call: it has no result when `ensureWriteableBytes`
throws, in which case nothing has been copied. -/
def appendOrThrow (b : Buffer) (data : List Byte) : Option Buffer :=
  match b.ensureWriteableBytesOrThrow data.length with
  | some b1 =>
    some { b1 with
      buffer_ := copyInto b1.buffer_ b1.writerIndex_ data
      writerIndex_ := uadd b1.writerIndex_ data.length }
  | none => none

/-- The index invariant: `kCheapPrepend <= readerIndex_ <= writerIndex_ <= size`,
the size being a `size_t`. -/
def Inv (b : Buffer) : Prop :=
  kCheapPrepend ≤ b.readerIndex_ ∧ b.readerIndex_ ≤ b.writerIndex_ ∧
    b.writerIndex_ ≤ b.buffer_.length ∧ b.buffer_.length < SIZE_MOD

instance (b : Buffer) : Decidable b.Inv := by
  unfold Inv; infer_instance

end Buffer

/-- One call on a `Buffer`. -/
inductive BufOp where
  | append (data : List Byte)
  | retrieve (n : Nat)
  | retrieveAll
  | retrieveAsString (n : Nat)
  | ensureWriteableBytes (n : Nat)
deriving DecidableEq, Repr

namespace BufOp

/-- The buffer after one call. -/
def apply (b : Buffer) : BufOp → Buffer
  | append data => b.append data
  | retrieve n => b.retrieve n
  | retrieveAll => b.retrieveAll
  | retrieveAsString n => (b.retrieveAsString n).2
  | ensureWriteableBytes n => b.ensureWriteableBytes n

/-- The arguments are `size_t` values, and an appended string lies in the same address
space as the storage it is copied to. -/
def wellTyped (b : Buffer) : BufOp → Bool
  | append data => decide (b.writerIndex_ + data.length < SIZE_MOD)
  | retrieve n => decide (n < SIZE_MOD)
  | retrieveAll => true
  | retrieveAsString n => decide (n < SIZE_MOD)
  | ensureWriteableBytes n => decide (n < SIZE_MOD)

/-- A `retrieveAsString(n)` stays within the readable bytes. -/
def stringInRange (b : Buffer) : BufOp → Bool
  | retrieveAsString n => decide (n ≤ b.readableBytes)
  | _ => true

/-- Each `retrieve(n)` and `retrieveAsString(n)` stays within the readable bytes. -/
def inRange (b : Buffer) : BufOp → Bool
  | retrieve n => decide (n ≤ b.readableBytes)
  | retrieveAsString n => decide (n ≤ b.readableBytes)
  | _ => true

/-- The sum `writerIndex_ + n` of `ensureWriteableBytes(n)` does not wrap around. -/
def noWrap (b : Buffer) : BufOp → Bool
  | ensureWriteableBytes n => decide (b.writerIndex_ + n < SIZE_MOD)
  | _ => true

/-- Effect of one call on the abstract queue of bytes. -/
def queueStep (q : List Byte) : BufOp → List Byte
  | append data => q ++ data
  | retrieve n => q.drop n
  | retrieveAll => []
  | retrieveAsString n => q.drop n
  | ensureWriteableBytes _ => q

/-- Number of bytes a call appends. -/
def appended : BufOp → Nat
  | append data => data.length
  | _ => 0

/-- Number of bytes a call retrieves from the buffer `b`. -/
def retrieved (b : Buffer) : BufOp → Nat
  | retrieve n => n
  | retrieveAsString n => n
  | retrieveAll => b.readableBytes
  | _ => 0

end BufOp

/-- The buffer after a sequence of calls. -/
def runOps (b : Buffer) : List BufOp → Buffer
  | [] => b
  | op :: ops => runOps (op.apply b) ops

/-- Every call of the sequence satisfies `p` in the state it is applied to. -/
def allOps (p : Buffer → BufOp → Bool) (b : Buffer) : List BufOp → Bool
  | [] => true
  | op :: ops => p b op && allOps p (op.apply b) ops

/-- The abstract queue after a sequence of calls. -/
def runQueue (q : List Byte) : List BufOp → List Byte
  | [] => q
  | op :: ops => runQueue (op.queueStep q) ops

/-- Total number of bytes appended by a sequence of calls. -/
def totalAppended : List BufOp → Nat
  | [] => 0
  | op :: ops => op.appended + totalAppended ops

/-- Total number of bytes retrieved by a sequence of calls started on `b`. -/
def totalRetrieved (b : Buffer) : List BufOp → Nat
  | [] => 0
  | op :: ops => op.retrieved b + totalRetrieved (op.apply b) ops

namespace BufOp

/-- The calls of a sequence in which a `retrieve(n)` takes any `n` and a
`retrieveAsString(n)` stays within the readable bytes. -/
def anyRetrieve (b : Buffer) (op : BufOp) : Bool := op.wellTyped b && op.stringInRange b

/-- The calls of a sequence in which each `retrieve(n)` stays within the readable bytes. -/
def boundedRetrieve (b : Buffer) (op : BufOp) : Bool := op.wellTyped b && op.inRange b

end BufOp

/-! ## int arithmetic -/

/-- Largest value of the 32-bit type `int`. -/
def INT_MAX : Int := 2147483647

/-- Conversion of a signed value to `size_t`. -/
def toSizeT (i : Int) : Nat := (i % (SIZE_MOD : Int)).toNat

/-- Statement `++i` on an `int`: there is no result when the increment overflows. -/
def incInt (i : Int) : Option Int := if i + 1 ≤ INT_MAX then some (i + 1) else none

/-! ## Buffer.cc -/

/-- What `readFd` leaves behind: the value returned, the value at `saveErrno`, the buffer. -/
structure ReadResult where
  n : Int
  saveErrno : Int
  buf : Buffer
deriving DecidableEq, Repr

namespace Buffer

/-- Size of the local array `extrabuf` of `readFd`. -/
def kExtraBufSize : Nat := 65536

/-- Number of segments handed to `::readv` by `readFd`: the local `iovcnt`. -/
def iovcnt (b : Buffer) : Nat := if b.writableBytes < kExtraBufSize then 2 else 1

/-- Number of bytes the segments handed to `::readv` can take: `vec[0].iov_len`, plus
`vec[1].iov_len` when `iovcnt` is 2. -/
def readvCapacity (b : Buffer) : Nat :=
  if b.iovcnt = 2 then b.writableBytes + kExtraBufSize else b.writableBytes

/-- Method `readFd(fd, saveErrno)`. `n` and `errno` are what `::readv` returns and sets;
when `n >= 0` the kernel has delivered the first `n` bytes of `data`, filling the first
segment (the writable region) and then the second (`extrabuf`, if it was handed over);
`saveErrno` is the value `*saveErrno` has on entry. -/
def readFd (b : Buffer) (n : Int) (data : List Byte) (errno saveErrno : Int) : ReadResult :=
  let writable := b.writableBytes
  let delivered := data.take n.toNat
  let filled := { b with buffer_ := copyInto b.buffer_ b.writerIndex_ (delivered.take writable) }
  let extrabuf :=
    if b.iovcnt = 2 then copyInto (List.replicate kExtraBufSize 0) 0 (delivered.drop writable)
    else List.replicate kExtraBufSize 0
  if n < 0 then
    { n := n, saveErrno := errno, buf := b }
  else if toSizeT n ≤ writable then
    { n := n, saveErrno := saveErrno,
      buf := { filled with writerIndex_ := uadd filled.writerIndex_ (toSizeT n) } }
  else
    { n := n, saveErrno := saveErrno,
      buf := Buffer.append { filled with writerIndex_ := filled.buffer_.length }
        (extrabuf.take (usub (toSizeT n) writable)) }

/-- Method `writeFd(fd, saveErrno)`: `n` and `errno` are what `::write(fd, peek(),
readableBytes())` returns and sets; the value returned and the value at `saveErrno`. -/
def writeFd (_b : Buffer) (n errno saveErrno : Int) : Int × Int :=
  if n < 0 then (n, errno) else (n, saveErrno)

end Buffer

/-! ## EventLoopThreadPool.cc -/

/-- An `EventLoop*`: loops are told apart by a number. -/
abbrev EventLoop := Nat

/-- The class `EventLoopThreadPool`; `initCalls_` lists the loops that `start` itself has run
the thread-init callback on. -/
structure EventLoopThreadPool where
  baseLoop_ : EventLoop
  started_ : Bool
  numThreads_ : Int
  next_ : Int
  loops_ : List EventLoop
  initCalls_ : List EventLoop
deriving DecidableEq, Repr

namespace EventLoopThreadPool

/-- Constructor `EventLoopThreadPool(baseLoop, nameArg)`. -/
def init (baseLoop : EventLoop) : EventLoopThreadPool :=
  { baseLoop_ := baseLoop, started_ := false, numThreads_ := 0, next_ := 0, loops_ := [],
    initCalls_ := [] }

/-- Method `setThreadNum`. -/
def setThreadNum (p : EventLoopThreadPool) (numThreads : Int) : EventLoopThreadPool :=
  { p with numThreads_ := numThreads }

/-- Method `start(cb)`: `cb` tells whether the callback is set, `startLoop i` is the loop
returned by `startLoop()` of the thread created in round `i`. -/
def start (p : EventLoopThreadPool) (cb : Bool) (startLoop : Nat → EventLoop) :
    EventLoopThreadPool :=
  let p1 := { p with started_ := true }
  let p2 := { p1 with loops_ := p1.loops_ ++ (List.range p1.numThreads_.toNat).map startLoop }
  if p2.numThreads_ = 0 ∧ cb = true then
    { p2 with initCalls_ := p2.initCalls_ ++ [p2.baseLoop_] }
  else p2

/-- Method `getNextLoop`: the loop returned and the pool afterwards; there is no result when
`loops_[next_]` is out of bounds or `++next_` overflows. -/
def getNextLoop (p : EventLoopThreadPool) : Option (EventLoop × EventLoopThreadPool) :=
  if p.loops_.isEmpty then some (p.baseLoop_, p)
  else
    match p.loops_[toSizeT p.next_]?, incInt p.next_ with
    | some loop, some next1 =>
      if toSizeT next1 ≥ p.loops_.length then some (loop, { p with next_ := 0 })
      else some (loop, { p with next_ := next1 })
    | _, _ => none

/-- The loops returned by `k` successive calls of `getNextLoop`, and the pool afterwards. -/
def getNextLoops : Nat → EventLoopThreadPool → Option (List EventLoop × EventLoopThreadPool)
  | 0, p => some ([], p)
  | k + 1, p =>
    match p.getNextLoop with
    | none => none
    | some (loop, p1) =>
      match getNextLoops k p1 with
      | none => none
      | some (loops, p2) => some (loop :: loops, p2)

/-- The cursor of the pool is an index into `loops_`, whose length is an `int`. -/
def Ok (p : EventLoopThreadPool) : Prop :=
  p.loops_ = [] ∨ ∃ c : Nat, p.next_ = (c : Int) ∧ c < p.loops_.length ∧
    (p.loops_.length : Int) ≤ INT_MAX

end EventLoopThreadPool

/-! ## Channel.h -/

namespace Channel

/-- Modelled from the spec: the constant `Channel::kNoneEvent`, defined in `Channel.cc`;
the interested-event mask is a bitmask over {Readable, Writable}, empty here. -/
def kNoneEvent : Nat := 0

/-- Modelled from the spec: the constant `Channel::kReadEvent`, defined in `Channel.cc`;
the Readable bits of the mask (`EPOLLIN | EPOLLPRI`). -/
def kReadEvent : Nat := 3

/-- Modelled from the spec: the constant `Channel::kWriteEvent`, defined in `Channel.cc`;
the Writable bit of the mask (`EPOLLOUT`). -/
def kWriteEvent : Nat := 4

/-- Method `enableReading`, on the mask `events_`. -/
def enableReading (events : Nat) : Nat := events ||| kReadEvent

/-- Method `disableReading`: `events_ &= ~kReadEvent`. -/
def disableReading (events : Nat) : Nat := events ^^^ (events &&& kReadEvent)

/-- Method `enableWriting`. -/
def enableWriting (events : Nat) : Nat := events ||| kWriteEvent

/-- Method `disableWriting`: `events_ &= ~kWriteEvent`. -/
def disableWriting (events : Nat) : Nat := events ^^^ (events &&& kWriteEvent)

/-- Method `disableAll`. -/
def disableAll (_events : Nat) : Nat := kNoneEvent

/-- Method `isNoneEvent`. -/
def isNoneEvent (events : Nat) : Bool := events == kNoneEvent

/-- Method `isWriting`. -/
def isWriting (events : Nat) : Bool := events &&& kWriteEvent != 0

/-- Method `isReading`. -/
def isReading (events : Nat) : Bool := events &&& kReadEvent != 0

end Channel

/-! ## TcpConnection.cc -/

/-- A `std::string`. -/
abbrev Str := List Char

/-- Modelled from the spec: the enumeration `TcpConnection::StateE`, declared in
`TcpConnection.h`; a discriminated state in {Connecting, Connected, Disconnecting,
Disconnected}, with the enumerators `TcpConnection.cc` uses. -/
inductive StateE where
  | kDisconnected
  | kConnecting
  | kConnected
  | kDisconnecting
deriving DecidableEq, Repr

/-- A functor handed to `loop_->queueInLoop`. -/
inductive Functor where
  | writeComplete
  | highWaterMark (len : Nat)
  | sendInLoop (message : List Byte)
  | shutdownInLoop
deriving DecidableEq, Repr

/-- A user callback invoked synchronously. -/
inductive UserCall where
  | connection (state : StateE)
  | message
  | close
deriving DecidableEq, Repr

/-- Value of `errno` after `EAGAIN` / `EWOULDBLOCK`. -/
def EWOULDBLOCK : Int := 11

/-- Value of `errno` after `EPIPE`. -/
def EPIPE : Int := 32

/-- Value of `errno` after `ECONNRESET`. -/
def ECONNRESET : Int := 104

/-- The class `TcpConnection`. The channel is its mask `events_`; a callback member is
`true` when the `std::function` is set; `pendingFunctors_` are the functors queued on
`loop_`; `calls_` are the user callbacks invoked so far; `sent_` are the bytes the socket
has accepted; `shutdownWrites_` counts the calls of `Socket::shutdownWrite`,
`shutdownPending_` lists, for each of these calls, the number of readable bytes the output
buffer holds at that moment, and `shutdownStates_` the value of `state_` at that moment. -/
structure TcpConnection where
  loop_ : EventLoop
  name_ : Str
  sockfd_ : Int
  localAddr_ : Str
  peerAddr_ : Str
  state_ : StateE
  reading_ : Bool
  events_ : Nat
  tied_ : Bool
  removed_ : Bool
  keepAlive_ : Bool
  inputBuffer_ : Buffer
  outputBuffer_ : Buffer
  highWaterMark_ : Nat
  connectionCallback_ : Bool
  messageCallback_ : Bool
  writeCompleteCallback_ : Bool
  highWaterMarkCallback_ : Bool
  closeCallback_ : Bool
  pendingFunctors_ : List Functor
  calls_ : List UserCall
  sent_ : List Byte
  shutdownWrites_ : Nat
  shutdownPending_ : List Nat
  shutdownStates_ : List StateE
deriving DecidableEq, Repr

/-- What the direct `::write` of `sendInLoop` leaves behind: the local variables `nwrote`,
`remaining`, `faultError`, and the connection. -/
structure SendAttempt where
  nwrote : Int
  remaining : Nat
  faultError : Bool
  conn : TcpConnection
deriving DecidableEq, Repr

/-- How a member function that invokes user callbacks ends: it returns, or the call of an
empty `std::function` throws `std::bad_function_call`, which leaves the function at once;
`conn` is the connection at that point. -/
inductive Outcome where
  | returned (conn : TcpConnection)
  | threw (conn : TcpConnection)
deriving DecidableEq, Repr

namespace Outcome

/-- The connection a member function leaves behind. -/
def conn : Outcome → TcpConnection
  | returned c => c
  | threw c => c

/-- Whether the member function returned. -/
def isReturned : Outcome → Bool
  | returned _ => true
  | threw _ => false

/-- The statements `f` that follow a call: skipped when the call threw. -/
def andThen (o : Outcome) (f : TcpConnection → Outcome) : Outcome :=
  match o with
  | returned c => f c
  | threw c => threw c

end Outcome

namespace TcpConnection

/-- Constructor `TcpConnection(loop, nameArg, sockfd, localAddr, peerAddr)`. -/
def init (loop : EventLoop) (nameArg : Str) (sockfd : Int) (localAddr peerAddr : Str) :
    TcpConnection :=
  { loop_ := loop, name_ := nameArg, sockfd_ := sockfd, localAddr_ := localAddr,
    peerAddr_ := peerAddr, state_ := StateE.kConnecting, reading_ := true,
    events_ := Channel.kNoneEvent, tied_ := false, removed_ := false, keepAlive_ := true,
    inputBuffer_ := Buffer.init Buffer.kInitiaSize,
    outputBuffer_ := Buffer.init Buffer.kInitiaSize,
    highWaterMark_ := 64 * 1024 * 1024,
    connectionCallback_ := false, messageCallback_ := false, writeCompleteCallback_ := false,
    highWaterMarkCallback_ := false, closeCallback_ := false,
    pendingFunctors_ := [], calls_ := [], sent_ := [], shutdownWrites_ := 0,
    shutdownPending_ := [], shutdownStates_ := [] }

/-- Method `loop_->queueInLoop(f)`. -/
def queueInLoop (c : TcpConnection) (f : Functor) : TcpConnection :=
  { c with pendingFunctors_ := c.pendingFunctors_ ++ [f] }

/-- First half of `sendInLoop`, up to the test `remaining > 0`; `nwrote` and `errno` are
what `::write(fd, message, len)` returns and sets if it is called. -/
def directWrite (c : TcpConnection) (message : List Byte) (nwrote errno : Int) : SendAttempt :=
  let len := message.length
  if !Channel.isWriting c.events_ && c.outputBuffer_.readableBytes == 0 then
    if nwrote ≥ 0 then
      let remaining := usub len (toSizeT nwrote)
      let c1 := { c with sent_ := c.sent_ ++ message.take nwrote.toNat }
      if remaining == 0 && c1.writeCompleteCallback_ then
        { nwrote := nwrote, remaining := remaining, faultError := false,
          conn := c1.queueInLoop Functor.writeComplete }
      else
        { nwrote := nwrote, remaining := remaining, faultError := false, conn := c1 }
    else
      if errno ≠ EWOULDBLOCK then
        if errno = EPIPE ∨ errno = ECONNRESET then
          { nwrote := 0, remaining := len, faultError := true, conn := c }
        else
          { nwrote := 0, remaining := len, faultError := false, conn := c }
      else
        { nwrote := 0, remaining := len, faultError := false, conn := c }
  else
    { nwrote := 0, remaining := len, faultError := false, conn := c }

/-- Second half of `sendInLoop`: the block `if(remaining > 0)`. The flag `faultError` the
first half has set is not read by it. -/
def bufferRemaining (a : SendAttempt) (message : List Byte) : TcpConnection :=
  let c := a.conn
  if a.remaining > 0 then
    let oldlen := c.outputBuffer_.readableBytes
    let c1 :=
      if uadd oldlen a.remaining ≥ c.highWaterMark_ ∧ oldlen < c.highWaterMark_
          ∧ c.highWaterMarkCallback_ = true then
        c.queueInLoop (Functor.highWaterMark (uadd oldlen a.remaining))
      else c
    let c2 := { c1 with
      outputBuffer_ := c1.outputBuffer_.append ((message.drop a.nwrote.toNat).take a.remaining) }
    if !Channel.isWriting c2.events_ then
      { c2 with events_ := Channel.enableWriting c2.events_ }
    else c2
  else c

/-- Method `sendInLoop(message, len)`. -/
def sendInLoop (c : TcpConnection) (message : List Byte) (nwrote errno : Int) : TcpConnection :=
  if c.state_ = StateE.kDisconnected then c
  else bufferRemaining (directWrite c message nwrote errno) message

/-- Call of a callback member (`isSet` tells whether the `std::function` holds a target):
the call is recorded, or `std::bad_function_call` is thrown. -/
def invoke (c : TcpConnection) (isSet : Bool) (call : UserCall) : Outcome :=
  if isSet then Outcome.returned { c with calls_ := c.calls_ ++ [call] }
  else Outcome.threw c

/-- Modelled from the spec: the method `EventLoop::runInLoop`, defined in `EventLoop.cc`,
when the caller is not on the owning thread of the loop: the task is queued. On the owning
thread the task is executed immediately, which the callers below do by calling it. -/
def runInLoopQueued (c : TcpConnection) (f : Functor) : TcpConnection := c.queueInLoop f

/-- Method `send(buf)`; `inLoopThread` is `loop_->isInLoopThread()`, and `nwrote`, `errno`
are the result of the `::write` of `sendInLoop` if it is reached and calls it. -/
def send (c : TcpConnection) (buf : List Byte) (inLoopThread : Bool) (nwrote errno : Int) :
    TcpConnection :=
  if c.state_ = StateE.kConnected then
    if inLoopThread then c.sendInLoop buf nwrote errno
    else c.runInLoopQueued (Functor.sendInLoop buf)
  else c

/-- Method `shutdownInLoop`. -/
def shutdownInLoop (c : TcpConnection) : TcpConnection :=
  if !Channel.isWriting c.events_ then
    { c with
      shutdownWrites_ := c.shutdownWrites_ + 1
      shutdownPending_ := c.shutdownPending_ ++ [c.outputBuffer_.readableBytes]
      shutdownStates_ := c.shutdownStates_ ++ [c.state_] }
  else c

/-- Method `shutdown`; `inLoopThread` is `loop_->isInLoopThread()`. -/
def shutdown (c : TcpConnection) (inLoopThread : Bool) : TcpConnection :=
  if c.state_ = StateE.kConnected then
    let c1 := { c with state_ := StateE.kDisconnecting }
    if inLoopThread then c1.shutdownInLoop
    else c1.runInLoopQueued Functor.shutdownInLoop
  else c

/-- Method `connectEstablished`. -/
def connectEstablished (c : TcpConnection) : Outcome :=
  let c1 := { c with
    state_ := StateE.kConnected
    tied_ := true
    events_ := Channel.enableReading c.events_ }
  invoke c1 c1.connectionCallback_ (UserCall.connection c1.state_)

/-- Method `connectDestroyed`. -/
def connectDestroyed (c : TcpConnection) : Outcome :=
  Outcome.andThen
    (if c.state_ = StateE.kConnected then
      let c1 := { c with
        state_ := StateE.kDisconnected
        events_ := Channel.disableAll c.events_ }
      invoke c1 c1.connectionCallback_ (UserCall.connection c1.state_)
    else Outcome.returned c)
    (fun c2 => Outcome.returned { c2 with removed_ := true })

/-- Method `handleClose`. -/
def handleClose (c : TcpConnection) : Outcome :=
  let c1 := { c with
    state_ := StateE.kDisconnected
    events_ := Channel.disableAll c.events_ }
  Outcome.andThen (invoke c1 c1.connectionCallback_ (UserCall.connection c1.state_))
    (fun c2 => invoke c2 c2.closeCallback_ UserCall.close)

/-- Method `handleError`: it reads `SO_ERROR` and logs. -/
def handleError (c : TcpConnection) : TcpConnection := c

/-- Method `handleRead(receiveTime)`; `n`, `data`, `errno` are the result of the `::readv`
of `inputBuffer_.readFd`. -/
def handleRead (c : TcpConnection) (n : Int) (data : List Byte) (errno : Int) : Outcome :=
  let r := c.inputBuffer_.readFd n data errno 0
  let c1 := { c with inputBuffer_ := r.buf }
  if r.n > 0 then invoke c1 c1.messageCallback_ UserCall.message
  else if r.n = 0 then c1.handleClose
  else Outcome.returned c1.handleError

/-- Method `handleWrite`; `n`, `errno` are the result of the `::write` of
`outputBuffer_.writeFd` if it is called: the socket accepts the first `n` readable bytes. -/
def handleWrite (c : TcpConnection) (n errno : Int) : TcpConnection :=
  if Channel.isWriting c.events_ then
    let r := c.outputBuffer_.writeFd n errno 0
    if r.1 > 0 then
      let c1 := { c with
        sent_ := c.sent_ ++ c.outputBuffer_.readable.take r.1.toNat
        outputBuffer_ := c.outputBuffer_.retrieve (toSizeT r.1) }
      if c1.outputBuffer_.readableBytes == 0 then
        let c2 := { c1 with events_ := Channel.disableWriting c1.events_ }
        let c3 := if c2.writeCompleteCallback_ then c2.queueInLoop Functor.writeComplete else c2
        if c3.state_ = StateE.kDisconnecting then c3.shutdownInLoop else c3
      else c1
    else c
  else c

end TcpConnection

/-- One operation on a connection, with the results of the system calls it makes. -/
inductive ConnOp where
  | send (buf : List Byte) (inLoopThread : Bool) (nwrote errno : Int)
  | sendInLoop (message : List Byte) (nwrote errno : Int)
  | shutdown (inLoopThread : Bool)
  | shutdownInLoop
  | connectEstablished
  | connectDestroyed
  | handleRead (n : Int) (data : List Byte) (errno : Int)
  | handleWrite (n errno : Int)
  | handleClose
  | handleError
deriving DecidableEq, Repr

namespace ConnOp

/-- The outcome of one operation. -/
def apply (c : TcpConnection) : ConnOp → Outcome
  | send buf inLoopThread nwrote errno => Outcome.returned (c.send buf inLoopThread nwrote errno)
  | sendInLoop message nwrote errno => Outcome.returned (c.sendInLoop message nwrote errno)
  | shutdown inLoopThread => Outcome.returned (c.shutdown inLoopThread)
  | shutdownInLoop => Outcome.returned c.shutdownInLoop
  | connectEstablished => c.connectEstablished
  | connectDestroyed => c.connectDestroyed
  | handleRead n data errno => c.handleRead n data errno
  | handleWrite n errno => Outcome.returned (c.handleWrite n errno)
  | handleClose => c.handleClose
  | handleError => Outcome.returned c.handleError

/-- The system calls answer as they can: a `::write` of `len` bytes returns at most `len`,
the message sent lies in the same address space as the output buffer, and the `::write`
of `handleWrite` returns at most the number of readable bytes it is given. -/
def envOk (c : TcpConnection) : ConnOp → Bool
  | send buf _ nwrote _ =>
    decide (nwrote ≤ buf.length ∧ c.outputBuffer_.writerIndex_ + buf.length < SIZE_MOD)
  | sendInLoop message nwrote _ =>
    decide (nwrote ≤ message.length ∧ c.outputBuffer_.writerIndex_ + message.length < SIZE_MOD)
  | handleWrite n _ => decide (n ≤ c.outputBuffer_.readableBytes)
  | _ => true

end ConnOp

/-- The outcome of a sequence of operations: it ends at the first one that throws. -/
def runConn (c : TcpConnection) : List ConnOp → Outcome
  | [] => Outcome.returned c
  | op :: ops => Outcome.andThen (op.apply c) (fun c1 => runConn c1 ops)

/-- Every operation of the sequence that is reached satisfies `p` in the state it is
applied to. -/
def allConn (p : TcpConnection → ConnOp → Bool) (c : TcpConnection) : List ConnOp → Bool
  | [] => true
  | op :: ops =>
    p c op && (match op.apply c with
      | Outcome.returned c1 => allConn p c1 ops
      | Outcome.threw _ => true)

/-- Order of the states: Connecting < Connected < Disconnecting < Disconnected. -/
def StateE.rank : StateE → Nat
  | StateE.kConnecting => 0
  | StateE.kConnected => 1
  | StateE.kDisconnecting => 2
  | StateE.kDisconnected => 3

/-- A connection just constructed on which the setters of `TcpConnection.h` have installed
(`true`) or not installed (`false`) each callback, and set the high-water mark. -/
def TcpConnection.fresh (loop : EventLoop) (nameArg : Str) (sockfd : Int)
    (localAddr peerAddr : Str) (connectionCb messageCb writeCompleteCb highWaterCb closeCb : Bool)
    (highWaterMark : Nat) : TcpConnection :=
  { TcpConnection.init loop nameArg sockfd localAddr peerAddr with
    connectionCallback_ := connectionCb
    messageCallback_ := messageCb
    writeCompleteCallback_ := writeCompleteCb
    highWaterMarkCallback_ := highWaterCb
    closeCallback_ := closeCb
    highWaterMark_ := highWaterMark }

/-- Write interest tracks pending output: the output buffer satisfies its index invariant
and, unless the state is `kDisconnected`, the channel is writing exactly when the output
buffer has readable bytes. -/
def TcpConnection.WriteTracks (c : TcpConnection) : Prop :=
  c.outputBuffer_.Inv ∧
    (c.state_ ≠ StateE.kDisconnected →
      (Channel.isWriting c.events_ = true ↔ 0 < c.outputBuffer_.readableBytes))

/-- The connection `c1` differs from `c` by an operation that leaves the output side
alone: the output buffer, the bytes sent and the records of `shutdownWrite` are the same,
and either the state is now `kDisconnected`, or the mask is the same and the state is the
same or went from `kConnected` to `kDisconnecting`. -/
def TcpConnection.Quiet (c c1 : TcpConnection) : Prop :=
  c1.outputBuffer_ = c.outputBuffer_ ∧ c1.sent_ = c.sent_ ∧
    c1.shutdownPending_ = c.shutdownPending_ ∧ c1.shutdownWrites_ = c.shutdownWrites_ ∧
    c1.shutdownStates_ = c.shutdownStates_ ∧
    (c1.state_ = StateE.kDisconnected ∨
      (c1.events_ = c.events_ ∧
        (c1.state_ = c.state_ ∨
          (c.state_ = StateE.kConnected ∧ c1.state_ = StateE.kDisconnecting))))

/-- Every call of `Socket::shutdownWrite` recorded so far found the output buffer empty. -/
def TcpConnection.ShutdownsClean (c : TcpConnection) : Prop :=
  (∀ x ∈ c.shutdownPending_, x = 0) ∧ c.shutdownPending_.length = c.shutdownWrites_

namespace ConnOp

/-- The operations that follow `connectEstablished`: all the others. -/
def afterEstablished : ConnOp → Bool
  | connectEstablished => false
  | _ => true

/-- The events and user calls between `connectEstablished` and `connectDestroyed`:
`sendInLoop`, `shutdown`, `handleRead`, `handleWrite`, `handleError`, `handleClose`. -/
def lifetime : ConnOp → Bool
  | sendInLoop _ _ _ => true
  | shutdown _ => true
  | handleRead _ _ _ => true
  | handleWrite _ _ => true
  | handleError => true
  | handleClose => true
  | _ => false

/-- The operations of the buffered write path: `sendInLoop` and `handleWrite`. -/
def writePath : ConnOp → Bool
  | sendInLoop _ _ _ => true
  | handleWrite _ _ => true
  | _ => false

/-- Whether the operation is a close event: `handleClose`, or a `handleRead` that reads
0 bytes. -/
def isClose : ConnOp → Bool
  | handleClose => true
  | handleRead n _ _ => decide (n = 0)
  | _ => false

/-- Whether the operation is a call of `shutdown`. -/
def isShutdown : ConnOp → Bool
  | shutdown _ => true
  | _ => false

/-- The message handed to `sendInLoop`, nothing for the other operations. -/
def message : ConnOp → List Byte
  | sendInLoop m _ _ => m
  | _ => []

end ConnOp

/-- Number of close events in a sequence of operations. -/
def closes (ops : List ConnOp) : Nat := ops.countP ConnOp.isClose

/-- Number of calls of `shutdown` in a sequence of operations. -/
def shutdowns (ops : List ConnOp) : Nat := ops.countP ConnOp.isShutdown

/-- The messages sent by a sequence of operations, one after the other. -/
def messages : List ConnOp → List Byte
  | [] => []
  | op :: ops => op.message ++ messages ops

/-- Number of invocations of the connection callback made in state `s`. -/
def connectionCalls (c : TcpConnection) (s : StateE) : Nat :=
  c.calls_.count (UserCall.connection s)

/-- The connection, message and close callbacks hold a target, as after
`TcpServer::newConnection` with the two user callbacks set. -/
def TcpConnection.CallbacksSet (c : TcpConnection) : Prop :=
  c.connectionCallback_ = true ∧ c.messageCallback_ = true ∧ c.closeCallback_ = true

/-! ## Acceptor.cc -/

/-- The listening `Socket` of an acceptor: the argument of each setter called on it and the
address it is bound to. -/
structure Socket where
  reuseAddr_ : Option Bool
  reusePort_ : Option Bool
  boundTo_ : Option Str
deriving DecidableEq, Repr

namespace Socket

/-- A socket just created by `createNonblocking()`. -/
def init : Socket := { reuseAddr_ := none, reusePort_ := none, boundTo_ := none }

/-- Modelled from the spec: the method `setReuseAddr(on)`, defined in `Socket.cc`; the
setter of SO_REUSEADDR. -/
def setReuseAddr (s : Socket) (flag : Bool) : Socket := { s with reuseAddr_ := some flag }

/-- Modelled from the spec: the method `setReusePort(on)`, defined in `Socket.cc`; the
setter of SO_REUSEPORT. -/
def setReusePort (s : Socket) (flag : Bool) : Socket := { s with reusePort_ := some flag }

/-- Modelled from the spec: the method `bindAddress(localaddr)`, defined in `Socket.cc`;
binds the socket to the configured address. -/
def bindAddress (s : Socket) (localaddr : Str) : Socket := { s with boundTo_ := some localaddr }

end Socket

/-- The class `Acceptor`; `reuseport_` keeps the constructor argument `reuseport`. -/
structure Acceptor where
  loop_ : EventLoop
  acceptSocket_ : Socket
  reuseport_ : Bool
  listenning_ : Bool
  newConnectionCallback_ : Bool
deriving DecidableEq, Repr

namespace Acceptor

/-- Constructor `Acceptor(loop, listenAddr, reuseport)`. -/
def init (loop : EventLoop) (listenAddr : Str) (reuseport : Bool) : Acceptor :=
  { loop_ := loop
    acceptSocket_ := ((Socket.init.setReuseAddr true).setReusePort reuseport).bindAddress listenAddr
    reuseport_ := reuseport
    listenning_ := false
    newConnectionCallback_ := false }

/-- Method `setNewConnectionCallback`. -/
def setNewConnectionCallback (a : Acceptor) : Acceptor := { a with newConnectionCallback_ := true }

end Acceptor

/-! ## TcpServer.cc -/

/-- The enumeration `TcpServer::Option`. -/
inductive ServerOption where
  | kNoReusePort
  | kReusePort
deriving DecidableEq, Repr

/-- Conversion `%d` of `snprintf`. -/
def fmtInt (i : Int) : Str :=
  if i < 0 then '-' :: Nat.toDigits 10 (-i).toNat else Nat.toDigits 10 i.toNat

/-- Method `c_str()` as `%s` reads it: the characters before the first zero character. -/
def cStr (s : Str) : Str := s.takeWhile (fun ch => ch != Char.ofNat 0)

/-- Call `snprintf(buf, size, "-%s$%d", ipPort.c_str(), id)`: the characters left in `buf`
before the terminating zero, at most `size - 1` of them. -/
def snprintfConnSuffix (size : Nat) (ipPort : Str) (id : Int) : Str :=
  ('-' :: (cStr ipPort ++ '$' :: fmtInt id)).take (size - 1)

/-- The class `TcpServer`; an `InetAddress` is given by its `toIpPort()` string;
`connections_` is the map from names to connections; `marshalled_` lists the connections
whose `connectEstablished` has been handed to their loop. -/
structure TcpServer where
  loop_ : EventLoop
  ipPort_ : Str
  name_ : Str
  acceptor_ : Acceptor
  threadPool_ : EventLoopThreadPool
  connectionCallback_ : Bool
  messageCallback_ : Bool
  writeCompleteCallback_ : Bool
  threadInitCallback_ : Bool
  started_ : Int
  nextConnId_ : Int
  connections_ : List (Str × TcpConnection)
  marshalled_ : List (EventLoop × Str)
deriving DecidableEq, Repr

namespace TcpServer

/-- Constructor `TcpServer(loop, listenAddr, nameArg, option)`. -/
def init (loop : EventLoop) (listenAddr : Str) (nameArg : Str) (option : ServerOption) :
    TcpServer :=
  { loop_ := loop
    ipPort_ := listenAddr
    name_ := nameArg
    acceptor_ :=
      (Acceptor.init loop listenAddr (option == ServerOption.kNoReusePort)).setNewConnectionCallback
    threadPool_ := EventLoopThreadPool.init loop
    connectionCallback_ := false
    messageCallback_ := false
    writeCompleteCallback_ := false
    threadInitCallback_ := false
    started_ := 0
    nextConnId_ := 1
    connections_ := []
    marshalled_ := [] }

/-- Constructor with the default argument `option = kNoReusePort`. -/
def initDefault (loop : EventLoop) (listenAddr : Str) (nameArg : Str) : TcpServer :=
  init loop listenAddr nameArg ServerOption.kNoReusePort

/-- Method `setThreadNum`. -/
def setThreadNum (s : TcpServer) (numThreads : Int) : TcpServer :=
  { s with threadPool_ := s.threadPool_.setThreadNum numThreads }

/-- Method `start`; `startLoop` gives the loops of the threads the pool creates. -/
def start (s : TcpServer) (startLoop : Nat → EventLoop) : TcpServer :=
  if s.started_ = 0 then
    { s with
      started_ := s.started_ + 1
      threadPool_ := s.threadPool_.start s.threadInitCallback_ startLoop
      acceptor_ := { s.acceptor_ with listenning_ := true } }
  else
    { s with started_ := s.started_ + 1 }

/-- Statement `connections_[connName] = conn`. -/
def assign (m : List (Str × TcpConnection)) (connName : Str) (conn : TcpConnection) :
    List (Str × TcpConnection) :=
  (connName, conn) :: m.filter (fun e => e.1 != connName)

/-- The registry `m` has an entry under the key `k` whose connection is named `k`. -/
def HasConn (m : List (Str × TcpConnection)) (k : Str) : Prop :=
  ∃ conn, (k, conn) ∈ m ∧ conn.name_ = k

/-- Method `newConnection(sockfd, peerAddr)`: the name given to the connection and the
server afterwards; `localAddr` is what `getsockname` reports. -/
def newConnection (s : TcpServer) (sockfd : Int) (peerAddr localAddr : Str) :
    Option (Str × TcpServer) :=
  match s.threadPool_.getNextLoop with
  | none => none
  | some (ioLoop, pool1) =>
    let buf := snprintfConnSuffix 64 s.ipPort_ s.nextConnId_
    match incInt s.nextConnId_ with
    | none => none
    | some nextId =>
      let connName := s.name_ ++ buf
      let conn := TcpConnection.init ioLoop connName sockfd localAddr peerAddr
      let conn1 := { conn with
        connectionCallback_ := s.connectionCallback_
        messageCallback_ := s.messageCallback_
        writeCompleteCallback_ := s.writeCompleteCallback_
        closeCallback_ := true }
      some (connName,
        { s with
          threadPool_ := pool1
          nextConnId_ := nextId
          connections_ := assign s.connections_ connName conn1
          marshalled_ := s.marshalled_ ++ [(ioLoop, connName)] })

/-- The names given by successive calls of `newConnection`, one per accepted socket
`(sockfd, peerAddr, localAddr)`, and the server afterwards. -/
def newConnections (s : TcpServer) : List (Int × Str × Str) → Option (List Str × TcpServer)
  | [] => some ([], s)
  | a :: rest =>
    match s.newConnection a.1 a.2.1 a.2.2 with
    | none => none
    | some (connName, s1) =>
      match newConnections s1 rest with
      | none => none
      | some (names, s2) => some (connName :: names, s2)

end TcpServer

/-! ## Arithmetic and list lemmas -/

theorem uadd_eq {a b : Nat} (h : a + b < SIZE_MOD) : uadd a b = a + b := by
  unfold uadd; exact Nat.mod_eq_of_lt h

theorem usub_eq {a b : Nat} (hb : b ≤ a) (ha : a < SIZE_MOD) : usub a b = a - b := by
  unfold usub
  have h1 : a + SIZE_MOD - b = (a - b) + SIZE_MOD := by omega
  rw [h1, Nat.add_mod_right]
  exact Nat.mod_eq_of_lt (by omega)

theorem resize_length (v : List Byte) (n : Nat) : (resize v n).length = n := by
  unfold resize; simp; omega

theorem resize_grow (v : List Byte) (n : Nat) (h : v.length ≤ n) :
    resize v n = v ++ List.replicate (n - v.length) 0 := by
  unfold resize; rw [List.take_of_length_le h]

theorem copyInto_length (dst : List Byte) (pos : Nat) (src : List Byte) :
    (copyInto dst pos src).length = dst.length := by
  unfold copyInto; simp; omega

theorem copyInto_eq (dst : List Byte) (pos : Nat) (src : List Byte)
    (h : pos + src.length ≤ dst.length) :
    copyInto dst pos src = dst.take pos ++ src ++ dst.drop (pos + src.length) := by
  unfold copyInto
  apply List.take_of_length_le
  simp; omega

theorem drop_take_mid (a s c : List Byte) (p : Nat) (hp : a.length = p) :
    ((a ++ s ++ c).drop p).take s.length = s := by
  subst hp
  simp

theorem drop_take_copyInto (dst : List Byte) (pos : Nat) (src : List Byte)
    (h : pos + src.length ≤ dst.length) :
    ((copyInto dst pos src).drop pos).take src.length = src := by
  rw [copyInto_eq dst pos src h]
  exact drop_take_mid _ _ _ _ (by simp; omega)

theorem take_copyInto (dst : List Byte) (pos : Nat) (src : List Byte) (k : Nat)
    (hk : k ≤ pos) (h : pos + src.length ≤ dst.length) :
    (copyInto dst pos src).take k = dst.take k := by
  rw [copyInto_eq dst pos src h, List.append_assoc,
    List.take_append_of_le_length (by simp; omega), List.take_take]
  congr 1; omega

theorem drop_take_splice (l s : List Byte) (r w : Nat) (hrw : r ≤ w)
    (h : w + s.length ≤ l.length) :
    ((l.take w ++ s ++ l.drop (w + s.length)).drop r).take (w + s.length - r)
      = (l.drop r).take (w - r) ++ s := by
  have hl : (l.take w).length = w := by simp; omega
  rw [List.append_assoc, List.drop_append_of_le_length (by omega)]
  have h2 : ((l.take w).drop r).length = w - r := by simp; omega
  have h3 : w + s.length - r = ((l.take w).drop r).length + s.length := by omega
  rw [h3, ← List.append_assoc, ← List.length_append, List.take_append_of_le_length (le_refl _),
    List.take_length, List.drop_take]

namespace Buffer

theorem readableBytes_eq {b : Buffer} (h : b.Inv) :
    b.readableBytes = b.writerIndex_ - b.readerIndex_ := by
  obtain ⟨_, h2, h3, h4⟩ := h
  exact usub_eq h2 (by omega)

theorem writableBytes_eq {b : Buffer} (h : b.Inv) :
    b.writableBytes = b.buffer_.length - b.writerIndex_ := by
  obtain ⟨_, _, h3, h4⟩ := h
  exact usub_eq h3 h4

theorem readable_eq {b : Buffer} (h : b.Inv) :
    b.readable = (b.buffer_.drop b.readerIndex_).take (b.writerIndex_ - b.readerIndex_) := by
  unfold readable peek
  rw [readableBytes_eq h]

theorem readable_length {b : Buffer} (h : b.Inv) : b.readable.length = b.readableBytes := by
  rw [readable_eq h, readableBytes_eq h]
  obtain ⟨_, h2, h3, _⟩ := h
  simp; omega

theorem init_inv (n : Nat) (h : kCheapPrepend + n < SIZE_MOD) : (init n).Inv := by
  unfold Inv init
  simp [uadd_eq h, h]

theorem init_readable (n : Nat) : (init n).readable = [] := by
  simp [readable, readableBytes, init, usub]

theorem retrieveAll_inv {b : Buffer} (h : b.Inv) : b.retrieveAll.Inv := by
  obtain ⟨h1, h2, h3, h4⟩ := h
  exact ⟨le_refl _, le_refl _, by simp only [retrieveAll]; omega, h4⟩

theorem retrieveAll_readable (b : Buffer) : b.retrieveAll.readable = [] := by
  simp [readable, readableBytes, retrieveAll, usub]

theorem retrieve_inv {b : Buffer} (h : b.Inv) (n : Nat) : (b.retrieve n).Inv := by
  unfold retrieve
  split
  · rename_i hn
    rw [readableBytes_eq h] at hn
    obtain ⟨h1, h2, h3, h4⟩ := h
    have e : uadd b.readerIndex_ n = b.readerIndex_ + n := uadd_eq (by omega)
    simp only [Inv, e]
    omega
  · exact retrieveAll_inv h

theorem retrieve_readable {b : Buffer} (h : b.Inv) (n : Nat) :
    (b.retrieve n).readable = b.readable.drop n := by
  have hi := retrieve_inv h n
  rw [readable_eq hi, readable_eq h]
  unfold retrieve at *
  split
  · rename_i hn
    rw [readableBytes_eq h] at hn
    obtain ⟨h1, h2, h3, h4⟩ := h
    have e : uadd b.readerIndex_ n = b.readerIndex_ + n := uadd_eq (by omega)
    simp only [e]
    rw [List.drop_take, List.drop_drop]
    congr 1
    omega
  · rename_i hn
    rw [readableBytes_eq h] at hn
    simp only [retrieveAll, Nat.sub_self, List.take_zero]
    symm
    apply List.drop_eq_nil_of_le
    simp; omega

/-- The branch of `ensureWriteableBytes` that does nothing. -/
theorem ensure_noop {b : Buffer} {n : Nat} (hw : n ≤ b.writableBytes) :
    b.ensureWriteableBytes n = b := by
  unfold ensureWriteableBytes
  rw [if_neg (by omega)]

/-- The branch of `ensureWriteableBytes` that resizes the storage. -/
theorem ensure_grow {b : Buffer} {n : Nat} (h : b.Inv) (hn : b.writerIndex_ + n < SIZE_MOD)
    (hw : b.writableBytes < n) (hc : b.writableBytes + (b.prependableBytes - kCheapPrepend) < n) :
    b.ensureWriteableBytes n =
      { b with buffer_ := b.buffer_ ++ List.replicate (b.writerIndex_ + n - b.buffer_.length) 0 } := by
  have hwe := writableBytes_eq h
  obtain ⟨h1, h2, h3, h4⟩ := h
  unfold ensureWriteableBytes makeSpace
  rw [if_pos hw]
  simp only [prependableBytes, kCheapPrepend] at *
  have e1 : uadd b.writableBytes b.readerIndex_ = b.writableBytes + b.readerIndex_ :=
    uadd_eq (by omega)
  have e2 : uadd n 8 = n + 8 := uadd_eq (by omega)
  have e3 : uadd b.writerIndex_ n = b.writerIndex_ + n := uadd_eq hn
  rw [e1, e2, e3, if_pos (by omega), resize_grow _ _ (by omega)]

/-- The branch of `ensureWriteableBytes` that moves the readable bytes to the front. -/
theorem ensure_compact {b : Buffer} {n : Nat} (h : b.Inv) (hn : b.writerIndex_ + n < SIZE_MOD)
    (hw : b.writableBytes < n) (hc : n ≤ b.writableBytes + (b.prependableBytes - kCheapPrepend)) :
    b.ensureWriteableBytes n =
      { buffer_ := b.buffer_.take kCheapPrepend ++ b.readable ++
          b.buffer_.drop (kCheapPrepend + b.readableBytes)
        readerIndex_ := kCheapPrepend
        writerIndex_ := kCheapPrepend + b.readableBytes } := by
  have hwe := writableBytes_eq h
  have hre := readableBytes_eq h
  have hr := readable_eq h
  have hl := readable_length h
  obtain ⟨h1, h2, h3, h4⟩ := h
  unfold ensureWriteableBytes makeSpace
  rw [if_pos hw]
  simp only [prependableBytes, kCheapPrepend] at *
  have e1 : uadd b.writableBytes b.readerIndex_ = b.writableBytes + b.readerIndex_ :=
    uadd_eq (by omega)
  have e2 : uadd n 8 = n + 8 := uadd_eq (by omega)
  have e3 : uadd 8 b.readableBytes = 8 + b.readableBytes := uadd_eq (by omega)
  rw [e1, e2, e3, if_neg (by omega), ← hr, copyInto_eq _ _ _ (by omega), hl]

/-- What `ensureWriteableBytes(n)` guarantees when `writerIndex_ + n` does not wrap around. -/
theorem ensure_spec {b : Buffer} {n : Nat} (h : b.Inv) (hn : b.writerIndex_ + n < SIZE_MOD) :
    (b.ensureWriteableBytes n).Inv ∧ (b.ensureWriteableBytes n).readable = b.readable ∧
      n ≤ (b.ensureWriteableBytes n).writableBytes ∧
      (b.ensureWriteableBytes n).writerIndex_ ≤ b.writerIndex_ ∧
      (b.ensureWriteableBytes n).readableBytes = b.readableBytes := by
  have hwe := writableBytes_eq h
  have hre := readableBytes_eq h
  have hl := readable_length h
  by_cases hw : n ≤ b.writableBytes
  · rw [ensure_noop hw]
    exact ⟨h, rfl, hw, le_refl _, rfl⟩
  · have hw1 : b.writableBytes < n := by omega
    by_cases hc : n ≤ b.writableBytes + (b.prependableBytes - kCheapPrepend)
    · rw [ensure_compact h hn hw1 hc]
      obtain ⟨h1, h2, h3, h4⟩ := h
      simp only [prependableBytes, kCheapPrepend] at *
      have hinv : Inv (Buffer.mk
          (b.buffer_.take 8 ++ b.readable ++ b.buffer_.drop (8 + b.readableBytes))
          8 (8 + b.readableBytes)) := by
        simp only [Inv, kCheapPrepend, List.length_append, List.length_take, List.length_drop, hl]
        omega
      refine ⟨hinv, ?_, ?_, ?_, ?_⟩
      · rw [readable_eq hinv]
        simp only [Nat.add_sub_cancel_left]
        rw [← hl]
        exact drop_take_mid _ _ _ _ (by simp; omega)
      · rw [writableBytes_eq hinv]
        simp only [List.length_append, List.length_take, List.length_drop, hl]
        omega
      · show 8 + b.readableBytes ≤ b.writerIndex_
        omega
      · rw [readableBytes_eq hinv]; simp
    · have hc1 : b.writableBytes + (b.prependableBytes - kCheapPrepend) < n := by omega
      rw [ensure_grow h hn hw1 hc1]
      have hr := readable_eq h
      obtain ⟨h1, h2, h3, h4⟩ := h
      simp only [prependableBytes, kCheapPrepend] at *
      have hinv : Inv (Buffer.mk
          (b.buffer_ ++ List.replicate (b.writerIndex_ + n - b.buffer_.length) 0)
          b.readerIndex_ b.writerIndex_) := by
        simp only [Inv, kCheapPrepend, List.length_append, List.length_replicate]
        omega
      refine ⟨hinv, ?_, ?_, le_refl _, ?_⟩
      · rw [readable_eq hinv, hr]
        simp only
        rw [List.drop_append_of_le_length (by omega),
          List.take_append_of_le_length (by simp; omega)]
      · rw [writableBytes_eq hinv]
        simp only [List.length_append, List.length_replicate]
        omega
      · rw [readableBytes_eq hinv, hre]

/-- What `append` guarantees when `writerIndex_ + len` does not wrap around. -/
theorem append_spec {b : Buffer} {data : List Byte} (h : b.Inv)
    (hn : b.writerIndex_ + data.length < SIZE_MOD) :
    (b.append data).Inv ∧ (b.append data).readable = b.readable ++ data ∧
      (b.append data).readableBytes = b.readableBytes + data.length := by
  obtain ⟨hi, hr, hw, hle, hrb⟩ := ensure_spec h hn
  have hwe := writableBytes_eq hi
  have hre := readable_eq hi
  have hrbe := readableBytes_eq hi
  unfold append
  generalize b.ensureWriteableBytes data.length = b1 at *
  obtain ⟨h1, h2, h3, h4⟩ := hi
  simp only [kCheapPrepend] at *
  have e : uadd b1.writerIndex_ data.length = b1.writerIndex_ + data.length :=
    uadd_eq (by omega)
  have hinv : Inv (Buffer.mk (copyInto b1.buffer_ b1.writerIndex_ data)
      b1.readerIndex_ (b1.writerIndex_ + data.length)) := by
    simp only [Inv, kCheapPrepend, copyInto_length]
    omega
  simp only [e]
  refine ⟨hinv, ?_, ?_⟩
  · rw [readable_eq hinv, ← hr, hre]
    simp only
    rw [copyInto_eq _ _ _ (by omega)]
    exact drop_take_splice _ _ _ _ h2 (by omega)
  · rw [readableBytes_eq hinv, ← hrb, hrbe]
    simp only
    omega

end Buffer

/-! ## Sequences of calls -/

theorem step_spec {b : Buffer} {op : BufOp} (h : b.Inv) (hw : op.wellTyped b = true)
    (hn : op.noWrap b = true) :
    (op.apply b).Inv ∧ (op.apply b).readable = op.queueStep b.readable := by
  cases op with
  | append data =>
    simp only [BufOp.wellTyped, decide_eq_true_eq] at hw
    exact ⟨(Buffer.append_spec h hw).1, (Buffer.append_spec h hw).2.1⟩
  | retrieve n => exact ⟨Buffer.retrieve_inv h n, Buffer.retrieve_readable h n⟩
  | retrieveAll => exact ⟨Buffer.retrieveAll_inv h, Buffer.retrieveAll_readable b⟩
  | retrieveAsString n => exact ⟨Buffer.retrieve_inv h n, Buffer.retrieve_readable h n⟩
  | ensureWriteableBytes n =>
    simp only [BufOp.noWrap, decide_eq_true_eq] at hn
    exact ⟨(Buffer.ensure_spec h hn).1, (Buffer.ensure_spec h hn).2.1⟩

theorem step_count {b : Buffer} {op : BufOp} (h : b.Inv) (hw : op.wellTyped b = true)
    (hn : op.noWrap b = true) (hr : op.inRange b = true) :
    (op.apply b).readableBytes + op.retrieved b = b.readableBytes + op.appended := by
  have hs := step_spec h hw hn
  have h1 := Buffer.readable_length hs.1
  have h2 := Buffer.readable_length h
  rw [hs.2] at h1
  rw [← h1, ← h2]
  cases op with
  | append data => simp [BufOp.queueStep, BufOp.retrieved, BufOp.appended]
  | retrieve n =>
    simp only [BufOp.inRange, decide_eq_true_eq] at hr
    simp only [BufOp.queueStep, BufOp.retrieved, BufOp.appended, List.length_drop]
    omega
  | retrieveAll => simp [BufOp.queueStep, BufOp.retrieved, BufOp.appended, h2]
  | retrieveAsString n =>
    simp only [BufOp.inRange, decide_eq_true_eq] at hr
    simp only [BufOp.queueStep, BufOp.retrieved, BufOp.appended, List.length_drop]
    omega
  | ensureWriteableBytes n => simp [BufOp.queueStep, BufOp.retrieved, BufOp.appended]

theorem allOps_mono {p q : Buffer → BufOp → Bool} (hpq : ∀ b op, p b op = true → q b op = true)
    (b : Buffer) (ops : List BufOp) (h : allOps p b ops = true) : allOps q b ops = true := by
  induction ops generalizing b with
  | nil => rfl
  | cons op ops ih =>
    simp only [allOps, Bool.and_eq_true] at h ⊢
    exact ⟨hpq _ _ h.1, ih _ h.2⟩

theorem allOps_take {p : Buffer → BufOp → Bool} (b : Buffer) (ops : List BufOp) (k : Nat)
    (h : allOps p b ops = true) : allOps p b (ops.take k) = true := by
  induction ops generalizing b k with
  | nil => simp [allOps]
  | cons op ops ih =>
    cases k with
    | zero => simp [allOps]
    | succ k =>
      simp only [allOps, Bool.and_eq_true, List.take_succ_cons] at h ⊢
      exact ⟨h.1, ih _ _ h.2⟩

theorem runOps_spec (b : Buffer) (ops : List BufOp) (h : b.Inv)
    (hops : allOps (fun b op => op.wellTyped b && op.noWrap b) b ops = true) :
    (runOps b ops).Inv ∧ (runOps b ops).readable = runQueue b.readable ops := by
  induction ops generalizing b with
  | nil => exact ⟨h, rfl⟩
  | cons op ops ih =>
    simp only [allOps, Bool.and_eq_true] at hops
    obtain ⟨hi, hr⟩ := step_spec h hops.1.1 hops.1.2
    have := ih (op.apply b) hi hops.2
    simp only [runOps, runQueue]
    rw [← hr]
    exact this

theorem runOps_count (b : Buffer) (ops : List BufOp) (h : b.Inv)
    (hops : allOps (fun b op => op.boundedRetrieve b && op.noWrap b) b ops = true) :
    (runOps b ops).readableBytes + totalRetrieved b ops = b.readableBytes + totalAppended ops := by
  induction ops generalizing b with
  | nil => rfl
  | cons op ops ih =>
    simp only [allOps, Bool.and_eq_true, BufOp.boundedRetrieve] at hops
    obtain ⟨hi, _⟩ := step_spec h hops.1.1.1 hops.1.2
    have h1 := step_count h hops.1.1.1 hops.1.2 hops.1.1.2
    have h2 := ih (op.apply b) hi
      (by simpa only [allOps, Bool.and_eq_true, BufOp.boundedRetrieve] using hops.2)
    simp only [runOps, totalRetrieved, totalAppended]
    omega

/-! ## Lemmas on the loop pool -/

theorem toSizeT_natCast (c : Nat) (h : (c : Int) ≤ INT_MAX) : toSizeT (c : Int) = c := by
  unfold toSizeT SIZE_MOD
  unfold INT_MAX at h
  omega

namespace EventLoopThreadPool

theorem getNextLoop_some (p : EventLoopThreadPool) (c : Nat) (x : EventLoop)
    (hc : p.next_ = (c : Int)) (hx : p.loops_[c]? = some x)
    (hmax : (p.loops_.length : Int) ≤ INT_MAX) :
    p.getNextLoop = some (x, { p with next_ := (((c + 1) % p.loops_.length : Nat) : Int) }) := by
  have hlt : c < p.loops_.length := by
    rcases Nat.lt_or_ge c p.loops_.length with h | h
    · exact h
    · rw [List.getElem?_eq_none h] at hx; cases hx
  have hne : p.loops_.isEmpty = false := by
    cases hl : p.loops_ with
    | nil => rw [hl] at hlt; simp at hlt
    | cons a l => rfl
  have h1 : (c : Int) ≤ INT_MAX := by omega
  have h2 : ((c + 1 : Nat) : Int) ≤ INT_MAX := by omega
  have hinc : incInt (c : Int) = some ((c + 1 : Nat) : Int) := by
    unfold incInt
    rw [if_pos (by push_cast at h2; exact h2)]
    simp
  unfold getNextLoop
  rw [hne, hc, toSizeT_natCast c h1, hx, hinc]
  simp only [Bool.false_eq_true, if_false, toSizeT_natCast (c + 1) h2]
  by_cases hw : c + 1 ≥ p.loops_.length
  · have : c + 1 = p.loops_.length := by omega
    rw [if_pos hw, this, Nat.mod_self]
    rfl
  · rw [if_neg hw, Nat.mod_eq_of_lt (by omega)]

theorem getNextLoops_cycle (p : EventLoopThreadPool) (k c : Nat) (f : Nat → EventLoop)
    (n : Nat) (hn : 0 < n) (hl : p.loops_ = (List.range n).map f)
    (hc : p.next_ = (c : Int)) (hcn : c < n) (hmax : (n : Int) ≤ INT_MAX) :
    p.getNextLoops k = some ((List.range k).map (fun j => f ((c + j) % n)),
      { p with next_ := (((c + k) % n : Nat) : Int) }) := by
  induction k generalizing p c with
  | zero =>
    simp only [getNextLoops, List.range_zero, List.map_nil, Nat.add_zero,
      Nat.mod_eq_of_lt hcn]
    rw [← hc]
  | succ k ih =>
    have hlen : p.loops_.length = n := by rw [hl]; simp
    have hx : p.loops_[c]? = some (f c) := by
      rw [hl, List.getElem?_map, List.getElem?_range hcn]; rfl
    have hstep := getNextLoop_some p c (f c) hc hx (by rw [hlen]; exact hmax)
    rw [hlen] at hstep
    have hrec := ih { p with next_ := (((c + 1) % n : Nat) : Int) } ((c + 1) % n)
      hl rfl (Nat.mod_lt _ hn)
    simp only [getNextLoops, hstep, hrec]
    congr 1
    refine Prod.ext ?_ ?_
    · simp only [List.range_succ_eq_map, List.map_cons, List.map_map, Nat.add_zero,
        Nat.mod_eq_of_lt hcn]
      congr 1
      apply List.map_congr_left
      intro j _
      simp only [Function.comp]
      congr 1
      rw [Nat.mod_add_mod]
      congr 1
      omega
    · simp only
      congr 2
      rw [Nat.mod_add_mod]
      congr 1
      omega

theorem getNextLoops_base (p : EventLoopThreadPool) (k : Nat) (hl : p.loops_ = []) :
    p.getNextLoops k = some (List.replicate k p.baseLoop_, p) := by
  induction k with
  | zero => rfl
  | succ k ih =>
    have h1 : p.getNextLoop = some (p.baseLoop_, p) := by
      unfold getNextLoop; rw [hl]; rfl
    simp only [getNextLoops, h1, ih, List.replicate_succ]

end EventLoopThreadPool

/-! ## Lemmas on sendInLoop -/

namespace TcpConnection

theorem directWrite_conn (c : TcpConnection) (message : List Byte) (nwrote errno : Int) :
    (directWrite c message nwrote errno).conn.outputBuffer_ = c.outputBuffer_ ∧
    (directWrite c message nwrote errno).conn.highWaterMark_ = c.highWaterMark_ ∧
    (directWrite c message nwrote errno).conn.highWaterMarkCallback_
      = c.highWaterMarkCallback_ ∧
    (directWrite c message nwrote errno).conn.events_ = c.events_ ∧
    (directWrite c message nwrote errno).conn.calls_ = c.calls_ ∧
    (directWrite c message nwrote errno).conn.state_ = c.state_ ∧
    ((directWrite c message nwrote errno).conn.pendingFunctors_ = c.pendingFunctors_ ∨
      ((directWrite c message nwrote errno).remaining = 0 ∧
        (directWrite c message nwrote errno).conn.pendingFunctors_
          = c.pendingFunctors_ ++ [Functor.writeComplete])) := by
  unfold directWrite
  dsimp only
  split_ifs with h1 h2 h3
  · refine ⟨rfl, rfl, rfl, rfl, rfl, rfl, Or.inr ⟨?_, rfl⟩⟩
    simp only [Bool.and_eq_true, beq_iff_eq] at h3
    exact h3.1
  all_goals exact ⟨rfl, rfl, rfl, rfl, rfl, rfl, Or.inl rfl⟩

theorem bufferRemaining_pending (a : SendAttempt) (message : List Byte) :
    (bufferRemaining a message).pendingFunctors_ =
      if 0 < a.remaining ∧ uadd a.conn.outputBuffer_.readableBytes a.remaining
            ≥ a.conn.highWaterMark_ ∧
          a.conn.outputBuffer_.readableBytes < a.conn.highWaterMark_ ∧
          a.conn.highWaterMarkCallback_ = true then
        a.conn.pendingFunctors_ ++
          [Functor.highWaterMark (uadd a.conn.outputBuffer_.readableBytes a.remaining)]
      else a.conn.pendingFunctors_ := by
  unfold bufferRemaining
  dsimp only
  split_ifs <;> first | rfl | (exfalso; omega) | (exfalso; tauto)

theorem bufferRemaining_calls (a : SendAttempt) (message : List Byte) :
    (bufferRemaining a message).calls_ = a.conn.calls_ := by
  unfold bufferRemaining
  dsimp only
  split_ifs <;> rfl

end TcpConnection

/-! ## Lemmas on the server -/

namespace EventLoopThreadPool

theorem getNextLoop_ok (p : EventLoopThreadPool) (h : p.Ok) :
    ∃ l p1, p.getNextLoop = some (l, p1) ∧ p1.Ok := by
  rcases h with h | ⟨c, hc, hlt, hmax⟩
  · refine ⟨p.baseLoop_, p, ?_, Or.inl h⟩
    unfold getNextLoop; rw [h]; rfl
  · have hx : p.loops_[c]? = some (p.loops_[c]) := List.getElem?_eq_getElem hlt
    refine ⟨_, _, getNextLoop_some p c _ hc hx hmax, Or.inr ⟨(c + 1) % p.loops_.length, rfl, ?_, hmax⟩⟩
    exact Nat.mod_lt _ (by omega)

theorem start_ok (base : EventLoop) (numThreads : Int) (cb : Bool) (startLoop : Nat → EventLoop)
    (hT : numThreads ≤ INT_MAX) :
    (((init base).setThreadNum numThreads).start cb startLoop).Ok := by
  have hnext : (((init base).setThreadNum numThreads).start cb startLoop).next_ = 0 := by
    unfold start; dsimp only; split <;> rfl
  have hloops : (((init base).setThreadNum numThreads).start cb startLoop).loops_
      = (List.range numThreads.toNat).map startLoop := by
    unfold start; dsimp only; split <;> rfl
  rcases Nat.eq_zero_or_pos numThreads.toNat with hz | hpos
  · left; rw [hloops, hz]; rfl
  · right
    refine ⟨0, by rw [hnext]; rfl, by rw [hloops]; simpa using hpos, ?_⟩
    rw [hloops]
    simp only [List.length_map, List.length_range]
    unfold INT_MAX at hT ⊢; omega

end EventLoopThreadPool

theorem fmtInt_natCast (c : Nat) : fmtInt (c : Int) = Nat.toDigits 10 c := by
  unfold fmtInt
  rw [if_neg (by omega)]
  simp

theorem snprintfConnSuffix_fit (P : Str) (c : Nat) (hP : cStr P = P)
    (hfit : P.length + (Nat.toDigits 10 c).length + 2 ≤ 63) :
    snprintfConnSuffix 64 P (c : Int) = '-' :: (P ++ '$' :: Nat.toDigits 10 c) := by
  unfold snprintfConnSuffix
  rw [fmtInt_natCast, hP]
  apply List.take_of_length_le
  simp only [List.length_cons, List.length_append]
  omega

namespace TcpServer

theorem hasConn_assign_self (m : List (Str × TcpConnection)) (k : Str) (conn : TcpConnection)
    (h : conn.name_ = k) : HasConn (assign m k conn) k :=
  ⟨conn, List.mem_cons_self _ _, h⟩

theorem hasConn_assign_of (m : List (Str × TcpConnection)) (k k1 : Str) (conn : TcpConnection)
    (h : conn.name_ = k1) (hk : HasConn m k) : HasConn (assign m k1 conn) k := by
  by_cases e : k = k1
  · subst e; exact hasConn_assign_self m k conn h
  · obtain ⟨c0, hc0, hn⟩ := hk
    refine ⟨c0, List.mem_cons_of_mem _ ?_, hn⟩
    rw [List.mem_filter]
    exact ⟨hc0, by simpa using e⟩

theorem newConnection_spec (s : TcpServer) (sockfd : Int) (peerAddr localAddr : Str) (c : Nat)
    (hpool : s.threadPool_.Ok) (hid : s.nextConnId_ = (c : Int)) (hmax : (c : Int) < INT_MAX) :
    ∃ s1, s.newConnection sockfd peerAddr localAddr
        = some (s.name_ ++ snprintfConnSuffix 64 s.ipPort_ (c : Int), s1) ∧
      s1.threadPool_.Ok ∧ s1.nextConnId_ = ((c + 1 : Nat) : Int) ∧ s1.name_ = s.name_ ∧
      s1.ipPort_ = s.ipPort_ ∧
      HasConn s1.connections_ (s.name_ ++ snprintfConnSuffix 64 s.ipPort_ (c : Int)) ∧
      ∀ k, HasConn s.connections_ k → HasConn s1.connections_ k := by
  obtain ⟨l, p1, hg, hok⟩ := EventLoopThreadPool.getNextLoop_ok _ hpool
  have hinc : incInt (c : Int) = some ((c + 1 : Nat) : Int) := by
    unfold incInt
    rw [if_pos (by omega)]
    simp
  simp only [newConnection, hg, hid, hinc]
  refine ⟨_, rfl, hok, rfl, rfl, rfl, ?_, ?_⟩
  · exact hasConn_assign_self _ _ _ rfl
  · intro k hk
    exact hasConn_assign_of _ _ _ _ rfl hk

theorem newConnections_spec (args : List (Int × Str × Str)) (s : TcpServer) (c : Nat)
    (hpool : s.threadPool_.Ok) (hid : s.nextConnId_ = (c : Int))
    (hmax : ((c + args.length : Nat) : Int) ≤ INT_MAX) :
    ∃ names s1, s.newConnections args = some (names, s1) ∧
      s1.nextConnId_ = ((c + args.length : Nat) : Int) ∧
      (∀ k, HasConn s.connections_ k → HasConn s1.connections_ k) ∧
      ∀ j, j < args.length →
        names[j]? = some (s.name_ ++ snprintfConnSuffix 64 s.ipPort_ ((c + j : Nat) : Int)) ∧
        HasConn s1.connections_
          (s.name_ ++ snprintfConnSuffix 64 s.ipPort_ ((c + j : Nat) : Int)) := by
  induction args generalizing s c with
  | nil =>
    refine ⟨[], s, rfl, by simpa using hid, fun k hk => hk, ?_⟩
    intro j hj; simp at hj
  | cons a rest ih =>
    simp only [List.length_cons] at hmax
    obtain ⟨s1, h1, hok1, hid1, hn1, hp1, hc1, hkeep1⟩ :=
      newConnection_spec s a.1 a.2.1 a.2.2 c hpool hid (by push_cast at hmax ⊢; omega)
    obtain ⟨names, s2, h2, hid2, hkeep2, hall⟩ := ih s1 (c + 1) hok1 hid1
      (by push_cast at hmax ⊢; omega)
    refine ⟨(s.name_ ++ snprintfConnSuffix 64 s.ipPort_ (c : Int)) :: names, s2, ?_, ?_,
      fun k hk => hkeep2 k (hkeep1 k hk), ?_⟩
    · simp only [newConnections, h1, h2]
    · rw [hid2]; simp only [List.length_cons]; congr 1; omega
    · intro j hj
      cases j with
      | zero =>
        simp only [Nat.add_zero, List.getElem?_cons_zero]
        exact ⟨trivial, hkeep2 _ hc1⟩
      | succ j =>
        simp only [List.length_cons] at hj
        have := hall j (by omega)
        rw [hn1, hp1] at this
        have e : c + 1 + j = c + (j + 1) := by omega
        rw [e] at this
        exact ⟨by simpa using this.1, this.2⟩

end TcpServer

/-! ## Lemmas on the event mask -/

namespace Channel

theorem isWriting_eq_testBit (e : Nat) : isWriting e = e.testBit 2 := by
  unfold isWriting kWriteEvent
  have h4 : (4 : Nat) = 2 ^ 2 := rfl
  cases h : e.testBit 2
  · have : e &&& 4 = 0 := by
      apply Nat.eq_of_testBit_eq
      intro i
      rw [Nat.testBit_and, h4, Nat.testBit_two_pow, Nat.zero_testBit]
      by_cases hi : 2 = i
      · subst hi; simp [h]
      · simp [hi]
    simp [this]
  · have h2 : (e &&& 4).testBit 2 = true := by
      rw [Nat.testBit_and, h4, Nat.testBit_two_pow_self, h]; rfl
    have : e &&& 4 ≠ 0 := by
      intro h0; rw [h0, Nat.zero_testBit] at h2; cases h2
    simp [this]

theorem isReading_enableReading (e : Nat) : isReading (enableReading e) = true := by
  unfold isReading enableReading kReadEvent
  have h2 : ((e ||| 3) &&& 3).testBit 0 = true := by
    rw [Nat.testBit_and, Nat.testBit_or]
    have : (3 : Nat).testBit 0 = true := by decide
    simp [this]
  have : (e ||| 3) &&& 3 ≠ 0 := by
    intro h0; rw [h0, Nat.zero_testBit] at h2; cases h2
  simp [this]

theorem isWriting_enableWriting (e : Nat) : isWriting (enableWriting e) = true := by
  rw [isWriting_eq_testBit]
  unfold enableWriting kWriteEvent
  have h4 : (4 : Nat) = 2 ^ 2 := rfl
  rw [Nat.testBit_or, h4, Nat.testBit_two_pow_self]
  simp

theorem isWriting_disableWriting (e : Nat) : isWriting (disableWriting e) = false := by
  rw [isWriting_eq_testBit]
  unfold disableWriting kWriteEvent
  have h4 : (4 : Nat) = 2 ^ 2 := rfl
  rw [Nat.testBit_xor, Nat.testBit_and, h4, Nat.testBit_two_pow_self]
  cases e.testBit 2 <;> rfl

theorem isWriting_enableReading (e : Nat) : isWriting (enableReading e) = isWriting e := by
  rw [isWriting_eq_testBit, isWriting_eq_testBit]
  unfold enableReading kReadEvent
  rw [Nat.testBit_or]
  have : (3 : Nat).testBit 2 = false := by decide
  simp [this]

theorem isWriting_disableAll (e : Nat) : isWriting (disableAll e) = false := by
  unfold disableAll; decide

end Channel

/-! ## Lemmas on the connection state -/

namespace Outcome

theorem andThen_conn_of (o : Outcome) (f : TcpConnection → Outcome) (P : TcpConnection → Prop)
    (ho : P o.conn) (hf : ∀ c, P c → P (f c).conn) : P (o.andThen f).conn := by
  cases o with
  | returned c => exact hf c ho
  | threw c => exact ho

end Outcome

namespace TcpConnection

theorem invoke_conn_state (c : TcpConnection) (isSet : Bool) (call : UserCall) :
    (invoke c isSet call).conn.state_ = c.state_ := by
  unfold invoke; split <;> rfl

theorem bufferRemaining_state (a : SendAttempt) (message : List Byte) :
    (bufferRemaining a message).state_ = a.conn.state_ := by
  unfold bufferRemaining
  dsimp only
  split_ifs <;> rfl

theorem sendInLoop_state (c : TcpConnection) (message : List Byte) (nwrote errno : Int) :
    (c.sendInLoop message nwrote errno).state_ = c.state_ := by
  unfold sendInLoop
  split
  · rfl
  · rw [bufferRemaining_state]
    exact (directWrite_conn c message nwrote errno).2.2.2.2.2.1

theorem send_state (c : TcpConnection) (buf : List Byte) (t : Bool) (nwrote errno : Int) :
    (c.send buf t nwrote errno).state_ = c.state_ := by
  unfold send
  split_ifs
  · exact sendInLoop_state c buf nwrote errno
  · rfl
  · rfl

theorem shutdownInLoop_state (c : TcpConnection) : c.shutdownInLoop.state_ = c.state_ := by
  unfold shutdownInLoop; split <;> rfl

theorem shutdown_state (c : TcpConnection) (t : Bool) :
    (c.shutdown t).state_
      = if c.state_ = StateE.kConnected then StateE.kDisconnecting else c.state_ := by
  unfold shutdown
  dsimp only
  split_ifs
  · rw [shutdownInLoop_state]
  · rfl
  · rfl

theorem handleWrite_state (c : TcpConnection) (n errno : Int) :
    (c.handleWrite n errno).state_ = c.state_ := by
  unfold handleWrite
  dsimp only
  split_ifs <;> first | rfl | (rw [shutdownInLoop_state] <;> rfl)

theorem handleClose_state (c : TcpConnection) :
    c.handleClose.conn.state_ = StateE.kDisconnected := by
  unfold handleClose
  dsimp only
  apply Outcome.andThen_conn_of _ _ (fun x => x.state_ = StateE.kDisconnected)
  · rw [invoke_conn_state]
  · intro c2 h
    rw [invoke_conn_state]; exact h

theorem connectDestroyed_state (c : TcpConnection) :
    c.connectDestroyed.conn.state_
      = if c.state_ = StateE.kConnected then StateE.kDisconnected else c.state_ := by
  unfold connectDestroyed
  dsimp only
  split_ifs with h
  · apply Outcome.andThen_conn_of _ _ (fun x => x.state_ = StateE.kDisconnected)
    · rw [invoke_conn_state]
    · intro c2 h2; exact h2
  · rfl

theorem readFd_n (b : Buffer) (n : Int) (data : List Byte) (errno saveErrno : Int) :
    (b.readFd n data errno saveErrno).n = n := by
  unfold Buffer.readFd
  dsimp only
  split_ifs <;> rfl

theorem handleRead_state (c : TcpConnection) (n : Int) (data : List Byte) (errno : Int) :
    (c.handleRead n data errno).conn.state_
      = if n = 0 then StateE.kDisconnected else c.state_ := by
  unfold handleRead
  dsimp only
  rw [readFd_n]
  by_cases h1 : n > 0
  · rw [if_pos h1, if_neg (by omega), invoke_conn_state]
  · rw [if_neg h1]
    by_cases h2 : n = 0
    · rw [if_pos h2, if_pos h2, handleClose_state]
    · rw [if_neg h2, if_neg h2]; rfl

end TcpConnection

/-! ## Lemmas on handleWrite -/

theorem toSizeT_of_nonneg (n : Int) (h0 : 0 ≤ n) (h1 : n < (SIZE_MOD : Int)) :
    toSizeT n = n.toNat := by
  unfold toSizeT
  rw [Int.emod_eq_of_lt h0 h1]

theorem Buffer.retrieve_readableBytes {b : Buffer} (h : b.Inv) (k : Nat) :
    (b.retrieve k).readableBytes = b.readableBytes - k := by
  rw [← Buffer.readable_length (Buffer.retrieve_inv h k), Buffer.retrieve_readable h k,
    List.length_drop, Buffer.readable_length h]

theorem Buffer.readableBytes_lt {b : Buffer} (h : b.Inv) : b.readableBytes < SIZE_MOD := by
  rw [Buffer.readableBytes_eq h]
  obtain ⟨_, _, h3, h4⟩ := h
  omega

theorem Buffer.writeFd_fst (b : Buffer) (n errno saveErrno : Int) :
    (b.writeFd n errno saveErrno).1 = n := by
  unfold Buffer.writeFd; split <;> rfl

namespace TcpConnection

/-- The connection `handleWrite` leaves when the channel is writing and the socket accepts
`k > 0` bytes, fewer than are readable. -/
theorem handleWrite_part (c : TcpConnection) (n errno : Int) (hinv : c.outputBuffer_.Inv)
    (hw : Channel.isWriting c.events_ = true) (h0 : 0 < n)
    (hlt : n < (c.outputBuffer_.readableBytes : Int)) :
    c.handleWrite n errno = { c with
      sent_ := c.sent_ ++ c.outputBuffer_.readable.take n.toNat
      outputBuffer_ := c.outputBuffer_.retrieve n.toNat } := by
  have hb := Buffer.readableBytes_lt hinv
  have hs : toSizeT n = n.toNat := toSizeT_of_nonneg n (by omega) (by omega)
  have hr := Buffer.retrieve_readableBytes hinv n.toNat
  unfold handleWrite
  dsimp only
  rw [if_pos hw, Buffer.writeFd_fst, if_pos h0, hs, if_neg]
  rw [hr]
  simp only [beq_iff_eq]
  omega

/-- The connection `handleWrite` leaves when the channel is writing and the socket accepts
all the readable bytes. -/
theorem handleWrite_all (c : TcpConnection) (n errno : Int) (hinv : c.outputBuffer_.Inv)
    (hw : Channel.isWriting c.events_ = true) (h0 : 0 < n)
    (heq : n = (c.outputBuffer_.readableBytes : Int)) :
    c.handleWrite n errno =
      if c.state_ = StateE.kDisconnecting then
        { c with
          sent_ := c.sent_ ++ c.outputBuffer_.readable
          outputBuffer_ := c.outputBuffer_.retrieve n.toNat
          events_ := Channel.disableWriting c.events_
          pendingFunctors_ := c.pendingFunctors_ ++
            (if c.writeCompleteCallback_ then [Functor.writeComplete] else [])
          shutdownWrites_ := c.shutdownWrites_ + 1
          shutdownPending_ := c.shutdownPending_ ++ [0]
          shutdownStates_ := c.shutdownStates_ ++ [StateE.kDisconnecting] }
      else
        { c with
          sent_ := c.sent_ ++ c.outputBuffer_.readable
          outputBuffer_ := c.outputBuffer_.retrieve n.toNat
          events_ := Channel.disableWriting c.events_
          pendingFunctors_ := c.pendingFunctors_ ++
            (if c.writeCompleteCallback_ then [Functor.writeComplete] else []) } := by
  have hb := Buffer.readableBytes_lt hinv
  have hs : toSizeT n = n.toNat := toSizeT_of_nonneg n (by omega) (by omega)
  have hr := Buffer.retrieve_readableBytes hinv n.toNat
  have hz : (c.outputBuffer_.retrieve n.toNat).readableBytes = 0 := by rw [hr]; omega
  have ht : c.outputBuffer_.readable.take n.toNat = c.outputBuffer_.readable := by
    apply List.take_of_length_le
    rw [Buffer.readable_length hinv]; omega
  have hd := Channel.isWriting_disableWriting c.events_
  unfold handleWrite
  dsimp only
  rw [if_pos hw, Buffer.writeFd_fst, if_pos h0, hs, ht, hz]
  simp only [beq_self_eq_true, if_true]
  cases hcb : c.writeCompleteCallback_ <;> by_cases hst : c.state_ = StateE.kDisconnecting
  all_goals simp [hst, shutdownInLoop, queueInLoop, hd, hz]

end TcpConnection

/-! ## Lemmas on readFd -/

namespace Buffer

/-- Bytes stored behind `writerIndex_`, within the storage, followed by the advance of
`writerIndex_`, extend the readable bytes. -/
theorem write_spec {b : Buffer} (d : List Byte) (h : b.Inv)
    (hfit : b.writerIndex_ + d.length ≤ b.buffer_.length) :
    (Buffer.mk (copyInto b.buffer_ b.writerIndex_ d) b.readerIndex_
        (b.writerIndex_ + d.length)).Inv ∧
    (Buffer.mk (copyInto b.buffer_ b.writerIndex_ d) b.readerIndex_
        (b.writerIndex_ + d.length)).readable = b.readable ++ d := by
  have hre := readable_eq h
  obtain ⟨h1, h2, h3, h4⟩ := h
  have hinv : (Buffer.mk (copyInto b.buffer_ b.writerIndex_ d) b.readerIndex_
      (b.writerIndex_ + d.length)).Inv := by
    simp only [Inv, kCheapPrepend, copyInto_length] at h1 ⊢
    omega
  refine ⟨hinv, ?_⟩
  rw [readable_eq hinv, hre]
  simp only
  rw [copyInto_eq _ _ _ hfit]
  exact drop_take_splice _ _ _ _ h2 hfit

theorem iovcnt_capacity (b : Buffer) : kExtraBufSize ≤ b.readvCapacity := by
  unfold readvCapacity iovcnt
  by_cases h : b.writableBytes < kExtraBufSize
  · rw [if_pos h, if_pos rfl]; omega
  · rw [if_neg h, if_neg (by decide)]; omega

theorem readFd_spec (b : Buffer) (n : Int) (data : List Byte) (errno saveErrno : Int)
    (hinv : b.Inv) (h0 : 0 ≤ n) (hn : n = (data.length : Int))
    (hcap : data.length ≤ b.readvCapacity)
    (hspace : b.writerIndex_ + data.length < SIZE_MOD) :
    (b.readFd n data errno saveErrno).n = n ∧
    (b.readFd n data errno saveErrno).saveErrno = saveErrno ∧
    (b.readFd n data errno saveErrno).buf.Inv ∧
    (b.readFd n data errno saveErrno).buf.readable = b.readable ++ data := by
  have hwe := writableBytes_eq hinv
  have hs : toSizeT n = data.length := by
    rw [toSizeT_of_nonneg n h0 (by omega), hn]; rfl
  have hd : data.take n.toNat = data := by
    apply List.take_of_length_le; omega
  have hI := hinv
  obtain ⟨h1, h2, h3, h4⟩ := hinv
  unfold readFd
  dsimp only
  rw [if_neg (by omega), hs, hd]
  by_cases hle : data.length ≤ b.writableBytes
  · rw [if_pos hle]
    have ht : data.take b.writableBytes = data := List.take_of_length_le hle
    have hu : uadd b.writerIndex_ data.length = b.writerIndex_ + data.length := uadd_eq hspace
    rw [ht, hu]
    obtain ⟨ha, hb⟩ := write_spec data hI (by omega)
    exact ⟨rfl, rfl, ha, hb⟩
  · rw [if_neg hle]
    have hlen : (data.take b.writableBytes).length = b.writableBytes := by
      rw [List.length_take]; omega
    obtain ⟨ha, hb⟩ := write_spec (data.take b.writableBytes) hI (by rw [hlen]; omega)
    rw [hlen] at ha hb
    have hsz : b.writerIndex_ + b.writableBytes = b.buffer_.length := by omega
    rw [hsz] at ha hb
    have hiov : b.iovcnt = 2 := by
      unfold readvCapacity at hcap
      by_cases hi : b.iovcnt = 2
      · exact hi
      · rw [if_neg hi] at hcap; omega
    have hex : data.length - b.writableBytes ≤ kExtraBufSize := by
      unfold readvCapacity at hcap
      rw [if_pos hiov] at hcap; omega
    have hus : usub data.length b.writableBytes = data.length - b.writableBytes :=
      usub_eq (by omega) (by omega)
    have hextra : (copyInto (List.replicate kExtraBufSize 0) 0
        (data.drop b.writableBytes)).take (data.length - b.writableBytes)
        = data.drop b.writableBytes := by
      have hl : (data.drop b.writableBytes).length = data.length - b.writableBytes := by
        rw [List.length_drop]
      have := drop_take_copyInto (List.replicate kExtraBufSize 0) 0 (data.drop b.writableBytes)
        (by rw [hl, List.length_replicate]; omega)
      rw [List.drop_zero, hl] at this
      exact this
    rw [if_pos hiov, hus, hextra, copyInto_length]
    have hsp := @append_spec (Buffer.mk
        (copyInto b.buffer_ b.writerIndex_ (data.take b.writableBytes))
        b.readerIndex_ b.buffer_.length) (data.drop b.writableBytes) ha
      (by simp only [List.length_drop]; omega)
    refine ⟨rfl, rfl, hsp.1, ?_⟩
    rw [hsp.2.1, hb, List.append_assoc, List.take_append_drop]

end Buffer

/-! ## Lemmas on the write path -/

namespace TcpConnection

/-- The number of bytes the direct `::write` of `sendInLoop` hands to the socket: `nwrote`
when the write is attempted and succeeds, 0 otherwise. -/
theorem directWrite_data (c : TcpConnection) (message : List Byte) (nwrote errno : Int)
    (hw : nwrote ≤ (message.length : Int)) (hlen : message.length < SIZE_MOD) :
    (directWrite c message nwrote errno).nwrote.toNat ≤ message.length ∧
    (directWrite c message nwrote errno).remaining
      = message.length - (directWrite c message nwrote errno).nwrote.toNat ∧
    (directWrite c message nwrote errno).conn.sent_
      = c.sent_ ++ message.take (directWrite c message nwrote errno).nwrote.toNat ∧
    ((directWrite c message nwrote errno).nwrote.toNat ≠ 0 →
      Channel.isWriting c.events_ = false ∧ c.outputBuffer_.readableBytes = 0) ∧
    (Channel.isWriting c.events_ = false → c.outputBuffer_.readableBytes = 0 → 0 ≤ nwrote →
      (directWrite c message nwrote errno).nwrote = nwrote) ∧
    (directWrite c message nwrote errno).conn.shutdownPending_ = c.shutdownPending_ ∧
    (directWrite c message nwrote errno).conn.shutdownWrites_ = c.shutdownWrites_ := by
  unfold directWrite
  dsimp only
  by_cases h1 : (!Channel.isWriting c.events_ && c.outputBuffer_.readableBytes == 0) = true
  · rw [if_pos h1]
    simp only [Bool.and_eq_true, Bool.not_eq_true', beq_iff_eq] at h1
    by_cases h2 : nwrote ≥ 0
    · rw [if_pos h2]
      have hs : toSizeT nwrote = nwrote.toNat := toSizeT_of_nonneg nwrote h2 (by omega)
      have hu : usub message.length (toSizeT nwrote) = message.length - nwrote.toNat := by
        rw [hs]; exact usub_eq (by omega) hlen
      have hk : nwrote.toNat ≤ message.length := by omega
      split_ifs <;>
        exact ⟨hk, hu, rfl, fun _ => h1, fun _ _ _ => rfl, rfl, rfl⟩
    · rw [if_neg h2]
      split_ifs <;>
        exact ⟨by simp, by simp, by simp, fun h => absurd rfl h, fun _ _ h => absurd h h2,
          rfl, rfl⟩
  · rw [if_neg h1]
    refine ⟨by simp, by simp, by simp, fun h => absurd rfl h, ?_, rfl, rfl⟩
    intro ha hb _
    rw [ha, hb] at h1
    exact absurd rfl h1

theorem bufferRemaining_fields (a : SendAttempt) (message : List Byte) :
    (bufferRemaining a message).outputBuffer_
      = (if a.remaining > 0 then
          a.conn.outputBuffer_.append ((message.drop a.nwrote.toNat).take a.remaining)
        else a.conn.outputBuffer_) ∧
    (bufferRemaining a message).events_
      = (if a.remaining > 0 ∧ Channel.isWriting a.conn.events_ = false then
          Channel.enableWriting a.conn.events_
        else a.conn.events_) ∧
    (bufferRemaining a message).sent_ = a.conn.sent_ ∧
    (bufferRemaining a message).shutdownPending_ = a.conn.shutdownPending_ ∧
    (bufferRemaining a message).shutdownWrites_ = a.conn.shutdownWrites_ := by
  unfold bufferRemaining
  dsimp only
  by_cases hr : a.remaining > 0
  · simp only [hr, if_true, true_and]
    cases hw : Channel.isWriting a.conn.events_ <;>
      split_ifs <;> simp_all [queueInLoop]
  · simp only [hr, if_false, false_and]
    exact ⟨trivial, trivial, trivial, trivial, trivial⟩

/-- What `sendInLoop` does to the socket, the output buffer and the mask, with `k` the
number of bytes written directly. -/
theorem sendInLoop_spec (c : TcpConnection) (message : List Byte) (nwrote errno : Int)
    (hst : c.state_ ≠ StateE.kDisconnected) (hinv : c.outputBuffer_.Inv)
    (hw : nwrote ≤ (message.length : Int))
    (hsp : c.outputBuffer_.writerIndex_ + message.length < SIZE_MOD) :
    ∃ k, k ≤ message.length ∧
      (k ≠ 0 → Channel.isWriting c.events_ = false ∧ c.outputBuffer_.readableBytes = 0) ∧
      (Channel.isWriting c.events_ = false → c.outputBuffer_.readableBytes = 0 → 0 ≤ nwrote →
        k = nwrote.toNat) ∧
      (c.sendInLoop message nwrote errno).sent_ = c.sent_ ++ message.take k ∧
      (c.sendInLoop message nwrote errno).outputBuffer_.Inv ∧
      (c.sendInLoop message nwrote errno).outputBuffer_.readable
        = c.outputBuffer_.readable ++ message.drop k ∧
      (c.sendInLoop message nwrote errno).outputBuffer_.readableBytes
        = c.outputBuffer_.readableBytes + (message.length - k) ∧
      (Channel.isWriting (c.sendInLoop message nwrote errno).events_ = true ↔
        (Channel.isWriting c.events_ = true ∨ 0 < message.length - k)) ∧
      (c.sendInLoop message nwrote errno).shutdownPending_ = c.shutdownPending_ ∧
      (c.sendInLoop message nwrote errno).shutdownWrites_ = c.shutdownWrites_ := by
  obtain ⟨hk, hrem, hsent, hdir, hnw, hsh, hsw⟩ :=
    directWrite_data c message nwrote errno hw (by omega)
  obtain ⟨hb, _, _, hev, _, _, _⟩ := directWrite_conn c message nwrote errno
  obtain ⟨fb, fe, fs, fp, fw⟩ := bufferRemaining_fields (directWrite c message nwrote errno) message
  have hs : c.sendInLoop message nwrote errno
      = bufferRemaining (directWrite c message nwrote errno) message := by
    unfold sendInLoop
    rw [if_neg hst]
  rw [hs, fb, fe, fs, fp, fw, hb, hev, hsent, hsh, hsw, hrem]
  generalize (directWrite c message nwrote errno).nwrote = nw at *
  have hdl : (message.drop nw.toNat).length = message.length - nw.toNat := List.length_drop _ _
  have htake : (message.drop nw.toNat).take (message.length - nw.toNat) = message.drop nw.toNat :=
    List.take_of_length_le (by rw [hdl])
  refine ⟨nw.toNat, hk, hdir, fun a b h0 => by rw [hnw a b h0], rfl, ?_⟩
  by_cases hpos : message.length - nw.toNat > 0
  · rw [if_pos hpos, htake]
    obtain ⟨ai, ar, ab⟩ := @Buffer.append_spec _ (message.drop nw.toNat) hinv
      (by rw [hdl]; omega)
    rw [hdl] at ab
    refine ⟨ai, ar, ab, ?_, rfl, rfl⟩
    cases hwr : Channel.isWriting c.events_
    · rw [if_pos ⟨hpos, rfl⟩, Channel.isWriting_enableWriting]
      exact ⟨fun _ => Or.inr hpos, fun _ => rfl⟩
    · rw [if_neg (fun h => by cases h.2)]
      exact ⟨fun _ => Or.inl rfl, fun _ => hwr⟩
  · rw [if_neg hpos, if_neg (fun h => hpos h.1)]
    have hz : message.length - nw.toNat = 0 := by omega
    have hnil : message.drop nw.toNat = [] := List.eq_nil_of_length_eq_zero (by rw [hdl, hz])
    refine ⟨hinv, by rw [hnil, List.append_nil], by rw [hz]; rfl, ?_, rfl, rfl⟩
    constructor
    · intro h; exact Or.inl h
    · intro h
      rcases h with h | h
      · exact h
      · omega

end TcpConnection

/-! ## Lemmas on sequences of operations -/

namespace TcpConnection

theorem invoke_conn (c : TcpConnection) (isSet : Bool) (call : UserCall) :
    ∃ l, (invoke c isSet call).conn = { c with calls_ := l } := by
  unfold invoke
  split
  · exact ⟨_, rfl⟩
  · exact ⟨c.calls_, rfl⟩

theorem quiet_invoke (c0 c : TcpConnection) (isSet : Bool) (call : UserCall)
    (h : Quiet c0 c) : Quiet c0 (invoke c isSet call).conn := by
  obtain ⟨l, hl⟩ := invoke_conn c isSet call
  rw [hl]
  exact h

theorem quiet_refl (c : TcpConnection) : Quiet c c :=
  ⟨rfl, rfl, rfl, rfl, rfl, Or.inr ⟨rfl, Or.inl rfl⟩⟩

theorem quiet_handleClose (c : TcpConnection) : Quiet c c.handleClose.conn := by
  have hs := handleClose_state c
  unfold handleClose at hs ⊢
  dsimp only at hs ⊢
  apply Outcome.andThen_conn_of _ _ (fun x => Quiet c x)
  · apply quiet_invoke
    exact ⟨rfl, rfl, rfl, rfl, rfl, Or.inl rfl⟩
  · intro c2 h2
    exact quiet_invoke c c2 _ _ h2

theorem quiet_connectDestroyed (c : TcpConnection) : Quiet c c.connectDestroyed.conn := by
  unfold connectDestroyed
  dsimp only
  apply Outcome.andThen_conn_of _ _ (fun x => Quiet c x)
  · split_ifs
    · apply quiet_invoke
      exact ⟨rfl, rfl, rfl, rfl, rfl, Or.inl rfl⟩
    · exact quiet_refl c
  · intro c2 h2
    exact h2

theorem quiet_handleRead (c : TcpConnection) (n : Int) (data : List Byte) (errno : Int) :
    Quiet c (c.handleRead n data errno).conn := by
  unfold handleRead
  dsimp only
  split_ifs
  · apply quiet_invoke
    exact quiet_refl c
  · have := quiet_handleClose { c with inputBuffer_ := (c.inputBuffer_.readFd n data errno 0).buf }
    exact this
  · exact quiet_refl c

theorem writeTracks_of_quiet {c c1 : TcpConnection} (h : c.WriteTracks) (q : Quiet c c1) :
    c1.WriteTracks := by
  obtain ⟨qb, _, _, _, _, qs⟩ := q
  obtain ⟨hi, hw⟩ := h
  refine ⟨by rw [qb]; exact hi, ?_⟩
  intro hnd
  rcases qs with hd | ⟨he, hst⟩
  · exact absurd hd hnd
  · rw [qb, he]
    apply hw
    rcases hst with h1 | ⟨h1, _⟩
    · rw [← h1]; exact hnd
    · rw [h1]; decide

end TcpConnection

namespace TcpConnection

theorem shutdownInLoop_fields (c : TcpConnection) :
    c.shutdownInLoop.outputBuffer_ = c.outputBuffer_ ∧ c.shutdownInLoop.events_ = c.events_ ∧
      c.shutdownInLoop.sent_ = c.sent_ := by
  unfold shutdownInLoop
  split <;> exact ⟨rfl, rfl, rfl⟩

theorem shutdown_fields (c : TcpConnection) (t : Bool) :
    (c.shutdown t).outputBuffer_ = c.outputBuffer_ ∧ (c.shutdown t).events_ = c.events_ ∧
      (c.shutdown t).sent_ = c.sent_ := by
  unfold shutdown
  dsimp only
  by_cases h : c.state_ = StateE.kConnected
  · rw [if_pos h]
    cases t
    · rw [if_neg (by decide)]; exact ⟨rfl, rfl, rfl⟩
    · rw [if_pos rfl]; exact shutdownInLoop_fields _
  · rw [if_neg h]; exact ⟨rfl, rfl, rfl⟩

theorem writeTracks_sendInLoop (c : TcpConnection) (message : List Byte) (nwrote errno : Int)
    (h : c.WriteTracks) (hw : nwrote ≤ (message.length : Int))
    (hsp : c.outputBuffer_.writerIndex_ + message.length < SIZE_MOD) :
    (c.sendInLoop message nwrote errno).WriteTracks := by
  by_cases hst : c.state_ = StateE.kDisconnected
  · have e : c.sendInLoop message nwrote errno = c := by
      unfold sendInLoop; rw [if_pos hst]
    rw [e]; exact h
  · obtain ⟨k, _, _, _, _, hi, _, hrb, hwr, _, _⟩ :=
      sendInLoop_spec c message nwrote errno hst h.1 hw hsp
    refine ⟨hi, fun _ => ?_⟩
    have h2 := h.2 hst
    rw [hwr, hrb, h2]
    omega

theorem writeTracks_handleWrite (c : TcpConnection) (n errno : Int) (h : c.WriteTracks)
    (hn : n ≤ (c.outputBuffer_.readableBytes : Int)) :
    (c.handleWrite n errno).WriteTracks := by
  have hst := handleWrite_state c n errno
  cases hw : Channel.isWriting c.events_
  · have e : c.handleWrite n errno = c := by
      unfold handleWrite; rw [hw]; rfl
    rw [e]; exact h
  · by_cases h0 : 0 < n
    · have hrb := Buffer.retrieve_readableBytes h.1 n.toNat
      rcases lt_or_eq_of_le hn with hlt | heq
      · rw [handleWrite_part c n errno h.1 hw h0 hlt]
        refine ⟨Buffer.retrieve_inv h.1 _, fun _ => ?_⟩
        show Channel.isWriting c.events_ = true ↔ 0 < (c.outputBuffer_.retrieve n.toNat).readableBytes
        rw [hrb, hw]
        exact ⟨fun _ => (by omega), fun _ => rfl⟩
      · have hz : (c.outputBuffer_.retrieve n.toNat).readableBytes = 0 := by rw [hrb]; omega
        rw [handleWrite_all c n errno h.1 hw h0 heq]
        split <;>
        · refine ⟨Buffer.retrieve_inv h.1 _, fun _ => ?_⟩
          show Channel.isWriting (Channel.disableWriting c.events_) = true ↔
            0 < (c.outputBuffer_.retrieve n.toNat).readableBytes
          rw [hz, Channel.isWriting_disableWriting]
          exact ⟨fun x => (by cases x), fun x => (by omega)⟩
    · have e : c.handleWrite n errno = c := by
        unfold handleWrite
        dsimp only
        rw [if_pos hw, Buffer.writeFd_fst, if_neg h0]
      rw [e]; exact h

theorem writeTracks_step (c : TcpConnection) (op : ConnOp) (h : c.WriteTracks)
    (ha : op.afterEstablished = true) (he : op.envOk c = true) :
    (op.apply c).conn.WriteTracks := by
  cases op with
  | send buf t nwrote errno =>
    simp only [ConnOp.envOk, decide_eq_true_eq] at he
    show (c.send buf t nwrote errno).WriteTracks
    unfold send
    split_ifs
    · exact writeTracks_sendInLoop c buf nwrote errno h he.1 he.2
    · exact h
    · exact h
  | sendInLoop message nwrote errno =>
    simp only [ConnOp.envOk, decide_eq_true_eq] at he
    exact writeTracks_sendInLoop c message nwrote errno h he.1 he.2
  | shutdown t =>
    show (c.shutdown t).WriteTracks
    obtain ⟨fb, fe, _⟩ := shutdown_fields c t
    have fs := shutdown_state c t
    refine ⟨by rw [fb]; exact h.1, fun _ => ?_⟩
    rw [fb, fe]
    apply h.2
    intro hd
    rw [hd, if_neg (by decide)] at fs
    rw [fs] at *
    contradiction
  | shutdownInLoop =>
    show c.shutdownInLoop.WriteTracks
    obtain ⟨fb, fe, _⟩ := shutdownInLoop_fields c
    have fs := shutdownInLoop_state c
    refine ⟨by rw [fb]; exact h.1, fun hd => ?_⟩
    rw [fb, fe]
    exact h.2 (by rw [← fs]; exact hd)
  | connectEstablished => cases ha
  | connectDestroyed => exact writeTracks_of_quiet h (quiet_connectDestroyed c)
  | handleRead n data errno => exact writeTracks_of_quiet h (quiet_handleRead c n data errno)
  | handleWrite n errno =>
    simp only [ConnOp.envOk, decide_eq_true_eq] at he
    exact writeTracks_handleWrite c n errno h he
  | handleClose => exact writeTracks_of_quiet h (quiet_handleClose c)
  | handleError => exact h

end TcpConnection

namespace TcpConnection

end TcpConnection

/-- A property that every reached operation preserves holds after the whole sequence. -/
theorem runConn_induct (P : TcpConnection → Prop) (A : ConnOp → Bool)
    (hstep : ∀ c op, P c → A op = true → op.envOk c = true → P (op.apply c).conn)
    (ops : List ConnOp) (c : TcpConnection) (h : P c) (hA : ∀ op ∈ ops, A op = true)
    (he : allConn ConnOp.envOk c ops = true) : P (runConn c ops).conn := by
  induction ops generalizing c with
  | nil => exact h
  | cons op ops ih =>
    simp only [allConn, Bool.and_eq_true] at he
    have h1 := hstep c op h (hA op (List.mem_cons_self _ _)) he.1
    unfold runConn
    cases ho : op.apply c with
    | returned c1 =>
      rw [ho] at h1 he
      exact ih c1 h1 (fun o ho2 => hA o (List.mem_cons_of_mem _ ho2)) he.2
    | threw c1 =>
      rw [ho] at h1
      exact h1

theorem runConn_established (P : TcpConnection → Prop) (A : ConnOp → Bool)
    (hstep : ∀ c op, P c → A op = true → op.envOk c = true → P (op.apply c).conn)
    (ops : List ConnOp) (c : TcpConnection) (h : P c.connectEstablished.conn)
    (hA : ∀ op ∈ ops, A op = true)
    (he : allConn ConnOp.envOk c.connectEstablished.conn ops = true) :
    P (runConn c (ConnOp.connectEstablished :: ops)).conn := by
  unfold runConn
  show P (Outcome.andThen c.connectEstablished (fun c1 => runConn c1 ops)).conn
  cases ho : c.connectEstablished with
  | returned c1 =>
    rw [ho] at h he
    exact runConn_induct P A hstep ops c1 h hA he
  | threw c1 =>
    rw [ho] at h
    exact h

namespace TcpConnection

theorem connectEstablished_conn (c : TcpConnection) :
    ∃ l, c.connectEstablished.conn = { c with
      state_ := StateE.kConnected
      tied_ := true
      events_ := Channel.enableReading c.events_
      calls_ := l } := by
  unfold connectEstablished invoke
  dsimp only
  split
  · exact ⟨_, rfl⟩
  · exact ⟨c.calls_, rfl⟩

theorem established_ok (c : TcpConnection) (hinv : c.outputBuffer_.Inv)
    (hrb : c.outputBuffer_.readableBytes = 0) (hw : Channel.isWriting c.events_ = false)
    (hp : c.shutdownPending_ = []) (hs : c.shutdownWrites_ = 0) :
    c.connectEstablished.conn.WriteTracks ∧ c.connectEstablished.conn.ShutdownsClean := by
  obtain ⟨l, hl⟩ := connectEstablished_conn c
  rw [hl]
  constructor
  · refine ⟨hinv, fun _ => ?_⟩
    show Channel.isWriting (Channel.enableReading c.events_) = true ↔
      0 < c.outputBuffer_.readableBytes
    rw [Channel.isWriting_enableReading, hw, hrb]
    exact ⟨fun x => (by cases x), fun x => (by omega)⟩
  · show (∀ x ∈ c.shutdownPending_, x = 0) ∧ c.shutdownPending_.length = c.shutdownWrites_
    rw [hp, hs]
    exact ⟨fun x hx => (by cases hx), rfl⟩

theorem fresh_established (loop : EventLoop) (nameArg : Str) (sockfd : Int)
    (localAddr peerAddr : Str) (ccb mcb wcb hcb clcb : Bool) (hwm : Nat) :
    (fresh loop nameArg sockfd localAddr peerAddr ccb mcb wcb hcb clcb
        hwm).connectEstablished.conn.WriteTracks ∧
    (fresh loop nameArg sockfd localAddr peerAddr ccb mcb wcb hcb clcb
        hwm).connectEstablished.conn.ShutdownsClean := by
  have hinv : (Buffer.init Buffer.kInitiaSize).Inv := Buffer.init_inv _ (by decide)
  have hrb : (Buffer.init Buffer.kInitiaSize).readableBytes = 0 := by
    rw [Buffer.readableBytes_eq hinv]; rfl
  have hw : Channel.isWriting Channel.kNoneEvent = false := by decide
  exact established_ok _ hinv hrb hw rfl rfl

theorem handleWrite_conserve (c : TcpConnection) (n errno : Int) (hinv : c.outputBuffer_.Inv)
    (hn : n ≤ (c.outputBuffer_.readableBytes : Int)) :
    (c.handleWrite n errno).outputBuffer_.Inv ∧
    (c.handleWrite n errno).sent_ ++ (c.handleWrite n errno).outputBuffer_.readable
      = c.sent_ ++ c.outputBuffer_.readable := by
  cases hw : Channel.isWriting c.events_
  · have e : c.handleWrite n errno = c := by
      unfold handleWrite; rw [hw]; rfl
    rw [e]; exact ⟨hinv, rfl⟩
  · by_cases h0 : 0 < n
    · have hrr := Buffer.retrieve_readable hinv n.toNat
      have hri := Buffer.retrieve_inv hinv n.toNat
      rcases lt_or_eq_of_le hn with hlt | heq
      · rw [handleWrite_part c n errno hinv hw h0 hlt]
        refine ⟨hri, ?_⟩
        show (c.sent_ ++ c.outputBuffer_.readable.take n.toNat)
          ++ (c.outputBuffer_.retrieve n.toNat).readable = _
        rw [hrr, List.append_assoc, List.take_append_drop]
      · have hnil : (c.outputBuffer_.retrieve n.toNat).readable = [] := by
          rw [hrr]
          apply List.drop_eq_nil_of_le
          rw [Buffer.readable_length hinv]; omega
        rw [handleWrite_all c n errno hinv hw h0 heq]
        split <;>
        · refine ⟨hri, ?_⟩
          show (c.sent_ ++ c.outputBuffer_.readable)
            ++ (c.outputBuffer_.retrieve n.toNat).readable = _
          rw [hnil, List.append_nil]
    · have e : c.handleWrite n errno = c := by
        unfold handleWrite
        dsimp only
        rw [if_pos hw, Buffer.writeFd_fst, if_neg h0]
      rw [e]; exact ⟨hinv, rfl⟩

theorem sendInLoop_conserve (c : TcpConnection) (message : List Byte) (nwrote errno : Int)
    (hst : c.state_ ≠ StateE.kDisconnected) (hinv : c.outputBuffer_.Inv)
    (hw : nwrote ≤ (message.length : Int))
    (hsp : c.outputBuffer_.writerIndex_ + message.length < SIZE_MOD) :
    (c.sendInLoop message nwrote errno).outputBuffer_.Inv ∧
    (c.sendInLoop message nwrote errno).sent_
        ++ (c.sendInLoop message nwrote errno).outputBuffer_.readable
      = c.sent_ ++ c.outputBuffer_.readable ++ message := by
  obtain ⟨k, _, hk0, _, hs, hi, hr, _, _, _, _⟩ :=
    sendInLoop_spec c message nwrote errno hst hinv hw hsp
  refine ⟨hi, ?_⟩
  rw [hs, hr]
  by_cases hk : k = 0
  · subst hk
    simp
  · have hz := (hk0 hk).2
    have hl := Buffer.readable_length hinv
    rw [hz] at hl
    rw [List.eq_nil_of_length_eq_zero hl]
    simp

end TcpConnection

theorem writePath_run (ops : List ConnOp) (c : TcpConnection)
    (hst : c.state_ ≠ StateE.kDisconnected) (hinv : c.outputBuffer_.Inv)
    (hops : ∀ op ∈ ops, op.writePath = true) (henv : allConn ConnOp.envOk c ops = true) :
    (runConn c ops).isReturned = true ∧ (runConn c ops).conn.state_ = c.state_ ∧
    (runConn c ops).conn.outputBuffer_.Inv ∧
    (runConn c ops).conn.sent_ ++ (runConn c ops).conn.outputBuffer_.readable
      = c.sent_ ++ c.outputBuffer_.readable ++ messages ops := by
  induction ops generalizing c with
  | nil => exact ⟨rfl, rfl, hinv, by simp [runConn, messages, Outcome.conn]⟩
  | cons op ops ih =>
    simp only [allConn, Bool.and_eq_true] at henv
    have hrest : ∀ o ∈ ops, o.writePath = true := fun o ho => hops o (List.mem_cons_of_mem _ ho)
    have hop := hops op (List.mem_cons_self _ _)
    cases op with
    | sendInLoop message nwrote errno =>
      have he := henv.1
      simp only [ConnOp.envOk, decide_eq_true_eq] at he
      obtain ⟨hi, hc⟩ := TcpConnection.sendInLoop_conserve c message nwrote errno hst hinv
        he.1 he.2
      have hs := TcpConnection.sendInLoop_state c message nwrote errno
      obtain ⟨r1, r2, r3, r4⟩ := ih (c.sendInLoop message nwrote errno) (by rw [hs]; exact hst)
        hi hrest henv.2
      have e : runConn c (ConnOp.sendInLoop message nwrote errno :: ops)
          = runConn (c.sendInLoop message nwrote errno) ops := rfl
      rw [e]
      refine ⟨r1, by rw [← hs]; exact r2, r3, ?_⟩
      rw [r4, hc]
      simp [messages, ConnOp.message]
    | handleWrite n errno =>
      have he := henv.1
      simp only [ConnOp.envOk, decide_eq_true_eq] at he
      obtain ⟨hi, hc⟩ := TcpConnection.handleWrite_conserve c n errno hinv he
      have hs := TcpConnection.handleWrite_state c n errno
      obtain ⟨r1, r2, r3, r4⟩ := ih (c.handleWrite n errno) (by rw [hs]; exact hst)
        hi hrest henv.2
      have e : runConn c (ConnOp.handleWrite n errno :: ops)
          = runConn (c.handleWrite n errno) ops := rfl
      rw [e]
      refine ⟨r1, by rw [← hs]; exact r2, r3, ?_⟩
      rw [r4, hc]
      simp [messages, ConnOp.message]
    | send _ _ _ _ => cases hop
    | shutdown _ => cases hop
    | shutdownInLoop => cases hop
    | connectEstablished => cases hop
    | connectDestroyed => cases hop
    | handleRead _ _ _ => cases hop
    | handleClose => cases hop
    | handleError => cases hop

/-! ## Lemmas on the invocations of the connection callback -/

namespace TcpConnection

theorem directWrite_user (c : TcpConnection) (message : List Byte) (nwrote errno : Int) :
    (directWrite c message nwrote errno).conn.calls_ = c.calls_ ∧
    (directWrite c message nwrote errno).conn.connectionCallback_ = c.connectionCallback_ ∧
    (directWrite c message nwrote errno).conn.messageCallback_ = c.messageCallback_ ∧
    (directWrite c message nwrote errno).conn.closeCallback_ = c.closeCallback_ := by
  unfold directWrite queueInLoop
  dsimp only
  split_ifs <;> exact ⟨rfl, rfl, rfl, rfl⟩

theorem bufferRemaining_user (a : SendAttempt) (message : List Byte) :
    (bufferRemaining a message).calls_ = a.conn.calls_ ∧
    (bufferRemaining a message).connectionCallback_ = a.conn.connectionCallback_ ∧
    (bufferRemaining a message).messageCallback_ = a.conn.messageCallback_ ∧
    (bufferRemaining a message).closeCallback_ = a.conn.closeCallback_ := by
  unfold bufferRemaining queueInLoop
  dsimp only
  split_ifs <;> exact ⟨rfl, rfl, rfl, rfl⟩

theorem sendInLoop_user (c : TcpConnection) (message : List Byte) (nwrote errno : Int) :
    (c.sendInLoop message nwrote errno).calls_ = c.calls_ ∧
    (c.sendInLoop message nwrote errno).connectionCallback_ = c.connectionCallback_ ∧
    (c.sendInLoop message nwrote errno).messageCallback_ = c.messageCallback_ ∧
    (c.sendInLoop message nwrote errno).closeCallback_ = c.closeCallback_ := by
  have hd := directWrite_user c message nwrote errno
  have hb := bufferRemaining_user (directWrite c message nwrote errno) message
  unfold sendInLoop
  split
  · exact ⟨rfl, rfl, rfl, rfl⟩
  · exact ⟨hb.1.trans hd.1, hb.2.1.trans hd.2.1, hb.2.2.1.trans hd.2.2.1,
      hb.2.2.2.trans hd.2.2.2⟩

theorem shutdown_user (c : TcpConnection) (t : Bool) :
    (c.shutdown t).calls_ = c.calls_ ∧
    (c.shutdown t).connectionCallback_ = c.connectionCallback_ ∧
    (c.shutdown t).messageCallback_ = c.messageCallback_ ∧
    (c.shutdown t).closeCallback_ = c.closeCallback_ := by
  unfold shutdown shutdownInLoop runInLoopQueued queueInLoop
  dsimp only
  split_ifs <;> exact ⟨rfl, rfl, rfl, rfl⟩

theorem handleWrite_user (c : TcpConnection) (n errno : Int) :
    (c.handleWrite n errno).calls_ = c.calls_ ∧
    (c.handleWrite n errno).connectionCallback_ = c.connectionCallback_ ∧
    (c.handleWrite n errno).messageCallback_ = c.messageCallback_ ∧
    (c.handleWrite n errno).closeCallback_ = c.closeCallback_ := by
  unfold handleWrite shutdownInLoop queueInLoop
  dsimp only
  split_ifs <;> exact ⟨rfl, rfl, rfl, rfl⟩

theorem handleClose_installed (c : TcpConnection) (h : c.CallbacksSet) :
    c.handleClose = Outcome.returned { c with
      state_ := StateE.kDisconnected
      events_ := Channel.disableAll c.events_
      calls_ := c.calls_ ++ [UserCall.connection StateE.kDisconnected] ++ [UserCall.close] } := by
  obtain ⟨h1, _, h3⟩ := h
  unfold handleClose invoke
  dsimp only
  rw [if_pos h1]
  unfold Outcome.andThen
  dsimp only
  rw [if_pos h3]

theorem connectDestroyed_installed (c : TcpConnection) (h : c.CallbacksSet) :
    c.connectDestroyed = Outcome.returned
      (if c.state_ = StateE.kConnected then
        { c with
          state_ := StateE.kDisconnected
          events_ := Channel.disableAll c.events_
          calls_ := c.calls_ ++ [UserCall.connection StateE.kDisconnected]
          removed_ := true }
      else { c with removed_ := true }) := by
  obtain ⟨h1, _, _⟩ := h
  unfold connectDestroyed invoke
  dsimp only
  by_cases hs : c.state_ = StateE.kConnected
  · rw [if_pos hs, if_pos hs, if_pos h1]
    rfl
  · rw [if_neg hs, if_neg hs]
    rfl

theorem connectEstablished_installed (c : TcpConnection) (h : c.connectionCallback_ = true) :
    c.connectEstablished = Outcome.returned { c with
      state_ := StateE.kConnected
      tied_ := true
      events_ := Channel.enableReading c.events_
      calls_ := c.calls_ ++ [UserCall.connection StateE.kConnected] } := by
  unfold connectEstablished invoke
  dsimp only
  rw [if_pos h]

theorem handleRead_installed (c : TcpConnection) (n : Int) (data : List Byte) (errno : Int)
    (h : c.CallbacksSet) :
    ∃ b, c.handleRead n data errno = Outcome.returned
      (if n = 0 then { c with
          inputBuffer_ := b
          state_ := StateE.kDisconnected
          events_ := Channel.disableAll c.events_
          calls_ := c.calls_ ++ [UserCall.connection StateE.kDisconnected] ++ [UserCall.close] }
        else if n > 0 then { c with inputBuffer_ := b, calls_ := c.calls_ ++ [UserCall.message] }
        else { c with inputBuffer_ := b }) := by
  refine ⟨(c.inputBuffer_.readFd n data errno 0).buf, ?_⟩
  unfold handleRead
  dsimp only
  rw [readFd_n]
  by_cases h1 : n > 0
  · rw [if_pos h1, if_neg (by omega), if_pos h1]
    unfold invoke
    dsimp only
    rw [if_pos h.2.1]
  · rw [if_neg h1]
    by_cases h2 : n = 0
    · rw [if_pos h2, if_pos h2]
      exact handleClose_installed _ h
    · rw [if_neg h2, if_neg h2, if_neg h1]
      rfl

end TcpConnection

theorem connectionCalls_of_calls (c1 c : TcpConnection) (l : List UserCall) (s : StateE)
    (h : c1.calls_ = c.calls_ ++ l) :
    connectionCalls c1 s = connectionCalls c s + l.count (UserCall.connection s) := by
  unfold connectionCalls
  rw [h]
  exact List.count_append _ _ _

theorem lifetime_step (c : TcpConnection) (op : ConnOp) (hJ : c.CallbacksSet)
    (hl : op.lifetime = true) :
    ∃ c1, op.apply c = Outcome.returned c1 ∧ c1.CallbacksSet ∧
      connectionCalls c1 StateE.kConnected = connectionCalls c StateE.kConnected ∧
      connectionCalls c1 StateE.kDisconnected
        = connectionCalls c StateE.kDisconnected + (if op.isClose = true then 1 else 0) ∧
      (c1.state_ = StateE.kConnected ↔
        c.state_ = StateE.kConnected ∧ op.isClose = false ∧ op.isShutdown = false) := by
  cases op with
  | send buf t nwrote errno => cases hl
  | shutdownInLoop => cases hl
  | connectEstablished => cases hl
  | connectDestroyed => cases hl
  | sendInLoop message nwrote errno =>
    obtain ⟨u1, u2, u3, u4⟩ := TcpConnection.sendInLoop_user c message nwrote errno
    refine ⟨c.sendInLoop message nwrote errno, rfl, ?_, ?_, ?_, ?_⟩
    · exact ⟨u2.trans hJ.1, u3.trans hJ.2.1, u4.trans hJ.2.2⟩
    · unfold connectionCalls; rw [u1]
    · unfold connectionCalls; rw [u1]; rfl
    · rw [TcpConnection.sendInLoop_state]
      exact ⟨fun h => ⟨h, rfl, rfl⟩, fun h => h.1⟩
  | handleWrite n errno =>
    obtain ⟨u1, u2, u3, u4⟩ := TcpConnection.handleWrite_user c n errno
    refine ⟨c.handleWrite n errno, rfl, ?_, ?_, ?_, ?_⟩
    · exact ⟨u2.trans hJ.1, u3.trans hJ.2.1, u4.trans hJ.2.2⟩
    · unfold connectionCalls; rw [u1]
    · unfold connectionCalls; rw [u1]; rfl
    · rw [TcpConnection.handleWrite_state]
      exact ⟨fun h => ⟨h, rfl, rfl⟩, fun h => h.1⟩
  | handleError =>
    exact ⟨c, rfl, hJ, rfl, rfl, fun h => ⟨h, rfl, rfl⟩, fun h => h.1⟩
  | shutdown t =>
    obtain ⟨u1, u2, u3, u4⟩ := TcpConnection.shutdown_user c t
    refine ⟨c.shutdown t, rfl, ?_, ?_, ?_, ?_⟩
    · exact ⟨u2.trans hJ.1, u3.trans hJ.2.1, u4.trans hJ.2.2⟩
    · unfold connectionCalls; rw [u1]
    · unfold connectionCalls; rw [u1]; rfl
    · rw [TcpConnection.shutdown_state]
      constructor
      · intro h
        by_cases h1 : c.state_ = StateE.kConnected
        · rw [if_pos h1] at h; cases h
        · rw [if_neg h1] at h; exact absurd h h1
      · intro h
        cases h.2.2
  | handleClose =>
    refine ⟨_, TcpConnection.handleClose_installed c hJ, hJ, ?_, ?_, ?_⟩
    · exact (connectionCalls_of_calls _ c
        [UserCall.connection StateE.kDisconnected, UserCall.close] _
        (List.append_assoc _ _ _)).trans rfl
    · exact (connectionCalls_of_calls _ c
        [UserCall.connection StateE.kDisconnected, UserCall.close] _
        (List.append_assoc _ _ _)).trans rfl
    · exact ⟨fun h => (by cases h), fun h => (by cases h.2.1)⟩
  | handleRead n data errno =>
    obtain ⟨b, hb⟩ := TcpConnection.handleRead_installed c n data errno hJ
    refine ⟨_, hb, ?_⟩
    by_cases h0 : n = 0
    · rw [if_pos h0]
      have hc : (ConnOp.handleRead n data errno).isClose = true := by
        unfold ConnOp.isClose; exact decide_eq_true h0
      rw [hc]
      refine ⟨hJ, ?_, ?_, ?_⟩
      · exact (connectionCalls_of_calls _ c
        [UserCall.connection StateE.kDisconnected, UserCall.close] _
        (List.append_assoc _ _ _)).trans rfl
      · exact (connectionCalls_of_calls _ c
        [UserCall.connection StateE.kDisconnected, UserCall.close] _
        (List.append_assoc _ _ _)).trans rfl
      · exact ⟨fun h => (by cases h), fun h => (by cases h.2.1)⟩
    · rw [if_neg h0]
      have hc : (ConnOp.handleRead n data errno).isClose = false := by
        unfold ConnOp.isClose; exact decide_eq_false h0
      rw [hc]
      by_cases h1 : n > 0
      · rw [if_pos h1]
        refine ⟨hJ, ?_, ?_, ?_⟩
        · exact (connectionCalls_of_calls _ c [UserCall.message] _ rfl).trans rfl
        · exact (connectionCalls_of_calls _ c [UserCall.message] _ rfl).trans rfl
        · exact ⟨fun h => ⟨h, rfl, rfl⟩, fun h => h.1⟩
      · rw [if_neg h1]
        exact ⟨hJ, rfl, rfl, fun h => ⟨h, rfl, rfl⟩, fun h => h.1⟩

theorem lifetime_run (ops : List ConnOp) :
    ∀ c : TcpConnection, c.CallbacksSet → (∀ op ∈ ops, op.lifetime = true) →
      (runConn c (ops ++ [ConnOp.connectDestroyed])).isReturned = true ∧
      connectionCalls (runConn c (ops ++ [ConnOp.connectDestroyed])).conn StateE.kConnected
        = connectionCalls c StateE.kConnected ∧
      connectionCalls (runConn c (ops ++ [ConnOp.connectDestroyed])).conn StateE.kDisconnected
        = connectionCalls c StateE.kDisconnected + closes ops
          + (if c.state_ = StateE.kConnected ∧ closes ops = 0 ∧ shutdowns ops = 0
              then 1 else 0) := by
  induction ops with
  | nil =>
    intro c hJ _
    have e : runConn c ([] ++ [ConnOp.connectDestroyed])
        = Outcome.andThen c.connectDestroyed (fun c1 => Outcome.returned c1) := rfl
    rw [e, TcpConnection.connectDestroyed_installed c hJ]
    refine ⟨rfl, ?_, ?_⟩
    · show connectionCalls (if _ then _ else _) _ = _
      split_ifs
      · exact (connectionCalls_of_calls _ c [UserCall.connection StateE.kDisconnected] _
          rfl).trans rfl
      · rfl
    · show connectionCalls (if _ then _ else _) _ = _
      by_cases hs : c.state_ = StateE.kConnected
      · rw [if_pos hs, if_pos ⟨hs, rfl, rfl⟩]
        exact (connectionCalls_of_calls _ c [UserCall.connection StateE.kDisconnected] _
          rfl).trans rfl
      · rw [if_neg hs, if_neg (fun h => hs h.1)]
        rfl
  | cons op ops ih =>
    intro c hJ hops
    obtain ⟨c1, h1, hJ1, hc, hd, hs⟩ :=
      lifetime_step c op hJ (hops op (List.mem_cons_self _ _))
    have e : runConn c (op :: ops ++ [ConnOp.connectDestroyed])
        = runConn c1 (ops ++ [ConnOp.connectDestroyed]) := by
      show Outcome.andThen (op.apply c) _ = _
      rw [h1]; rfl
    obtain ⟨r1, r2, r3⟩ := ih c1 hJ1 (fun o ho => hops o (List.mem_cons_of_mem _ ho))
    rw [e]
    refine ⟨r1, r2.trans hc, ?_⟩
    rw [r3, hd]
    have hcl : closes (op :: ops) = closes ops + (if op.isClose = true then 1 else 0) := by
      unfold closes; exact List.countP_cons _ _ _
    have hsh : shutdowns (op :: ops)
        = shutdowns ops + (if op.isShutdown = true then 1 else 0) := by
      unfold shutdowns; exact List.countP_cons _ _ _
    rw [hcl, hsh]
    by_cases ha : op.isClose = true
    · have hn : ¬ c1.state_ = StateE.kConnected := fun h => by
        have := (hs.mp h).2.1
        rw [ha] at this
        exact absurd this (by decide)
      rw [if_pos ha, if_neg (fun h => hn h.1), if_neg (fun h => by omega)]
      omega
    · rw [if_neg ha]
      have ha0 : op.isClose = false := by
        cases h : op.isClose
        · rfl
        · exact absurd h ha
      by_cases hb : op.isShutdown = true
      · have hn : ¬ c1.state_ = StateE.kConnected := fun h => by
          have := (hs.mp h).2.2
          rw [hb] at this
          exact absurd this (by decide)
        rw [if_pos hb, if_neg (fun h => hn h.1), if_neg (fun h => by omega)]
        omega
      · have hb0 : op.isShutdown = false := by
          cases h : op.isShutdown
          · rfl
          · exact absurd h hb
        rw [if_neg hb]
        by_cases hst : c.state_ = StateE.kConnected
        · have h1c : c1.state_ = StateE.kConnected := hs.mpr ⟨hst, ha0, hb0⟩
          by_cases hz : closes ops = 0 ∧ shutdowns ops = 0
          · rw [if_pos ⟨h1c, hz⟩, if_pos ⟨hst, by omega, by omega⟩]
            omega
          · rw [if_neg (fun h => hz h.2), if_neg (fun h => hz ⟨by omega, by omega⟩)]
            omega
        · have h1c : ¬ c1.state_ = StateE.kConnected := fun h => hst (hs.mp h).1
          rw [if_neg (fun h => h1c h.1), if_neg (fun h => hst h.1)]
          omega

/-! ## Lemmas on the calls that can throw -/

namespace Buffer

theorem ensureOrThrow_some (b : Buffer) (n : Nat) (hn : b.writerIndex_ + n ≤ MAX_SIZE) :
    b.ensureWriteableBytesOrThrow n = some (b.ensureWriteableBytes n) := by
  have hu : uadd b.writerIndex_ n ≤ MAX_SIZE := le_trans (Nat.mod_le _ _) hn
  have hr : resizeOrThrow b.buffer_ (uadd b.writerIndex_ n)
      = some (resize b.buffer_ (uadd b.writerIndex_ n)) := by
    unfold resizeOrThrow
    rw [if_neg (fun h => absurd h.2 (by omega))]
  unfold ensureWriteableBytesOrThrow ensureWriteableBytes makeSpaceOrThrow makeSpace
  dsimp only
  rw [hr]
  split_ifs <;> rfl

theorem appendOrThrow_some (b : Buffer) (data : List Byte)
    (hn : b.writerIndex_ + data.length ≤ MAX_SIZE) :
    b.appendOrThrow data = some (b.append data) := by
  unfold appendOrThrow append
  rw [ensureOrThrow_some b _ hn]

theorem ensureOrThrow_none {b : Buffer} {n : Nat} (h : b.Inv)
    (hn : b.writerIndex_ + n < SIZE_MOD) (hmax : MAX_SIZE < b.writerIndex_ + n)
    (hw : b.writableBytes < n)
    (hc : b.writableBytes + (b.prependableBytes - kCheapPrepend) < n) :
    b.ensureWriteableBytesOrThrow n = none := by
  have hwe := writableBytes_eq h
  obtain ⟨h1, h2, h3, h4⟩ := h
  unfold ensureWriteableBytesOrThrow makeSpaceOrThrow
  rw [if_pos hw]
  simp only [prependableBytes, kCheapPrepend] at *
  have e1 : uadd b.writableBytes b.readerIndex_ = b.writableBytes + b.readerIndex_ :=
    uadd_eq (by omega)
  have e2 : uadd n 8 = n + 8 := uadd_eq (by omega)
  have e3 : uadd b.writerIndex_ n = b.writerIndex_ + n := uadd_eq hn
  have hr : resizeOrThrow b.buffer_ (b.writerIndex_ + n) = none := by
    unfold resizeOrThrow
    rw [if_pos ⟨by omega, hmax⟩]
  rw [e1, e2, e3, if_pos (by omega), hr]

end Buffer

/-! ## C1: the buffer is a FIFO queue of bytes -/

set_option maxRecDepth 100000 in
/-- C1 as stated fails: on a default-constructed buffer, `append` of two bytes followed by
`ensureWriteableBytes(2^64 - 10)` computes `writerIndex_ + len = 2^64`, which wraps to `0`,
so `makeSpace` resizes the storage to `0` bytes. The region `[readerIndex_, writerIndex_)`
is `[8, 10)`, outside the storage, and no longer holds the queue `[1, 2]`. -/
theorem buffer_fifo_counterexample :
    allOps BufOp.boundedRetrieve (Buffer.init Buffer.kInitiaSize)
        [BufOp.append [1, 2], BufOp.ensureWriteableBytes (SIZE_MOD - 10)] = true ∧
      (runOps (Buffer.init Buffer.kInitiaSize)
        [BufOp.append [1, 2], BufOp.ensureWriteableBytes (SIZE_MOD - 10)]).buffer_ = [] ∧
      (runOps (Buffer.init Buffer.kInitiaSize)
        [BufOp.append [1, 2], BufOp.ensureWriteableBytes (SIZE_MOD - 10)]).writerIndex_ = 10 ∧
      runQueue [] [BufOp.append [1, 2], BufOp.ensureWriteableBytes (SIZE_MOD - 10)] = [1, 2] ∧
      (runOps (Buffer.init Buffer.kInitiaSize)
        [BufOp.append [1, 2], BufOp.ensureWriteableBytes (SIZE_MOD - 10)]).readable ≠
        runQueue [] [BufOp.append [1, 2], BufOp.ensureWriteableBytes (SIZE_MOD - 10)] := by
  decide

/-- C1, amended: for a buffer constructed with `8 + initialSize < 2^64` and every sequence
of `append(bytes)`, `retrieve(n)` with `n <= readableBytes`, `retrieveAll`,
`retrieveAsString(n)` with `n <= readableBytes` and `ensureWriteableBytes(n)` with
`writerIndex_ + n < 2^64`, the bytes in `[readerIndex_, writerIndex_)` are the abstract
queue (append at the back, drop `n` at the front), and there are `readableBytes` of them. -/
theorem buffer_fifo_refines_queue (initialSize : Nat) (ops : List BufOp)
    (hinit : Buffer.kCheapPrepend + initialSize < SIZE_MOD)
    (hops : allOps (fun b op => op.boundedRetrieve b && op.noWrap b)
      (Buffer.init initialSize) ops = true) :
    (runOps (Buffer.init initialSize) ops).readable = runQueue [] ops ∧
      (runOps (Buffer.init initialSize) ops).readable.length
        = (runOps (Buffer.init initialSize) ops).readableBytes := by
  have h0 := Buffer.init_inv initialSize hinit
  have hg : allOps (fun b op => op.wellTyped b && op.noWrap b) (Buffer.init initialSize) ops
      = true := by
    refine allOps_mono ?_ _ _ hops
    intro b op h
    simp only [BufOp.boundedRetrieve, Bool.and_eq_true] at h ⊢
    exact ⟨h.1.1, h.2⟩
  obtain ⟨hi, hr⟩ := runOps_spec _ ops h0 hg
  rw [Buffer.init_readable] at hr
  exact ⟨hr, Buffer.readable_length hi⟩

/-- C1, amended, at a concrete run: three bytes appended, two retrieved, four appended
(which compacts and grows the 4-byte storage), three more ensured, one retrieved. -/
theorem buffer_fifo_refines_queue_witness :
    (runOps (Buffer.init 4)
        [BufOp.append [1, 2, 3], BufOp.retrieve 2, BufOp.append [4, 5, 6, 7],
          BufOp.ensureWriteableBytes 3, BufOp.retrieve 1]).readable
      = runQueue []
        [BufOp.append [1, 2, 3], BufOp.retrieve 2, BufOp.append [4, 5, 6, 7],
          BufOp.ensureWriteableBytes 3, BufOp.retrieve 1] ∧
      (runOps (Buffer.init 4)
        [BufOp.append [1, 2, 3], BufOp.retrieve 2, BufOp.append [4, 5, 6, 7],
          BufOp.ensureWriteableBytes 3, BufOp.retrieve 1]).readable.length
      = (runOps (Buffer.init 4)
        [BufOp.append [1, 2, 3], BufOp.retrieve 2, BufOp.append [4, 5, 6, 7],
          BufOp.ensureWriteableBytes 3, BufOp.retrieve 1]).readableBytes :=
  buffer_fifo_refines_queue 4 _ (by decide) (by decide)

/-! ## C2: the index invariant -/

set_option maxRecDepth 100000 in
/-- C2 as stated fails twice. After `append` of two bytes, `ensureWriteableBytes(2^64 - 10)`
resizes the storage to `(10 + 2^64 - 10) mod 2^64 = 0` bytes and leaves `writerIndex_ = 10`.
And `Buffer(2^64 - 1)` allocates `(8 + 2^64 - 1) mod 2^64 = 7` bytes with both indices at 8. -/
theorem buffer_index_invariant_counterexample :
    (allOps BufOp.anyRetrieve (Buffer.init Buffer.kInitiaSize)
        [BufOp.append [1, 2], BufOp.ensureWriteableBytes (SIZE_MOD - 10)] = true ∧
      ¬ (runOps (Buffer.init Buffer.kInitiaSize)
          [BufOp.append [1, 2], BufOp.ensureWriteableBytes (SIZE_MOD - 10)]).writerIndex_
        ≤ (runOps (Buffer.init Buffer.kInitiaSize)
          [BufOp.append [1, 2], BufOp.ensureWriteableBytes (SIZE_MOD - 10)]).buffer_.length) ∧
    (SIZE_MOD - 1 < SIZE_MOD ∧
      ¬ (Buffer.init (SIZE_MOD - 1)).writerIndex_ ≤ (Buffer.init (SIZE_MOD - 1)).buffer_.length) := by
  decide

/-- C2, amended: for a buffer constructed with `8 + initialSize < 2^64` and every sequence
of `append`, `retrieve(n)` (any `n`), `retrieveAll`, `retrieveAsString(n)` with
`n <= readableBytes`, and `ensureWriteableBytes(n)` with `writerIndex_ + n < 2^64`, the
state reached satisfies `8 = kCheapPrepend <= readerIndex_ <= writerIndex_ <= size`. -/
theorem buffer_index_invariant (initialSize : Nat) (ops : List BufOp)
    (hinit : Buffer.kCheapPrepend + initialSize < SIZE_MOD)
    (hops : allOps (fun b op => op.anyRetrieve b && op.noWrap b)
      (Buffer.init initialSize) ops = true) :
    Buffer.kCheapPrepend = 8 ∧
      Buffer.kCheapPrepend ≤ (runOps (Buffer.init initialSize) ops).readerIndex_ ∧
      (runOps (Buffer.init initialSize) ops).readerIndex_
        ≤ (runOps (Buffer.init initialSize) ops).writerIndex_ ∧
      (runOps (Buffer.init initialSize) ops).writerIndex_
        ≤ (runOps (Buffer.init initialSize) ops).buffer_.length := by
  have h0 := Buffer.init_inv initialSize hinit
  have hg : allOps (fun b op => op.wellTyped b && op.noWrap b) (Buffer.init initialSize) ops
      = true := by
    refine allOps_mono ?_ _ _ hops
    intro b op h
    simp only [BufOp.anyRetrieve, Bool.and_eq_true] at h ⊢
    exact ⟨h.1.1, h.2⟩
  obtain ⟨⟨h1, h2, h3, _⟩, _⟩ := runOps_spec _ ops h0 hg
  exact ⟨rfl, h1, h2, h3⟩

/-- C2, amended, at a concrete run that compacts, resizes and over-retrieves. -/
theorem buffer_index_invariant_witness :
    Buffer.kCheapPrepend = 8 ∧
      Buffer.kCheapPrepend ≤ (runOps (Buffer.init 4)
        [BufOp.append [1, 2, 3], BufOp.retrieveAsString 2, BufOp.append [4, 5, 6, 7],
          BufOp.ensureWriteableBytes 9, BufOp.retrieve 100, BufOp.retrieveAll]).readerIndex_ ∧
      (runOps (Buffer.init 4)
        [BufOp.append [1, 2, 3], BufOp.retrieveAsString 2, BufOp.append [4, 5, 6, 7],
          BufOp.ensureWriteableBytes 9, BufOp.retrieve 100, BufOp.retrieveAll]).readerIndex_
      ≤ (runOps (Buffer.init 4)
        [BufOp.append [1, 2, 3], BufOp.retrieveAsString 2, BufOp.append [4, 5, 6, 7],
          BufOp.ensureWriteableBytes 9, BufOp.retrieve 100, BufOp.retrieveAll]).writerIndex_ ∧
      (runOps (Buffer.init 4)
        [BufOp.append [1, 2, 3], BufOp.retrieveAsString 2, BufOp.append [4, 5, 6, 7],
          BufOp.ensureWriteableBytes 9, BufOp.retrieve 100, BufOp.retrieveAll]).writerIndex_
      ≤ (runOps (Buffer.init 4)
        [BufOp.append [1, 2, 3], BufOp.retrieveAsString 2, BufOp.append [4, 5, 6, 7],
          BufOp.ensureWriteableBytes 9, BufOp.retrieve 100, BufOp.retrieveAll]).buffer_.length :=
  buffer_index_invariant 4 _ (by decide) (by decide)

/-! ## C3: accounting -/

/-- C3: for a buffer constructed with `8 + initialSize < 2^64` and every sequence of
`append`, `retrieve(n)` with `n <= readableBytes`, and `ensureWriteableBytes(n)` in which
no `size_t` sum wraps around (`writerIndex_ + n < 2^64`), after each call (after the first
`k` calls, for every `k`) `readableBytes + prependableBytes + writableBytes` is the size of the
storage, as an equation between natural numbers, and `readableBytes` is the total number of
bytes appended minus the total number retrieved. -/
theorem buffer_accounting (initialSize : Nat) (ops : List BufOp) (k : Nat)
    (hinit : Buffer.kCheapPrepend + initialSize < SIZE_MOD)
    (hops : allOps (fun b op => op.boundedRetrieve b && op.noWrap b)
      (Buffer.init initialSize) ops = true) :
    (runOps (Buffer.init initialSize) (ops.take k)).readableBytes
        + (runOps (Buffer.init initialSize) (ops.take k)).prependableBytes
        + (runOps (Buffer.init initialSize) (ops.take k)).writableBytes
      = (runOps (Buffer.init initialSize) (ops.take k)).buffer_.length ∧
    totalRetrieved (Buffer.init initialSize) (ops.take k) ≤ totalAppended (ops.take k) ∧
    (runOps (Buffer.init initialSize) (ops.take k)).readableBytes
      = totalAppended (ops.take k) - totalRetrieved (Buffer.init initialSize) (ops.take k) := by
  have h0 := Buffer.init_inv initialSize hinit
  have hk := allOps_take _ _ k hops
  have hg : allOps (fun b op => op.wellTyped b && op.noWrap b) (Buffer.init initialSize)
      (ops.take k) = true := by
    refine allOps_mono ?_ _ _ hk
    intro b op h
    simp only [BufOp.boundedRetrieve, Bool.and_eq_true] at h ⊢
    exact ⟨h.1.1, h.2⟩
  obtain ⟨hi, _⟩ := runOps_spec _ _ h0 hg
  have hc := runOps_count _ _ h0 hk
  have hz : (Buffer.init initialSize).readableBytes = 0 := by
    rw [Buffer.readableBytes_eq h0]; simp [Buffer.init]
  have e1 := Buffer.readableBytes_eq hi
  have e2 := Buffer.writableBytes_eq hi
  obtain ⟨h1, h2, h3, h4⟩ := hi
  simp only [Buffer.prependableBytes]
  omega

/-- C3 at a concrete run, after the first three of its five calls. -/
theorem buffer_accounting_witness :
    (runOps (Buffer.init 4) (List.take 3
          [BufOp.append [1, 2, 3], BufOp.retrieve 2, BufOp.append [4, 5, 6, 7],
            BufOp.ensureWriteableBytes 3, BufOp.retrieve 1])).readableBytes
      = totalAppended (List.take 3
          [BufOp.append [1, 2, 3], BufOp.retrieve 2, BufOp.append [4, 5, 6, 7],
            BufOp.ensureWriteableBytes 3, BufOp.retrieve 1])
        - totalRetrieved (Buffer.init 4) (List.take 3
          [BufOp.append [1, 2, 3], BufOp.retrieve 2, BufOp.append [4, 5, 6, 7],
            BufOp.ensureWriteableBytes 3, BufOp.retrieve 1]) :=
  (buffer_accounting 4 _ 3 (by decide) (by decide)).2.2

/-! ## C4: round trip -/

set_option maxRecDepth 100000 in
/-- C4 as stated fails on reachable buffers in which a `size_t` sum has wrapped around.
`Buffer(2^64 - 1)` has 7 bytes of storage and both indices at 8, so `readableBytes = 0`;
`append` of three bytes returns without growing the storage (`writableBytes` wraps to
`2^64 - 1`), its copy lands outside the storage, and `retrieveAsString(3)` does not return
the three bytes. The same happens on a default-constructed buffer after `append` of two
bytes, `ensureWriteableBytes(2^64 - 10)`, which returns with the storage resized to 0
bytes, and `retrieveAll`. -/
theorem buffer_round_trip_counterexample :
    (Buffer.init (SIZE_MOD - 1)).readableBytes = 0 ∧
    (Buffer.init (SIZE_MOD - 1)).buffer_.length = 7 ∧
    (Buffer.init (SIZE_MOD - 1)).appendOrThrow [1, 2, 3]
      = some ((Buffer.init (SIZE_MOD - 1)).append [1, 2, 3]) ∧
    (((Buffer.init (SIZE_MOD - 1)).append [1, 2, 3]).retrieveAsString 3).1 ≠ [1, 2, 3] ∧
    (Buffer.ensureWriteableBytesOrThrow
        ((Buffer.init Buffer.kInitiaSize).append [1, 2]) (SIZE_MOD - 10)).isSome = true ∧
    (runOps (Buffer.init Buffer.kInitiaSize)
      [BufOp.append [1, 2], BufOp.ensureWriteableBytes (SIZE_MOD - 10),
        BufOp.retrieveAll]).readableBytes = 0 ∧
    (runOps (Buffer.init Buffer.kInitiaSize)
      [BufOp.append [1, 2], BufOp.ensureWriteableBytes (SIZE_MOD - 10),
        BufOp.retrieveAll]).buffer_.length = 0 ∧
    ((Buffer.append (runOps (Buffer.init Buffer.kInitiaSize)
      [BufOp.append [1, 2], BufOp.ensureWriteableBytes (SIZE_MOD - 10),
        BufOp.retrieveAll]) [1, 2, 3]).retrieveAsString 3).1 ≠ [1, 2, 3] := by
  decide

/-- C4, amended: for every buffer that satisfies the index invariant (as every buffer
reached without wrap-around does) and has `readableBytes = 0`, and every byte string `B`
with `writerIndex_ + |B| <= 2^63 - 1`, the `max_size()` of the storage: `append(B)` returns,
and `retrieveAsString(|B|)` then returns exactly `B` and leaves the buffer empty with
`readerIndex_ = writerIndex_ = 8`; and `retrieve(n)` with `n >= readableBytes` resets both
indices to `kCheapPrepend`. -/
theorem buffer_round_trip (b : Buffer) (B : List Byte) (h : b.Inv)
    (hempty : b.readableBytes = 0) (hmax : b.writerIndex_ + B.length ≤ MAX_SIZE) :
    b.appendOrThrow B = some (b.append B) ∧
      ((b.append B).retrieveAsString B.length).1 = B ∧
      ((b.append B).retrieveAsString B.length).2.readerIndex_ = 8 ∧
      ((b.append B).retrieveAsString B.length).2.writerIndex_ = 8 ∧
      ((b.append B).retrieveAsString B.length).2.readableBytes = 0 ∧
      ((b.append B).retrieveAsString B.length).2.readable = [] ∧
      ∀ n, (b.append B).readableBytes ≤ n →
        ((b.append B).retrieve n).readerIndex_ = Buffer.kCheapPrepend ∧
        ((b.append B).retrieve n).writerIndex_ = Buffer.kCheapPrepend := by
  have hlen : b.writerIndex_ + B.length < SIZE_MOD :=
    lt_of_le_of_lt hmax (by decide)
  obtain ⟨hi, hr, hb⟩ := Buffer.append_spec h hlen
  have hl := Buffer.readable_length h
  rw [hempty] at hl
  have hnil : b.readable = [] := List.eq_nil_of_length_eq_zero hl
  rw [hnil, List.nil_append] at hr
  rw [hempty, Nat.zero_add] at hb
  have hall : ∀ n, (b.append B).readableBytes ≤ n →
      (b.append B).retrieve n = (b.append B).retrieveAll := by
    intro n hn
    unfold Buffer.retrieve
    rw [if_neg (by omega)]
  have hself := hall B.length (by omega)
  refine ⟨Buffer.appendOrThrow_some b B hmax, ?_, ?_, ?_, ?_, ?_, ?_⟩
  · show (b.append B).peek.take B.length = B
    rw [← hb]
    exact hr
  · show ((b.append B).retrieve B.length).readerIndex_ = 8
    rw [hself]; rfl
  · show ((b.append B).retrieve B.length).writerIndex_ = 8
    rw [hself]; rfl
  · show ((b.append B).retrieve B.length).readableBytes = 0
    rw [hself]; simp [Buffer.retrieveAll, Buffer.readableBytes, usub]
  · show ((b.append B).retrieve B.length).readable = []
    rw [hself]; exact Buffer.retrieveAll_readable _
  · intro n hn
    rw [hall n hn]
    exact ⟨rfl, rfl⟩

/-- C4, amended, at a concrete buffer: one that has been filled, compacted and drained. -/
theorem buffer_round_trip_witness :
    ((Buffer.append (runOps (Buffer.init 4)
          [BufOp.append [1, 2, 3], BufOp.retrieve 2, BufOp.append [4, 5], BufOp.retrieve 3])
        [7, 8, 9, 10, 11]).retrieveAsString 5).1 = [7, 8, 9, 10, 11] :=
  (buffer_round_trip (runOps (Buffer.init 4)
      [BufOp.append [1, 2, 3], BufOp.retrieve 2, BufOp.append [4, 5], BufOp.retrieve 3])
    [7, 8, 9, 10, 11] (by decide) (by decide) (by decide)).2.1

/-! ## C5: ensureWriteableBytes -/

set_option maxRecDepth 100000 in
/-- C5 as stated fails: on a default-constructed buffer, which satisfies the index
invariant, `ensureWriteableBytes(2^64 - 1)` evaluates `len + kCheapPrepend` to `7`, takes the
branch that moves the readable bytes (with `readerIndex_ = 8`, not above 8), does not resize
the storage, and returns with `writableBytes = 1024`, less than the `2^64 - 1` asked for.
And `ensureWriteableBytes(2^63)` on the same buffer asks `buffer_.resize` for more than
`max_size()` bytes: the call throws instead of ending with `writableBytes >= 2^63`. -/
theorem ensureWriteableBytes_counterexample :
    (Buffer.init Buffer.kInitiaSize).Inv ∧ SIZE_MOD - 1 < SIZE_MOD ∧
      (Buffer.init Buffer.kInitiaSize).readerIndex_ = 8 ∧
      ((Buffer.init Buffer.kInitiaSize).ensureWriteableBytesOrThrow (SIZE_MOD - 1)).isSome
        = true ∧
      ((Buffer.init Buffer.kInitiaSize).ensureWriteableBytes (SIZE_MOD - 1)).buffer_.length
        = (Buffer.init Buffer.kInitiaSize).buffer_.length ∧
      ((Buffer.init Buffer.kInitiaSize).ensureWriteableBytes (SIZE_MOD - 1)).writableBytes = 1024 ∧
      ¬ SIZE_MOD - 1 ≤
        ((Buffer.init Buffer.kInitiaSize).ensureWriteableBytes (SIZE_MOD - 1)).writableBytes ∧
      (Buffer.init Buffer.kInitiaSize).writerIndex_ + (MAX_SIZE + 1) < SIZE_MOD ∧
      (Buffer.init Buffer.kInitiaSize).ensureWriteableBytesOrThrow (MAX_SIZE + 1) = none := by
  decide

/-- C5, amended: on a buffer satisfying the index invariant, `ensureWriteableBytes(n)` with
`writerIndex_ + n <= 2^63 - 1`, the `max_size()` of the storage, returns, ends with
`writableBytes >= n` and follows the three-way policy: if `writableBytes >= n` nothing
changes; else if `writableBytes + (prependableBytes - 8) >= n` the storage size is
unchanged, the readable bytes are kept and moved to `readerIndex_ = 8`,
`writerIndex_ = 8 + readableBytes`, and this happens only when `readerIndex_ > 8`; otherwise
the storage is resized to exactly `writerIndex_ + n`, both indices and the readable bytes
unchanged. With `2^63 - 1 < writerIndex_ + n < 2^64`, when the storage would have to be
resized, `buffer_.resize` throws `std::length_error` and the call has no result. -/
theorem ensureWriteableBytes_policy (b : Buffer) (n : Nat) (h : b.Inv) :
    (b.writerIndex_ + n ≤ MAX_SIZE →
      b.ensureWriteableBytesOrThrow n = some (b.ensureWriteableBytes n) ∧
      n ≤ (b.ensureWriteableBytes n).writableBytes ∧
      (b.ensureWriteableBytes n).Inv ∧
      (b.ensureWriteableBytes n).readable = b.readable ∧
      (n ≤ b.writableBytes → b.ensureWriteableBytes n = b) ∧
      (b.writableBytes < n → n ≤ b.writableBytes + (b.prependableBytes - 8) →
        (b.ensureWriteableBytes n).buffer_.length = b.buffer_.length ∧
        (b.ensureWriteableBytes n).readerIndex_ = 8 ∧
        (b.ensureWriteableBytes n).writerIndex_ = 8 + b.readableBytes ∧
        8 < b.readerIndex_) ∧
      (b.writableBytes < n → b.writableBytes + (b.prependableBytes - 8) < n →
        (b.ensureWriteableBytes n).buffer_.length = b.writerIndex_ + n ∧
        (b.ensureWriteableBytes n).readerIndex_ = b.readerIndex_ ∧
        (b.ensureWriteableBytes n).writerIndex_ = b.writerIndex_)) ∧
    (MAX_SIZE < b.writerIndex_ + n → b.writerIndex_ + n < SIZE_MOD →
      b.writableBytes < n → b.writableBytes + (b.prependableBytes - 8) < n →
      b.ensureWriteableBytesOrThrow n = none) := by
  constructor
  · intro hmax
    have hn : b.writerIndex_ + n < SIZE_MOD := lt_of_le_of_lt hmax (by decide)
    obtain ⟨hi, hr, hw, _, _⟩ := Buffer.ensure_spec h hn
    refine ⟨Buffer.ensureOrThrow_some b n hmax, hw, hi, hr,
      fun hle => Buffer.ensure_noop hle, ?_, ?_⟩
    · intro hlt hc
      rw [Buffer.ensure_compact h hn hlt hc]
      have hwe := Buffer.writableBytes_eq h
      have hl := Buffer.readable_length h
      have hre := Buffer.readableBytes_eq h
      obtain ⟨h1, h2, h3, h4⟩ := h
      simp only [Buffer.prependableBytes, Buffer.kCheapPrepend] at hc h1
      refine ⟨?_, rfl, rfl, by omega⟩
      simp only [List.length_append, List.length_take, List.length_drop, hl, Buffer.kCheapPrepend]
      omega
    · intro hlt hc
      rw [Buffer.ensure_grow h hn hlt hc]
      have hwe := Buffer.writableBytes_eq h
      obtain ⟨h1, h2, h3, h4⟩ := h
      refine ⟨?_, rfl, rfl⟩
      simp only [List.length_append, List.length_replicate]
      omega
  · intro hmax hn hlt hc
    exact Buffer.ensureOrThrow_none h hn hmax hlt hc

/-- C5, amended, at a buffer where the call compacts: 4 bytes of storage behind the
reserve, three bytes appended and two retrieved, then three writable bytes asked for. -/
theorem ensureWriteableBytes_policy_witness :
    3 ≤ ((runOps (Buffer.init 4) [BufOp.append [1, 2, 3], BufOp.retrieve 2]).ensureWriteableBytes
        3).writableBytes ∧
      ((runOps (Buffer.init 4) [BufOp.append [1, 2, 3], BufOp.retrieve 2]).ensureWriteableBytes
        3).readerIndex_ = 8 :=
  ⟨((ensureWriteableBytes_policy (runOps (Buffer.init 4) [BufOp.append [1, 2, 3], BufOp.retrieve 2])
      3 (by decide)).1 (by decide)).2.1,
    (((ensureWriteableBytes_policy (runOps (Buffer.init 4) [BufOp.append [1, 2, 3], BufOp.retrieve 2])
      3 (by decide)).1 (by decide)).2.2.2.2.2.1 (by decide) (by decide)).2.1⟩

/-! ## C6: round-robin dispatch -/

/-- C6: a pool started with `numThreads` threads (an `int`) has its cursor at 0 and the
`n = max numThreads 0` loops `startLoop 0, ..., startLoop (n - 1)` in `loops_`, an arbitrary
list of `n` entries since `startLoop` is arbitrary. Then `k` successive calls of
`getNextLoop` all return a loop, the call number `j` (from 0) returns `loops_[j mod n]`
when `n > 0` and the base loop when `n = 0`, `loops_` is unchanged, and when `n > 0` the
cursor afterwards is `k mod n`, hence `0 <= next_ < n` before every call. -/
theorem round_robin_dispatch (base : EventLoop) (numThreads : Int) (cb : Bool)
    (startLoop : Nat → EventLoop) (k : Nat) (hT : numThreads ≤ INT_MAX) :
    (((EventLoopThreadPool.init base).setThreadNum numThreads).start cb startLoop).next_ = 0 ∧
    (((EventLoopThreadPool.init base).setThreadNum numThreads).start cb startLoop).loops_
      = (List.range numThreads.toNat).map startLoop ∧
    ∃ p1, (((EventLoopThreadPool.init base).setThreadNum numThreads).start cb
          startLoop).getNextLoops k
        = some ((List.range k).map (fun j =>
            if numThreads.toNat = 0 then base else startLoop (j % numThreads.toNat)), p1) ∧
      p1.loops_ = (List.range numThreads.toNat).map startLoop ∧
      (0 < numThreads.toNat →
        p1.next_ = ((k % numThreads.toNat : Nat) : Int) ∧ 0 ≤ p1.next_ ∧
        p1.next_ < (numThreads.toNat : Int)) := by
  have hnext : (((EventLoopThreadPool.init base).setThreadNum numThreads).start cb
      startLoop).next_ = 0 := by
    unfold EventLoopThreadPool.start; dsimp only; split <;> rfl
  have hbase : (((EventLoopThreadPool.init base).setThreadNum numThreads).start cb
      startLoop).baseLoop_ = base := by
    unfold EventLoopThreadPool.start; dsimp only; split <;> rfl
  have hloops : (((EventLoopThreadPool.init base).setThreadNum numThreads).start cb
      startLoop).loops_ = (List.range numThreads.toNat).map startLoop := by
    unfold EventLoopThreadPool.start; dsimp only; split <;> rfl
  refine ⟨hnext, hloops, ?_⟩
  generalize ((EventLoopThreadPool.init base).setThreadNum numThreads).start cb startLoop = p
    at hnext hbase hloops
  rcases Nat.eq_zero_or_pos numThreads.toNat with hz | hpos
  · rw [hz] at hloops ⊢
    refine ⟨p, ?_, hloops, fun h => absurd h (lt_irrefl 0)⟩
    rw [EventLoopThreadPool.getNextLoops_base p k hloops, hbase]
    simp only [if_true]
    congr 1
    exact Prod.ext (by simp [List.map_const']) rfl
  · have hmax : ((numThreads.toNat : Nat) : Int) ≤ INT_MAX := by
      unfold INT_MAX at hT ⊢; omega
    have hc := EventLoopThreadPool.getNextLoops_cycle p k 0 startLoop numThreads.toNat hpos
      hloops (by rw [hnext]; rfl) hpos hmax
    simp only [Nat.zero_add] at hc
    refine ⟨{ p with next_ := ((k % numThreads.toNat : Nat) : Int) }, ?_, hloops,
      fun _ => ⟨rfl, ?_, ?_⟩⟩
    · rw [hc]
      congr 2
      apply List.map_congr_left
      intro j _
      rw [if_neg (by omega)]
    · show (0 : Int) ≤ ((k % numThreads.toNat : Nat) : Int)
      omega
    · show ((k % numThreads.toNat : Nat) : Int) < (numThreads.toNat : Int)
      have := Nat.mod_lt k hpos
      omega

/-- C6 at four threads and eight calls: the loops returned are 0, 1, 2, 3, 0, 1, 2, 3. -/
theorem round_robin_dispatch_witness :
    ∃ p1, (((EventLoopThreadPool.init 9).setThreadNum 4).start false id).getNextLoops 8
        = some ([0, 1, 2, 3, 0, 1, 2, 3], p1) ∧ p1.next_ = 0 := by
  obtain ⟨p1, h1, _, h3⟩ := (round_robin_dispatch 9 4 false id 8 (by decide)).2.2
  exact ⟨p1, h1, (h3 (by decide)).1⟩

/-! ## C7: the SO_REUSEPORT flag -/

/-- C7 fails on the code: the constructor of `TcpServer` passes `option == kNoReusePort` as
the argument `reuseport` of the `Acceptor`, which hands it to `setReusePort`. So the flag
is `true` exactly when the option is `kNoReusePort`: with `kReusePort` the socket gets
`setReusePort(false)`, with the default option it gets `setReusePort(true)`. -/
theorem reuseport_flag_inverted (loop : EventLoop) (listenAddr nameArg : Str)
    (option : ServerOption) :
    ((TcpServer.init loop listenAddr nameArg option).acceptor_.reuseport_ = true
        ↔ option = ServerOption.kNoReusePort) ∧
      (TcpServer.init loop listenAddr nameArg option).acceptor_.acceptSocket_.reusePort_
        = some (TcpServer.init loop listenAddr nameArg option).acceptor_.reuseport_ ∧
      (TcpServer.init loop listenAddr nameArg
        ServerOption.kReusePort).acceptor_.acceptSocket_.reusePort_ = some false ∧
      (TcpServer.initDefault loop listenAddr nameArg).acceptor_.acceptSocket_.reusePort_
        = some true := by
  refine ⟨?_, rfl, rfl, rfl⟩
  cases option <;> simp [TcpServer.init, Acceptor.init, Acceptor.setNewConnectionCallback]

/-! ## C8: connection names -/

/-- C8 as stated fails: the format string of `newConnection` is `"-%s$%d"`, so the first
two connections of the server `srv` listening on `127.0.0.1:8000` are named
`srv-127.0.0.1:8000$1` and `srv-127.0.0.1:8000$2`, with `$` where the claim has `#`. And
the suffix is cut to the 63 characters that fit `buf`: with an address string of 70
characters the name is `srv-` followed by the first 62 of them, without a counter. -/
theorem connection_name_counterexample :
    (∃ s, (TcpServer.init 0 "127.0.0.1:8000".toList "srv".toList
          ServerOption.kNoReusePort).newConnections [(5, [], []), (6, [], [])]
        = some (["srv-127.0.0.1:8000$1".toList, "srv-127.0.0.1:8000$2".toList], s) ∧
      s.connections_.map (fun e => e.1)
        = ["srv-127.0.0.1:8000$2".toList, "srv-127.0.0.1:8000$1".toList]) ∧
    "srv-127.0.0.1:8000$1".toList ≠ "srv".toList ++ "-".toList ++ "127.0.0.1:8000".toList
        ++ "#".toList ++ Nat.toDigits 10 1 ∧
    (∃ s, (TcpServer.init 0 (List.replicate 70 'x') "srv".toList
          ServerOption.kNoReusePort).newConnections [(5, [], [])]
        = some (["srv-".toList ++ List.replicate 62 'x'], s)) :=
  ⟨⟨_, rfl, by decide⟩, by decide, ⟨_, rfl⟩⟩

/-- C8, amended: on a started server named `S` listening on the ip:port string `P` (a C
string: no zero character in it), while the `int` counter has not reached its largest
value (fewer than `2^31 - 1` calls), the `i`-th call of `newConnection` (`i = 1, 2, ...`),
if its suffix `-P$i` fits the 63 characters of `buf`, names the connection exactly
`S ++ "-" ++ P ++ "$" ++ decimal(i)`; the registry holds a connection of that name under
that key; the counter starts at 1 and is one more than the number of connections accepted. -/
theorem connection_name (loop : EventLoop) (P S : Str) (option : ServerOption)
    (numThreads : Int) (startLoop : Nat → EventLoop) (args : List (Int × Str × Str)) (i : Nat)
    (hT : numThreads ≤ INT_MAX) (hi1 : 1 ≤ i) (hi2 : i ≤ args.length)
    (hmax : (args.length : Int) < INT_MAX) (hP : cStr P = P)
    (hfit : P.length + (Nat.toDigits 10 i).length + 2 ≤ 63) :
    (TcpServer.init loop P S option).nextConnId_ = 1 ∧
    ∃ names s,
      (((TcpServer.init loop P S option).setThreadNum numThreads).start
          startLoop).newConnections args = some (names, s) ∧
      names[i - 1]? = some (S ++ '-' :: (P ++ '$' :: Nat.toDigits 10 i)) ∧
      TcpServer.HasConn s.connections_ (S ++ '-' :: (P ++ '$' :: Nat.toDigits 10 i)) ∧
      s.nextConnId_ = (args.length : Int) + 1 := by
  refine ⟨rfl, ?_⟩
  have hs : ((TcpServer.init loop P S option).setThreadNum numThreads).start startLoop
      = { (TcpServer.init loop P S option) with
          started_ := 1
          threadPool_ := (((EventLoopThreadPool.init loop).setThreadNum numThreads).start
            false startLoop)
          acceptor_ := { (TcpServer.init loop P S option).acceptor_ with listenning_ := true } } := by
    simp [TcpServer.start, TcpServer.setThreadNum, TcpServer.init]
  have hok := EventLoopThreadPool.start_ok loop numThreads false startLoop hT
  obtain ⟨names, s, h1, h2, _, h4⟩ := TcpServer.newConnections_spec args
    (((TcpServer.init loop P S option).setThreadNum numThreads).start startLoop) 1
    (by rw [hs]; exact hok) (by rw [hs]; rfl)
    (by unfold INT_MAX at hmax ⊢; push_cast; omega)
  have h5 := h4 (i - 1) (by omega)
  have e : 1 + (i - 1) = i := by omega
  have hname : (((TcpServer.init loop P S option).setThreadNum numThreads).start
      startLoop).name_ = S := by rw [hs]; rfl
  have hip : (((TcpServer.init loop P S option).setThreadNum numThreads).start
      startLoop).ipPort_ = P := by rw [hs]; rfl
  rw [e, hname, hip, snprintfConnSuffix_fit P i hP hfit] at h5
  refine ⟨names, s, h1, h5.1, h5.2, ?_⟩
  rw [h2]; push_cast; omega

/-- C8, amended, at the second of three connections of a server with two threads. -/
theorem connection_name_witness :
    ∃ names s,
      (((TcpServer.init 0 "127.0.0.1:8000".toList "srv".toList
          ServerOption.kNoReusePort).setThreadNum 2).start id).newConnections
        [(5, [], []), (6, [], []), (7, [], [])] = some (names, s) ∧
      names[1]? = some "srv-127.0.0.1:8000$2".toList :=
  let ⟨names, s, h1, h2, _, _⟩ := (connection_name 0 "127.0.0.1:8000".toList "srv".toList
    ServerOption.kNoReusePort 2 id [(5, [], []), (6, [], []), (7, [], [])] 2
    (by decide) (by decide) (by decide) (by decide) (by decide) (by decide)).2
  ⟨names, s, h1, h2⟩

/-! ## C9: a fatal write error in sendInLoop -/

set_option maxRecDepth 100000 in
/-- C9 fails on the code: on a connected connection whose channel is not writing and whose
output buffer is empty, `sendInLoop` of the three bytes `[1, 2, 3]` whose `::write` fails
with `EPIPE` (or `ECONNRESET`) sets `faultError`, but the block `if(remaining > 0)` does not
read the flag: the three bytes are appended to the output buffer and write-readiness is
enabled on the channel; with a high-water mark of 2 and the callback installed, the
high-water functor is queued as well. -/
theorem sendInLoop_fault_not_stopped :
    (TcpConnection.directWrite
        { TcpConnection.init 1 [] 5 [] [] with
          state_ := StateE.kConnected, events_ := Channel.kReadEvent }
        [1, 2, 3] (-1) EPIPE).faultError = true ∧
    Channel.isWriting Channel.kReadEvent = false ∧
    (TcpConnection.init 1 [] 5 [] []).outputBuffer_.readableBytes = 0 ∧
    (TcpConnection.sendInLoop
        { TcpConnection.init 1 [] 5 [] [] with
          state_ := StateE.kConnected, events_ := Channel.kReadEvent }
        [1, 2, 3] (-1) EPIPE).outputBuffer_.readable = [1, 2, 3] ∧
    Channel.isWriting (TcpConnection.sendInLoop
        { TcpConnection.init 1 [] 5 [] [] with
          state_ := StateE.kConnected, events_ := Channel.kReadEvent }
        [1, 2, 3] (-1) EPIPE).events_ = true ∧
    (TcpConnection.sendInLoop
        { TcpConnection.init 1 [] 5 [] [] with
          state_ := StateE.kConnected, events_ := Channel.kReadEvent }
        [1, 2, 3] (-1) ECONNRESET).outputBuffer_.readable = [1, 2, 3] ∧
    (TcpConnection.sendInLoop
        { TcpConnection.init 1 [] 5 [] [] with
          state_ := StateE.kConnected, events_ := Channel.kReadEvent,
          highWaterMark_ := 2, highWaterMarkCallback_ := true }
        [1, 2, 3] (-1) EPIPE).pendingFunctors_ = [Functor.highWaterMark 3] := by
  decide

/-! ## C10: the high-water notification -/

/-- C10: in a state other than `kDisconnected`, with the high-water callback installed,
`remaining` the value the code computes and `old = outputBuffer_.readableBytes` (which the
direct write leaves as it was), and `old + remaining` not wrapping around: if
`remaining > 0`, `sendInLoop` queues exactly the one functor `highWaterMark (old + remaining)`
when `old < highWaterMark_` and `old + remaining >= highWaterMark_`, and queues nothing
otherwise; if `remaining = 0` it queues no high-water functor (nothing, or the
write-complete functor); and it invokes no user callback synchronously. -/
theorem sendInLoop_high_water (c : TcpConnection) (message : List Byte) (nwrote errno : Int)
    (hstate : c.state_ ≠ StateE.kDisconnected)
    (hcb : c.highWaterMarkCallback_ = true)
    (hnowrap : c.outputBuffer_.readableBytes
      + (TcpConnection.directWrite c message nwrote errno).remaining < SIZE_MOD) :
    (TcpConnection.directWrite c message nwrote errno).conn.outputBuffer_ = c.outputBuffer_ ∧
    (0 < (TcpConnection.directWrite c message nwrote errno).remaining →
      (c.sendInLoop message nwrote errno).pendingFunctors_ =
        if c.outputBuffer_.readableBytes < c.highWaterMark_ ∧
            c.outputBuffer_.readableBytes
              + (TcpConnection.directWrite c message nwrote errno).remaining
              ≥ c.highWaterMark_ then
          c.pendingFunctors_ ++ [Functor.highWaterMark (c.outputBuffer_.readableBytes
            + (TcpConnection.directWrite c message nwrote errno).remaining)]
        else c.pendingFunctors_) ∧
    ((TcpConnection.directWrite c message nwrote errno).remaining = 0 →
      (c.sendInLoop message nwrote errno).pendingFunctors_ = c.pendingFunctors_ ∨
      (c.sendInLoop message nwrote errno).pendingFunctors_
        = c.pendingFunctors_ ++ [Functor.writeComplete]) ∧
    (c.sendInLoop message nwrote errno).calls_ = c.calls_ := by
  obtain ⟨hb, hh, hc, _, hcalls, _, hp⟩ := TcpConnection.directWrite_conn c message nwrote errno
  have hs : c.sendInLoop message nwrote errno
      = TcpConnection.bufferRemaining (TcpConnection.directWrite c message nwrote errno)
          message := by
    unfold TcpConnection.sendInLoop
    rw [if_neg hstate]
  rw [hs, TcpConnection.bufferRemaining_pending, TcpConnection.bufferRemaining_calls,
    hb, hh, hc, hcb, uadd_eq hnowrap]
  refine ⟨rfl, ?_, ?_, hcalls⟩
  · intro hpos
    have hpe : (TcpConnection.directWrite c message nwrote errno).conn.pendingFunctors_
        = c.pendingFunctors_ := by
      rcases hp with h | ⟨h, _⟩
      · exact h
      · omega
    rw [hpe]
    by_cases hcond : c.outputBuffer_.readableBytes < c.highWaterMark_ ∧
        c.outputBuffer_.readableBytes
          + (TcpConnection.directWrite c message nwrote errno).remaining ≥ c.highWaterMark_
    · rw [if_pos hcond, if_pos ⟨hpos, hcond.2, hcond.1, rfl⟩]
    · rw [if_neg hcond, if_neg (fun h => hcond ⟨h.2.2.1, h.2.1⟩)]
  · intro hz
    rw [if_neg (fun h => by omega)]
    rcases hp with h | ⟨_, h⟩
    · exact Or.inl h
    · exact Or.inr h

set_option maxRecDepth 100000 in
/-- C10 at a connection with a high-water mark of 4 bytes: a send of six bytes of which the
socket accepts two leaves `remaining = 4` on an empty output buffer and queues
`highWaterMark 4`. -/
theorem sendInLoop_high_water_witness :
    (TcpConnection.sendInLoop
        { TcpConnection.init 1 [] 5 [] [] with
          state_ := StateE.kConnected, events_ := Channel.kReadEvent,
          highWaterMark_ := 4, highWaterMarkCallback_ := true }
        [1, 2, 3, 4, 5, 6] 2 0).pendingFunctors_ = [Functor.highWaterMark 4] :=
  (sendInLoop_high_water
      { TcpConnection.init 1 [] 5 [] [] with
        state_ := StateE.kConnected, events_ := Channel.kReadEvent,
        highWaterMark_ := 4, highWaterMarkCallback_ := true }
      [1, 2, 3, 4, 5, 6] 2 0 (by decide) rfl (by decide)).2.1 (by decide)

/-! ## C11: no backward edges in the state machine -/

/-- C11: with the order Connecting < Connected < Disconnecting < Disconnected (`rank`),
every operation other than `connectEstablished` (that is `send`, `sendInLoop`, `shutdown`,
`shutdownInLoop`, `handleRead`, `handleWrite`, `handleClose`, `handleError`,
`connectDestroyed`), applied in any state with any result of its system calls, whether it
returns or a callback throws, leaves the state equal or moves it to a later one;
`kDisconnected` is left unchanged by all of them; and when `shutdown` changes the state,
it changes `kConnected` into `kDisconnecting`. -/
theorem no_backward_edges (c : TcpConnection) (op : ConnOp)
    (hop : op ≠ ConnOp.connectEstablished) :
    c.state_.rank ≤ (op.apply c).conn.state_.rank ∧
    (c.state_ = StateE.kDisconnected → (op.apply c).conn.state_ = StateE.kDisconnected) ∧
    (∀ t, (c.shutdown t).state_ ≠ c.state_ →
      c.state_ = StateE.kConnected ∧ (c.shutdown t).state_ = StateE.kDisconnecting) := by
  have key : (op.apply c).conn.state_ = c.state_ ∨
      (c.state_ = StateE.kConnected ∧ (op.apply c).conn.state_ = StateE.kDisconnecting) ∨
      (op.apply c).conn.state_ = StateE.kDisconnected := by
    cases op with
    | send buf t nwrote errno => exact Or.inl (TcpConnection.send_state c buf t nwrote errno)
    | sendInLoop message nwrote errno =>
      exact Or.inl (TcpConnection.sendInLoop_state c message nwrote errno)
    | shutdown t =>
      have h := TcpConnection.shutdown_state c t
      by_cases hc : c.state_ = StateE.kConnected
      · rw [if_pos hc] at h; exact Or.inr (Or.inl ⟨hc, h⟩)
      · rw [if_neg hc] at h; exact Or.inl h
    | shutdownInLoop => exact Or.inl (TcpConnection.shutdownInLoop_state c)
    | connectEstablished => exact absurd rfl hop
    | connectDestroyed =>
      have h := TcpConnection.connectDestroyed_state c
      by_cases hc : c.state_ = StateE.kConnected
      · rw [if_pos hc] at h; exact Or.inr (Or.inr h)
      · rw [if_neg hc] at h; exact Or.inl h
    | handleRead n data errno =>
      have h := TcpConnection.handleRead_state c n data errno
      by_cases hn : n = 0
      · rw [if_pos hn] at h; exact Or.inr (Or.inr h)
      · rw [if_neg hn] at h; exact Or.inl h
    | handleWrite n errno => exact Or.inl (TcpConnection.handleWrite_state c n errno)
    | handleClose => exact Or.inr (Or.inr (TcpConnection.handleClose_state c))
    | handleError => exact Or.inl rfl
  refine ⟨?_, ?_, ?_⟩
  · rcases key with h | ⟨h1, h2⟩ | h
    · rw [h]
    · rw [h1, h2]; decide
    · rw [h]; cases c.state_ <;> decide
  · intro hd
    rcases key with h | ⟨h1, _⟩ | h
    · rw [h]; exact hd
    · rw [hd] at h1; cases h1
    · exact h
  · intro t ht
    have h := TcpConnection.shutdown_state c t
    by_cases hc : c.state_ = StateE.kConnected
    · rw [if_pos hc] at h; exact ⟨hc, h⟩
    · rw [if_neg hc] at h; exact absurd h ht

set_option maxRecDepth 100000 in
/-- C11 at a connected connection whose peer has closed: `handleRead` reads 0 bytes and the
state goes from `kConnected` to `kDisconnected`. -/
theorem no_backward_edges_witness :
    StateE.rank StateE.kConnected ≤
      ((ConnOp.handleRead 0 [] 0).apply
        { TcpConnection.init 1 [] 5 [] [] with
          state_ := StateE.kConnected, events_ := Channel.kReadEvent,
          connectionCallback_ := true, closeCallback_ := true }).conn.state_.rank :=
  (no_backward_edges
    { TcpConnection.init 1 [] 5 [] [] with
      state_ := StateE.kConnected, events_ := Channel.kReadEvent,
      connectionCallback_ := true, closeCallback_ := true }
    (ConnOp.handleRead 0 [] 0) (by decide)).1

/-! ## C12: connectEstablished -/

set_option maxRecDepth 100000 in
/-- C12 as stated fails: `connectEstablished` contains no assertion. Called on a connection
in state `kDisconnected` (or `kConnected`, or `kDisconnecting`) it returns like in state
`kConnecting`, and the state afterwards is `kConnected`. And on a connection constructed
without a connection callback, the call of the empty `std::function` throws: no callback
is invoked. -/
theorem connectEstablished_counterexample :
    (TcpConnection.connectEstablished
        { TcpConnection.init 1 [] 5 [] [] with
          state_ := StateE.kDisconnected, connectionCallback_ := true }).isReturned = true ∧
    (TcpConnection.connectEstablished
        { TcpConnection.init 1 [] 5 [] [] with
          state_ := StateE.kDisconnected, connectionCallback_ := true }).conn.state_
      = StateE.kConnected ∧
    (TcpConnection.connectEstablished
        { TcpConnection.init 1 [] 5 [] [] with
          state_ := StateE.kDisconnecting, connectionCallback_ := true }).conn.state_
      = StateE.kConnected ∧
    (TcpConnection.connectEstablished
        { TcpConnection.init 1 [] 5 [] [] with
          state_ := StateE.kConnected, connectionCallback_ := true }).conn.calls_
      = [UserCall.connection StateE.kConnected] ∧
    (TcpConnection.connectEstablished (TcpConnection.init 1 [] 5 [] [])).isReturned = false ∧
    (TcpConnection.connectEstablished (TcpConnection.init 1 [] 5 [] [])).conn.calls_ = [] := by
  decide

/-- C12, amended: `connectEstablished` has no assertion; called in state `kConnecting`, and
equally in any other state, with the connection callback installed, it returns, sets the
state to `kConnected`, ties the channel, enables read interest on it (leaving write
interest as it was) and invokes the connection callback exactly once, in state
`kConnected`; nothing else of the connection changes. -/
theorem connectEstablished_spec (c : TcpConnection) (hcb : c.connectionCallback_ = true) :
    c.connectEstablished = Outcome.returned
      { c with
        state_ := StateE.kConnected
        tied_ := true
        events_ := Channel.enableReading c.events_
        calls_ := c.calls_ ++ [UserCall.connection StateE.kConnected] } ∧
    c.connectEstablished.conn.state_ = StateE.kConnected ∧
    Channel.isReading c.connectEstablished.conn.events_ = true ∧
    Channel.isWriting c.connectEstablished.conn.events_ = Channel.isWriting c.events_ ∧
    c.connectEstablished.conn.calls_ = c.calls_ ++ [UserCall.connection StateE.kConnected] := by
  have h : c.connectEstablished = Outcome.returned
      { c with
        state_ := StateE.kConnected
        tied_ := true
        events_ := Channel.enableReading c.events_
        calls_ := c.calls_ ++ [UserCall.connection StateE.kConnected] } := by
    unfold TcpConnection.connectEstablished TcpConnection.invoke
    dsimp only
    rw [if_pos hcb]
  rw [h]
  exact ⟨rfl, rfl, Channel.isReading_enableReading _, Channel.isWriting_enableReading _, rfl⟩

set_option maxRecDepth 100000 in
/-- C12, amended, at a freshly constructed connection with its callback installed. -/
theorem connectEstablished_spec_witness :
    (TcpConnection.connectEstablished
        { TcpConnection.init 1 [] 5 [] [] with connectionCallback_ := true }).conn.state_
      = StateE.kConnected ∧
    (TcpConnection.connectEstablished
        { TcpConnection.init 1 [] 5 [] [] with connectionCallback_ := true }).conn.calls_
      = [] ++ [UserCall.connection StateE.kConnected] :=
  ⟨(connectEstablished_spec { TcpConnection.init 1 [] 5 [] [] with connectionCallback_ := true }
      rfl).2.1,
    (connectEstablished_spec { TcpConnection.init 1 [] 5 [] [] with connectionCallback_ := true }
      rfl).2.2.2.2⟩

/-! ## C13: send outside the state Connected -/

/-- C13: in a state other than `kConnected` (`kConnecting`, `kDisconnecting`,
`kDisconnected`), `send` leaves the whole connection as it is: no byte is written to the
socket, the output buffer, the mask of the channel and the state are unchanged, nothing
is queued and no callback is invoked. In state `kConnected` it is `sendInLoop` itself on
the thread of the loop, and otherwise the queueing of one `sendInLoop` task on the loop,
with nothing else changed. -/
theorem send_dropped_unless_connected (c : TcpConnection) (buf : List Byte) (t : Bool)
    (nwrote errno : Int) :
    (c.state_ ≠ StateE.kConnected →
      c.send buf t nwrote errno = c ∧
      (c.send buf t nwrote errno).sent_ = c.sent_ ∧
      (c.send buf t nwrote errno).outputBuffer_ = c.outputBuffer_ ∧
      (c.send buf t nwrote errno).events_ = c.events_ ∧
      (c.send buf t nwrote errno).state_ = c.state_ ∧
      (c.send buf t nwrote errno).pendingFunctors_ = c.pendingFunctors_ ∧
      (c.send buf t nwrote errno).calls_ = c.calls_) ∧
    (c.state_ = StateE.kConnected →
      c.send buf true nwrote errno = c.sendInLoop buf nwrote errno ∧
      c.send buf false nwrote errno
        = { c with pendingFunctors_ := c.pendingFunctors_ ++ [Functor.sendInLoop buf] }) := by
  constructor
  · intro h
    have e : c.send buf t nwrote errno = c := by
      unfold TcpConnection.send
      rw [if_neg h]
    rw [e]
    exact ⟨rfl, rfl, rfl, rfl, rfl, rfl, rfl⟩
  · intro h
    constructor
    · unfold TcpConnection.send
      rw [if_pos h, if_pos rfl]
    · unfold TcpConnection.send
      rw [if_pos h, if_neg (by decide)]
      rfl

set_option maxRecDepth 100000 in
/-- C13 at a connection that has been shut down by its user (state `kDisconnecting`). -/
theorem send_dropped_unless_connected_witness :
    TcpConnection.send
        { TcpConnection.init 1 [] 5 [] [] with
          state_ := StateE.kDisconnecting, events_ := Channel.kReadEvent }
        [1, 2, 3] true 3 0
      = { TcpConnection.init 1 [] 5 [] [] with
          state_ := StateE.kDisconnecting, events_ := Channel.kReadEvent } :=
  ((send_dropped_unless_connected
      { TcpConnection.init 1 [] 5 [] [] with
        state_ := StateE.kDisconnecting, events_ := Channel.kReadEvent }
      [1, 2, 3] true 3 0).1 (by decide)).1

/-! ## C14: orderly shutdown -/

set_option maxRecDepth 100000 in
/-- C15 fails in both directions, all callbacks installed. Established, `shutdown()`, then
`connectDestroyed` (as the destructor of `TcpServer` does): all three return and the
connection callback is never invoked in state `kDisconnected`, because `connectDestroyed`
acts only in state `kConnected`. Established, then two close events (`handleClose` and
a `handleRead` that reads 0 bytes), then `connectDestroyed`: it is invoked twice in
state `kDisconnected`. -/
theorem connection_callback_counterexample :
    (runConn (TcpConnection.fresh 1 [] 5 [] [] true true true true true 1024)
      [ConnOp.connectEstablished, ConnOp.shutdown true,
        ConnOp.connectDestroyed]).isReturned = true ∧
    connectionCalls (runConn (TcpConnection.fresh 1 [] 5 [] [] true true true true true 1024)
      [ConnOp.connectEstablished, ConnOp.shutdown true, ConnOp.connectDestroyed]).conn
      StateE.kDisconnected = 0 ∧
    connectionCalls (runConn (TcpConnection.fresh 1 [] 5 [] [] true true true true true 1024)
      [ConnOp.connectEstablished, ConnOp.handleClose, ConnOp.handleRead 0 [] 0,
        ConnOp.connectDestroyed]).conn StateE.kDisconnected = 2 := by
  decide

/-- C15 (amended): take a connection just constructed with the connection, message and
close callbacks installed, `connectEstablished`, then any sequence of `sendInLoop`,
`shutdown`, `handleRead`, `handleWrite`, `handleError` and `handleClose`, and finally
`connectDestroyed`. Every operation returns; the connection callback is invoked exactly
once while the state is `kConnected`; while the state is `kDisconnected` it is invoked
once per close event (`handleClose`, or a `handleRead` that reads 0 bytes) and once more
by `connectDestroyed` exactly when the sequence has no close event and no `shutdown`. -/
theorem connection_callback_edges (loop : EventLoop) (nameArg : Str) (sockfd : Int)
    (localAddr peerAddr : Str) (wcb hcb : Bool) (hwm : Nat) (ops : List ConnOp)
    (hops : ∀ op ∈ ops, op.lifetime = true) :
    (runConn (TcpConnection.fresh loop nameArg sockfd localAddr peerAddr
        true true wcb hcb true hwm)
      (ConnOp.connectEstablished :: (ops ++ [ConnOp.connectDestroyed]))).isReturned = true ∧
    connectionCalls (runConn (TcpConnection.fresh loop nameArg sockfd localAddr peerAddr
        true true wcb hcb true hwm)
      (ConnOp.connectEstablished :: (ops ++ [ConnOp.connectDestroyed]))).conn
      StateE.kConnected = 1 ∧
    connectionCalls (runConn (TcpConnection.fresh loop nameArg sockfd localAddr peerAddr
        true true wcb hcb true hwm)
      (ConnOp.connectEstablished :: (ops ++ [ConnOp.connectDestroyed]))).conn
      StateE.kDisconnected
      = closes ops + (if closes ops = 0 ∧ shutdowns ops = 0 then 1 else 0) := by
  have hex : ∃ c1, (TcpConnection.fresh loop nameArg sockfd localAddr peerAddr
        true true wcb hcb true hwm).connectEstablished = Outcome.returned c1 ∧
      c1.CallbacksSet ∧ c1.state_ = StateE.kConnected ∧
      connectionCalls c1 StateE.kConnected = 1 ∧
      connectionCalls c1 StateE.kDisconnected = 0 :=
    ⟨_, TcpConnection.connectEstablished_installed _ rfl, ⟨rfl, rfl, rfl⟩, rfl, rfl, rfl⟩
  obtain ⟨c1, h1, hJ, hst, hk, hd⟩ := hex
  have e : runConn (TcpConnection.fresh loop nameArg sockfd localAddr peerAddr
        true true wcb hcb true hwm)
      (ConnOp.connectEstablished :: (ops ++ [ConnOp.connectDestroyed]))
      = runConn c1 (ops ++ [ConnOp.connectDestroyed]) := by
    show Outcome.andThen (TcpConnection.connectEstablished _) _ = _
    rw [h1]; rfl
  obtain ⟨r1, r2, r3⟩ := lifetime_run ops c1 hJ hops
  rw [e, r2, r3, hk, hd]
  refine ⟨r1, rfl, ?_⟩
  by_cases hz : closes ops = 0 ∧ shutdowns ops = 0
  · rw [if_pos ⟨hst, hz⟩, if_pos hz]
    omega
  · rw [if_neg (fun h => hz h.2), if_neg hz]
    omega

set_option maxRecDepth 100000 in
/-- C15 (amended) at a run with a message read, a send, `shutdown`, and the close event
that follows the end of the stream: one invocation in each of the two states. -/
theorem connection_callback_edges_witness :
    connectionCalls (runConn (TcpConnection.fresh 1 [] 5 [] [] true true false false true 1024)
      (ConnOp.connectEstablished ::
        ([ConnOp.handleRead 2 [8, 9] 0, ConnOp.sendInLoop [1, 2, 3] 3 0, ConnOp.shutdown true,
          ConnOp.handleRead 0 [] 0] ++ [ConnOp.connectDestroyed]))).conn
      StateE.kConnected = 1 ∧
    connectionCalls (runConn (TcpConnection.fresh 1 [] 5 [] [] true true false false true 1024)
      (ConnOp.connectEstablished ::
        ([ConnOp.handleRead 2 [8, 9] 0, ConnOp.sendInLoop [1, 2, 3] 3 0, ConnOp.shutdown true,
          ConnOp.handleRead 0 [] 0] ++ [ConnOp.connectDestroyed]))).conn
      StateE.kDisconnected = 1 :=
  ⟨(connection_callback_edges 1 [] 5 [] [] false false 1024
      [ConnOp.handleRead 2 [8, 9] 0, ConnOp.sendInLoop [1, 2, 3] 3 0, ConnOp.shutdown true,
        ConnOp.handleRead 0 [] 0] (by decide)).2.1,
    (connection_callback_edges 1 [] 5 [] [] false false 1024
      [ConnOp.handleRead 2 [8, 9] 0, ConnOp.sendInLoop [1, 2, 3] 3 0, ConnOp.shutdown true,
        ConnOp.handleRead 0 [] 0] (by decide)).2.2⟩

/-! ## C16: what handleWrite does -/

/-- C16: on a connection whose output buffer satisfies the index invariant. If the channel
is not writing, `handleWrite` leaves the whole connection unchanged (buffer, mask, state,
queue). If it is writing and the write accepts `n` bytes with `0 < n <= readableBytes`, the
first `n` readable bytes go to the socket and are removed from the output buffer; when
`n < readableBytes` nothing else changes: write interest stays enabled, nothing is queued,
the socket is not shut down; when `n = readableBytes` write interest is disabled, the
write-complete functor is queued exactly once if the callback is installed (nothing
otherwise), and the write side is shut down, with no pending output, exactly if the
state is `kDisconnecting`. If the write returns `n <= 0` the whole connection is unchanged. -/
theorem handleWrite_postcondition (c : TcpConnection) (n errno : Int)
    (hinv : c.outputBuffer_.Inv) :
    (Channel.isWriting c.events_ = false → c.handleWrite n errno = c) ∧
    (Channel.isWriting c.events_ = true → n ≤ 0 → c.handleWrite n errno = c) ∧
    (Channel.isWriting c.events_ = true → 0 < n → n ≤ (c.outputBuffer_.readableBytes : Int) →
      (c.handleWrite n errno).sent_ = c.sent_ ++ c.outputBuffer_.readable.take n.toNat ∧
      (c.handleWrite n errno).outputBuffer_.readable = c.outputBuffer_.readable.drop n.toNat ∧
      (c.handleWrite n errno).outputBuffer_.readableBytes
        = c.outputBuffer_.readableBytes - n.toNat ∧
      (c.handleWrite n errno).state_ = c.state_ ∧
      (c.handleWrite n errno).calls_ = c.calls_) ∧
    (Channel.isWriting c.events_ = true → 0 < n → n < (c.outputBuffer_.readableBytes : Int) →
      (c.handleWrite n errno).events_ = c.events_ ∧
      Channel.isWriting (c.handleWrite n errno).events_ = true ∧
      (c.handleWrite n errno).pendingFunctors_ = c.pendingFunctors_ ∧
      (c.handleWrite n errno).shutdownWrites_ = c.shutdownWrites_) ∧
    (Channel.isWriting c.events_ = true → 0 < n → n = (c.outputBuffer_.readableBytes : Int) →
      (c.handleWrite n errno).outputBuffer_.readable = [] ∧
      (c.handleWrite n errno).events_ = Channel.disableWriting c.events_ ∧
      Channel.isWriting (c.handleWrite n errno).events_ = false ∧
      (c.handleWrite n errno).pendingFunctors_ = c.pendingFunctors_ ++
        (if c.writeCompleteCallback_ then [Functor.writeComplete] else []) ∧
      (c.state_ = StateE.kDisconnecting →
        (c.handleWrite n errno).shutdownWrites_ = c.shutdownWrites_ + 1 ∧
        (c.handleWrite n errno).shutdownPending_ = c.shutdownPending_ ++ [0]) ∧
      (c.state_ ≠ StateE.kDisconnecting →
        (c.handleWrite n errno).shutdownWrites_ = c.shutdownWrites_)) := by
  have hrr := Buffer.retrieve_readable hinv n.toNat
  have hrb := Buffer.retrieve_readableBytes hinv n.toNat
  refine ⟨?_, ?_, ?_, ?_, ?_⟩
  · intro hw
    unfold TcpConnection.handleWrite
    rw [hw]; rfl
  · intro hw hn
    unfold TcpConnection.handleWrite
    dsimp only
    rw [if_pos hw, Buffer.writeFd_fst, if_neg (by omega)]
  · intro hw h0 hle
    rcases lt_or_eq_of_le hle with hlt | heq
    · rw [TcpConnection.handleWrite_part c n errno hinv hw h0 hlt]
      exact ⟨rfl, hrr, hrb, rfl, rfl⟩
    · have ht : c.outputBuffer_.readable.take n.toNat = c.outputBuffer_.readable := by
        apply List.take_of_length_le
        rw [Buffer.readable_length hinv]; omega
      rw [TcpConnection.handleWrite_all c n errno hinv hw h0 heq, ht]
      split <;> exact ⟨rfl, hrr, hrb, rfl, rfl⟩
  · intro hw h0 hlt
    rw [TcpConnection.handleWrite_part c n errno hinv hw h0 hlt]
    exact ⟨rfl, hw, rfl, rfl⟩
  · intro hw h0 heq
    have hnil : (c.outputBuffer_.retrieve n.toNat).readable = [] := by
      rw [hrr]
      apply List.drop_eq_nil_of_le
      rw [Buffer.readable_length hinv]; omega
    rw [TcpConnection.handleWrite_all c n errno hinv hw h0 heq]
    by_cases hst : c.state_ = StateE.kDisconnecting
    · rw [if_pos hst]
      exact ⟨hnil, rfl, Channel.isWriting_disableWriting _, rfl, fun _ => ⟨rfl, rfl⟩,
        fun h => absurd hst h⟩
    · rw [if_neg hst]
      exact ⟨hnil, rfl, Channel.isWriting_disableWriting _, rfl, fun h => absurd h hst,
        fun _ => rfl⟩

/-- C16 at a connection in state `kDisconnecting` whose output buffer holds three bytes:
the write accepts all three, and the write side is shut down once. -/
theorem handleWrite_postcondition_witness :
    (TcpConnection.handleWrite
        { TcpConnection.init 1 [] 5 [] [] with
          state_ := StateE.kDisconnecting, events_ := 7,
          outputBuffer_ := (Buffer.init 4).append [1, 2, 3] }
        3 0).shutdownWrites_ = 0 + 1 :=
  ((handleWrite_postcondition
      { TcpConnection.init 1 [] 5 [] [] with
        state_ := StateE.kDisconnecting, events_ := 7,
        outputBuffer_ := (Buffer.init 4).append [1, 2, 3] }
      3 0 (by decide)).2.2.2.2 (by decide) (by decide) (by decide)).2.2.2.2.1 (by decide) |>.1

/-! ## C17: readFd -/

/-- C17: on a buffer satisfying the index invariant, with `::readv` returning `n` and
filling the first `n` bytes of the writable region followed by `extrabuf` (handed over
only when `writableBytes < 65536`) with `data`. The capacity offered to the `::readv` is
at least 65536 bytes. When `n < 0`, `readFd` returns `n`, stores `errno` at `saveErrno`
and leaves the buffer unchanged. When `n >= 0` lies within the offered capacity (the bytes
read lying in the address space behind `writerIndex_`), `readFd` returns `n`, leaves the
value at `saveErrno`, keeps the index invariant, and the readable content afterwards is
the old readable content followed by the `n` bytes of `data` in order, both when
`n <= writableBytes` and when the overflow is appended from `extrabuf`. -/
theorem readFd_appends (b : Buffer) (n : Int) (data : List Byte) (errno saveErrno : Int)
    (hinv : b.Inv) :
    Buffer.kExtraBufSize = 65536 ∧ 65536 ≤ b.readvCapacity ∧
    (n < 0 → b.readFd n data errno saveErrno = { n := n, saveErrno := errno, buf := b }) ∧
    (0 ≤ n → n = (data.length : Int) → data.length ≤ b.readvCapacity →
      b.writerIndex_ + data.length < SIZE_MOD →
      (b.readFd n data errno saveErrno).n = n ∧
      (b.readFd n data errno saveErrno).saveErrno = saveErrno ∧
      (b.readFd n data errno saveErrno).buf.Inv ∧
      (b.readFd n data errno saveErrno).buf.readable = b.readable ++ data ∧
      (b.readFd n data errno saveErrno).buf.readableBytes
        = b.readableBytes + data.length) := by
  refine ⟨rfl, Buffer.iovcnt_capacity b, ?_, ?_⟩
  · intro hn
    unfold Buffer.readFd
    dsimp only
    rw [if_pos hn]
  · intro h0 hn hcap hspace
    obtain ⟨h1, h2, h3, h4⟩ := Buffer.readFd_spec b n data errno saveErrno hinv h0 hn hcap hspace
    refine ⟨h1, h2, h3, h4, ?_⟩
    rw [← Buffer.readable_length h3, h4, List.length_append, Buffer.readable_length hinv]

/-- C17 at a buffer with 4 writable bytes holding `[1]`, to which `::readv` delivers six
bytes: three fill the writable region, three come from `extrabuf`. -/
theorem readFd_appends_witness :
    (Buffer.readFd ((Buffer.init 4).append [1]) 6 [2, 3, 4, 5, 6, 7] 0 0).buf.readable
      = ((Buffer.init 4).append [1]).readable ++ [2, 3, 4, 5, 6, 7] :=
  ((readFd_appends ((Buffer.init 4).append [1]) 6 [2, 3, 4, 5, 6, 7] 0 0 (by decide)).2.2.2
    (by decide) (by decide) (by decide) (by decide)).2.2.2.1

/-! ## C18: the buffered write path conserves the bytes -/

/-- C18: on a connection in a state other than `kDisconnected` whose output buffer
satisfies the index invariant, every sequence of `sendInLoop(m_1)`, ..., `sendInLoop(m_k)`
interleaved with `handleWrite`, where each `::write` accepts at most what it is given, or
fails with any error: all operations return, the state is unchanged, and the bytes
accepted by the socket followed by the readable content of the output buffer are what
they were before followed by `m_1 ++ ... ++ m_k`, hence exactly `m_1 ++ ... ++ m_k` when
nothing had been sent or buffered. In particular `sendInLoop` writes nothing directly when
the output buffer is not empty (the whole message is appended), and after a direct write
of `nwrote` bytes exactly the suffix of the message from offset `nwrote` is appended. -/
theorem write_path_conserves_bytes (c : TcpConnection) (ops : List ConnOp)
    (hst : c.state_ ≠ StateE.kDisconnected) (hinv : c.outputBuffer_.Inv)
    (hops : ∀ op ∈ ops, op.writePath = true) (henv : allConn ConnOp.envOk c ops = true) :
    (runConn c ops).isReturned = true ∧ (runConn c ops).conn.state_ = c.state_ ∧
    (runConn c ops).conn.sent_ ++ (runConn c ops).conn.outputBuffer_.readable
      = c.sent_ ++ c.outputBuffer_.readable ++ messages ops ∧
    (c.sent_ = [] → c.outputBuffer_.readable = [] →
      (runConn c ops).conn.sent_ ++ (runConn c ops).conn.outputBuffer_.readable
        = messages ops) ∧
    (∀ message nwrote errno, nwrote ≤ (message.length : Int) →
      c.outputBuffer_.writerIndex_ + message.length < SIZE_MOD →
      (0 < c.outputBuffer_.readableBytes →
        (c.sendInLoop message nwrote errno).sent_ = c.sent_ ∧
        (c.sendInLoop message nwrote errno).outputBuffer_.readable
          = c.outputBuffer_.readable ++ message) ∧
      (Channel.isWriting c.events_ = false → c.outputBuffer_.readableBytes = 0 → 0 ≤ nwrote →
        (c.sendInLoop message nwrote errno).sent_ = c.sent_ ++ message.take nwrote.toNat ∧
        (c.sendInLoop message nwrote errno).outputBuffer_.readable
          = c.outputBuffer_.readable ++ message.drop nwrote.toNat)) := by
  obtain ⟨r1, r2, _, r4⟩ := writePath_run ops c hst hinv hops henv
  refine ⟨r1, r2, r4, ?_, ?_⟩
  · intro h1 h2
    rw [r4, h1, h2]; rfl
  · intro message nwrote errno hw hsp
    obtain ⟨k, _, hk0, hkn, hs, _, hr, _, _, _, _⟩ :=
      TcpConnection.sendInLoop_spec c message nwrote errno hst hinv hw hsp
    constructor
    · intro hpos
      have hk : k = 0 := by
        by_contra hne
        have := (hk0 hne).2
        omega
      subst hk
      rw [hs, hr]
      simp
    · intro ha hb h0
      rw [hs, hr, hkn ha hb h0]
      exact ⟨rfl, rfl⟩

/-- C18 at a connection with a 4-byte output buffer: six bytes sent of which two go out
directly, three more sent while write interest is on, then two `handleWrite`. -/
theorem write_path_conserves_bytes_witness :
    (runConn { TcpConnection.init 1 [] 5 [] [] with
          state_ := StateE.kConnected, events_ := Channel.kReadEvent,
          outputBuffer_ := Buffer.init 4 }
        [ConnOp.sendInLoop [1, 2, 3, 4, 5, 6] 2 0, ConnOp.sendInLoop [7, 8, 9] 3 0,
          ConnOp.handleWrite 3 0, ConnOp.handleWrite (-1) 11]).conn.sent_
      ++ (runConn { TcpConnection.init 1 [] 5 [] [] with
          state_ := StateE.kConnected, events_ := Channel.kReadEvent,
          outputBuffer_ := Buffer.init 4 }
        [ConnOp.sendInLoop [1, 2, 3, 4, 5, 6] 2 0, ConnOp.sendInLoop [7, 8, 9] 3 0,
          ConnOp.handleWrite 3 0, ConnOp.handleWrite (-1) 11]).conn.outputBuffer_.readable
      = messages [ConnOp.sendInLoop [1, 2, 3, 4, 5, 6] 2 0, ConnOp.sendInLoop [7, 8, 9] 3 0,
          ConnOp.handleWrite 3 0, ConnOp.handleWrite (-1) 11] :=
  (write_path_conserves_bytes
    { TcpConnection.init 1 [] 5 [] [] with
      state_ := StateE.kConnected, events_ := Channel.kReadEvent,
      outputBuffer_ := Buffer.init 4 }
    [ConnOp.sendInLoop [1, 2, 3, 4, 5, 6] 2 0, ConnOp.sendInLoop [7, 8, 9] 3 0,
      ConnOp.handleWrite 3 0, ConnOp.handleWrite (-1) 11]
    (by decide) (by decide) (by decide) (by decide)).2.2.2.1 (by decide) (by decide)

/-! ## C19: write interest tracks pending output -/

/-- C19: take a connection just constructed (any callbacks, any high-water mark),
`connectEstablished` once, then any sequence of the other operations (`sendInLoop`,
`handleWrite`, `handleRead`, `handleError`, `shutdown` on either thread, `shutdownInLoop`,
`handleClose`, `connectDestroyed`, and `send`), whose `::write` calls accept at most what
they are given or fail. In the state reached, whether the last operation returned or a
callback threw, if the state is not `kDisconnected` the channel is writing if and only if
the output buffer has readable bytes. -/
theorem write_interest_tracks_output (loop : EventLoop) (nameArg : Str) (sockfd : Int)
    (localAddr peerAddr : Str) (ccb mcb wcb hcb clcb : Bool) (hwm : Nat) (ops : List ConnOp)
    (hops : ∀ op ∈ ops, op.afterEstablished = true)
    (henv : allConn ConnOp.envOk (TcpConnection.fresh loop nameArg sockfd localAddr peerAddr
      ccb mcb wcb hcb clcb hwm).connectEstablished.conn ops = true) :
    ∀ c, c = (runConn (TcpConnection.fresh loop nameArg sockfd localAddr peerAddr
        ccb mcb wcb hcb clcb hwm) (ConnOp.connectEstablished :: ops)).conn →
      c.state_ ≠ StateE.kDisconnected →
      (Channel.isWriting c.events_ = true ↔ 0 < c.outputBuffer_.readableBytes) := by
  intro c hc
  have h0 := TcpConnection.fresh_established loop nameArg sockfd localAddr peerAddr
    ccb mcb wcb hcb clcb hwm
  have hrun := runConn_established (fun c => c.WriteTracks) ConnOp.afterEstablished
    (fun c op hP hA hE => TcpConnection.writeTracks_step c op hP hA hE)
    ops _ h0.1 hops henv
  rw [← hc] at hrun
  exact hrun.2

set_option maxRecDepth 100000 in
/-- C19 at a run that buffers four bytes, half-closes, reads and writes part of them: the
state is `kDisconnecting`, the channel is writing and two bytes are pending. -/
theorem write_interest_tracks_output_witness :
    Channel.isWriting (runConn (TcpConnection.fresh 1 [] 5 [] [] true true false false true 1024)
        [ConnOp.connectEstablished, ConnOp.sendInLoop [1, 2, 3, 4, 5, 6] 2 0,
          ConnOp.shutdown false, ConnOp.handleRead 2 [8, 9] 0, ConnOp.shutdownInLoop,
          ConnOp.handleWrite 2 0]).conn.events_ = true ↔
      0 < (runConn (TcpConnection.fresh 1 [] 5 [] [] true true false false true 1024)
        [ConnOp.connectEstablished, ConnOp.sendInLoop [1, 2, 3, 4, 5, 6] 2 0,
          ConnOp.shutdown false, ConnOp.handleRead 2 [8, 9] 0, ConnOp.shutdownInLoop,
          ConnOp.handleWrite 2 0]).conn.outputBuffer_.readableBytes :=
  write_interest_tracks_output 1 [] 5 [] [] true true false false true 1024
    [ConnOp.sendInLoop [1, 2, 3, 4, 5, 6] 2 0, ConnOp.shutdown false,
      ConnOp.handleRead 2 [8, 9] 0, ConnOp.shutdownInLoop, ConnOp.handleWrite 2 0]
    (by decide) (by decide) _ rfl (by decide)

end Muduo
